import Mathlib

/-! The 2048 board transition engine (game/board.go, game/game.go).

A shallow embedding of the Go package `game`: the 4x4 board, the tile line
reducer `compressAndMergeWithTracking`, the four direction transforms and the
session transition `Game.Move`.

Modelling conventions
* Go `int` is taken to be 64 bits wide (as on amd64 and arm64).  Its values
  are `Int`; the operations that can leave the 64-bit range
  (`compressed[i].value * 2`, `score += newVal`, `result.Score += lineScore`,
  `g.Score += result.Score`) are followed by `wrapInt`, the reduction modulo
  `2^64` into `[-2^63, 2^63)`.  Index arithmetic (`resultIdx++`,
  `BoardSize - 1 - i` for `i` in `0..3`) stays within `0..4` and is exact.
* `[BoardSize][BoardSize]int` is a total map `Fin 4 → Fin 4 → Int`; a slice
  built by `make([]int, BoardSize)` is a map `Fin 4 → Int`.
* `for i := 0; i < BoardSize; i++` is a left fold over `indices = [0,1,2,3]`.
* Methods with a pointer receiver take the receiver and return its new value.
* The two draws of `math/rand` made by `SpawnTile` are the fields of `Rand`.
-/

namespace Game2048

/-- board.go: `const BoardSize = 4`. -/
abbrev BoardSize : Nat := 4

/-- The values taken by a loop counter `for i := 0; i < BoardSize; i++`. -/
def indices : List (Fin BoardSize) := [0, 1, 2, 3]

/-- board.go: `type Position struct { Row, Col int }`. -/
structure Position where
  Row : Int
  Col : Int
deriving DecidableEq

/-- board.go: `type Board struct { Grid [BoardSize][BoardSize]int }`. -/
structure Board where
  Grid : Fin BoardSize → Fin BoardSize → Int

/-- A loop counter as the Go `int` it is stored as. -/
def idx (i : Fin BoardSize) : Int := ((i : Nat) : Int)

/-- The assignment `b.Grid[row][col] = value` for `int` indices. -/
def Board.setCell (b : Board) (row col : Int) (value : Int) : Board :=
  { Grid := fun r c => if idx r = row ∧ idx c = col then value else b.Grid r c }

/-- board.go: `NewBoard`, the zero value of `Board`. -/
def NewBoard : Board := { Grid := fun _ _ => 0 }

/-- board.go: `GetEmptyCells`, all positions holding 0 in row-major order. -/
def Board.GetEmptyCells (b : Board) : List Position :=
  indices.foldl (fun empty row =>
    indices.foldl (fun empty col =>
      if b.Grid row col = 0 then empty ++ [{ Row := idx row, Col := idx col }] else empty)
      empty) []

/-- The outcome of the two `math/rand` calls of one `SpawnTile`: `intn` is the
raw draw that `rand.Intn(n)` reduces into `[0, n)`, `lt10` is the outcome of
the test `rand.Float64() < 0.1`. -/
structure Rand where
  intn : Nat
  lt10 : Bool
deriving DecidableEq

/-- The call `rand.Intn(n)` for `n > 0`: a value in `[0, n)`. -/
def Rand.Intn (rnd : Rand) (n : Nat) : Nat := rnd.intn % n

/-- board.go: `SpawnTile`. Returns the position written (`none` for `nil`) and
the board after the write. -/
def Board.SpawnTile (b : Board) (rnd : Rand) : Option Position × Board :=
  let empty := b.GetEmptyCells
  if h : empty.length = 0 then
    (none, b)
  else
    let pos := empty.get ⟨rnd.Intn empty.length, Nat.mod_lt _ (Nat.pos_of_ne_zero h)⟩
    let value : Int := if rnd.lt10 then 4 else 2
    (some pos, b.setCell pos.Row pos.Col value)

/-- board.go: `Clone`, a cell by cell copy. -/
def Board.Clone (b : Board) : Board :=
  indices.foldl (fun newBoard row =>
    indices.foldl (fun newBoard col =>
      newBoard.setCell (idx row) (idx col) (b.Grid row col)) newBoard) NewBoard

/-- board.go: `Equals`, false at the first differing cell. -/
def Board.Equals (b other : Board) : Bool :=
  indices.all (fun row => indices.all (fun col => decide (b.Grid row col = other.Grid row col)))

/-- board.go: `MaxTile`. -/
def Board.MaxTile (b : Board) : Int :=
  indices.foldl (fun max row =>
    indices.foldl (fun max col => if b.Grid row col > max then b.Grid row col else max) max) 0

/-- board.go: `IsFull`. -/
def Board.IsFull (b : Board) : Bool := decide (b.GetEmptyCells.length = 0)

/-- game.go: `type Direction int` with `Up, Down, Left, Right`. -/
inductive Direction where
  | Up
  | Down
  | Left
  | Right
deriving DecidableEq

/-- game.go: `type TileMove struct`. -/
structure TileMove where
  From : Position
  To : Position
  Value : Int
  Merged : Bool
deriving DecidableEq

/-- game.go: `type MoveResult struct`; `NewTile` is `none` for a nil pointer and
`Moves` is `[]` for a nil or empty slice. -/
structure MoveResult where
  Moved : Bool
  Moves : List TileMove
  Score : Int
  BoardBefore : Fin BoardSize → Fin BoardSize → Int
  BoardState : Fin BoardSize → Fin BoardSize → Int
  NewTile : Option Position

/-- game.go: `type Game struct`. -/
structure Game where
  Board : Board
  Score : Int
  BestScore : Int
  GameOver : Bool
  Won : Bool

/-- game.go: `type moveInfo struct`. -/
structure moveInfo where
  fromIdx : Int
  toIdx : Int
  value : Int
  merged : Bool
deriving DecidableEq

/-- game.go: the local `type tileInfo struct` of `compressAndMergeWithTracking`. -/
structure tileInfo where
  value : Int
  origPos : Int
deriving DecidableEq

/-- The first loop of `compressAndMergeWithTracking`: the non-zero cells of
`line` with their original positions, in order. -/
def compress (line originalPositions : Fin BoardSize → Int) : List tileInfo :=
  indices.foldl (fun compressed i =>
    if line i ≠ 0 then compressed ++ [{ value := line i, origPos := originalPositions i }]
    else compressed) []

/-- The variables of the second loop of `compressAndMergeWithTracking`. -/
structure MergeState where
  result : Fin BoardSize → Int
  resultIdx : Nat
  moves : List moveInfo
  score : Int

/-- The value a Go `int` holds after an arithmetic operation whose exact
result is `x`: `x` reduced modulo `2^64` into `[-2^63, 2^63)`. -/
def wrapInt (x : Int) : Int :=
  (x + 9223372036854775808) % 18446744073709551616 - 9223372036854775808

/-- A value whose double stays in the 64-bit range: `-2^62 ≤ v < 2^62`. -/
def doubleFits (v : Int) : Prop := -4611686018427387904 ≤ v ∧ v < 4611686018427387904

instance (v : Int) : Decidable (doubleFits v) := by
  unfold doubleFits
  infer_instance

/-- The assignment `result[resultIdx] = v`. -/
def setAt (result : Fin BoardSize → Int) (k : Nat) (v : Int) : Fin BoardSize → Int :=
  fun j => if (j : Nat) = k then v else result j

/-- The then-branch of the second loop: tiles `a` and `b` merge. -/
def mergeStep (st : MergeState) (a b : tileInfo) : MergeState :=
  let newVal := wrapInt (a.value * 2)
  { result := setAt st.result st.resultIdx newVal
    resultIdx := st.resultIdx + 1
    moves := st.moves ++
      [{ fromIdx := a.origPos, toIdx := (st.resultIdx : Int), value := a.value, merged := true },
       { fromIdx := b.origPos, toIdx := (st.resultIdx : Int), value := b.value, merged := true }]
    score := wrapInt (st.score + newVal) }

/-- The else-branch of the second loop: tile `a` is carried over. -/
def carryStep (st : MergeState) (a : tileInfo) : MergeState :=
  { result := setAt st.result st.resultIdx a.value
    resultIdx := st.resultIdx + 1
    moves :=
      if a.origPos ≠ (st.resultIdx : Int) then
        st.moves ++
          [{ fromIdx := a.origPos, toIdx := (st.resultIdx : Int), value := a.value, merged := false }]
      else st.moves
    score := st.score }

/-- The second loop of `compressAndMergeWithTracking`, run on the tiles
`compressed[i:]` that are still to be read. -/
def mergeLoop : List tileInfo → MergeState → MergeState
  | [], st => st
  | [a], st => carryStep st a
  | a :: b :: rest, st =>
    if a.value = b.value then mergeLoop rest (mergeStep st a b)
    else mergeLoop (b :: rest) (carryStep st a)

/-- game.go: `compressAndMergeWithTracking`, for the slices of length
`BoardSize` every caller passes. -/
def compressAndMergeWithTracking (line originalPositions : Fin BoardSize → Int) :
    (Fin BoardSize → Int) × List moveInfo × Int :=
  let st := mergeLoop (compress line originalPositions)
    { result := fun _ => 0, resultIdx := 0, moves := [], score := 0 }
  (st.result, st.moves, st.score)

/-- The index `BoardSize - 1 - i` of a loop counter `i`. -/
def mirror (i : Fin BoardSize) : Fin BoardSize := ⟨BoardSize - 1 - (i : Nat), by omega⟩

/-- The zero value of a `make([]int, BoardSize)` slice. -/
def zeroLine : Fin BoardSize → Int := fun _ => 0

/-- The fresh `&MoveResult{Moves: make([]TileMove, 0)}` of a direction transform. -/
def emptyResult : MoveResult :=
  { Moved := false, Moves := [], Score := 0, BoardBefore := fun _ _ => 0,
    BoardState := fun _ _ => 0, NewTile := none }

/-- The body of the outer loop of `moveLeft`: one row is reduced and written back. -/
def Game.moveLeftRow (acc : MoveResult × Game) (row : Fin BoardSize) : MoveResult × Game :=
  let result := acc.1
  let g := acc.2
  let line := indices.foldl (fun line col => setAt line col (g.Board.Grid row col)) zeroLine
  let positions := indices.foldl (fun positions col => setAt positions col (idx col)) zeroLine
  let out := compressAndMergeWithTracking line positions
  let newLine := out.1
  let moves := out.2.1
  let lineScore := out.2.2
  let result := { result with Score := wrapInt (result.Score + lineScore) }
  let result := moves.foldl (fun (result : MoveResult) move =>
    { result with Moves := result.Moves ++
        [{ From := { Row := idx row, Col := move.fromIdx }
           To := { Row := idx row, Col := move.toIdx }
           Value := move.value
           Merged := move.merged }] }) result
  let board := indices.foldl (fun (b : Game2048.Board) col =>
    b.setCell (idx row) (idx col) (newLine col)) g.Board
  (result, { g with Board := board })

/-- game.go: `moveLeft`. Returns the result and the session with the rewritten grid. -/
def Game.moveLeft (g : Game) : MoveResult × Game :=
  indices.foldl Game.moveLeftRow (emptyResult, g)

/-- The body of the outer loop of `moveRight`: one row is reduced and written back. -/
def Game.moveRightRow (acc : MoveResult × Game) (row : Fin BoardSize) : MoveResult × Game :=
  let result := acc.1
  let g := acc.2
  let line := indices.foldl (fun line col =>
    setAt line col (g.Board.Grid row (mirror col))) zeroLine
  let positions := indices.foldl (fun positions col =>
    setAt positions col ((BoardSize : Int) - 1 - idx col)) zeroLine
  let out := compressAndMergeWithTracking line positions
  let newLine := out.1
  let moves := out.2.1
  let lineScore := out.2.2
  let result := { result with Score := wrapInt (result.Score + lineScore) }
  let result := moves.foldl (fun (result : MoveResult) move =>
    { result with Moves := result.Moves ++
        [{ From := { Row := idx row, Col := move.fromIdx }
           To := { Row := idx row, Col := (BoardSize : Int) - 1 - move.toIdx }
           Value := move.value
           Merged := move.merged }] }) result
  let board := indices.foldl (fun (b : Game2048.Board) col =>
    b.setCell (idx row) (idx (mirror col)) (newLine col)) g.Board
  (result, { g with Board := board })

/-- game.go: `moveRight`. -/
def Game.moveRight (g : Game) : MoveResult × Game :=
  indices.foldl Game.moveRightRow (emptyResult, g)

/-- The body of the outer loop of `moveUp`: one column is reduced and written back. -/
def Game.moveUpCol (acc : MoveResult × Game) (col : Fin BoardSize) : MoveResult × Game :=
  let result := acc.1
  let g := acc.2
  let line := indices.foldl (fun line row => setAt line row (g.Board.Grid row col)) zeroLine
  let positions := indices.foldl (fun positions row => setAt positions row (idx row)) zeroLine
  let out := compressAndMergeWithTracking line positions
  let newLine := out.1
  let moves := out.2.1
  let lineScore := out.2.2
  let result := { result with Score := wrapInt (result.Score + lineScore) }
  let result := moves.foldl (fun (result : MoveResult) move =>
    { result with Moves := result.Moves ++
        [{ From := { Row := move.fromIdx, Col := idx col }
           To := { Row := move.toIdx, Col := idx col }
           Value := move.value
           Merged := move.merged }] }) result
  let board := indices.foldl (fun (b : Game2048.Board) row =>
    b.setCell (idx row) (idx col) (newLine row)) g.Board
  (result, { g with Board := board })

/-- game.go: `moveUp`. -/
def Game.moveUp (g : Game) : MoveResult × Game :=
  indices.foldl Game.moveUpCol (emptyResult, g)

/-- The body of the outer loop of `moveDown`: one column is reduced and written back. -/
def Game.moveDownCol (acc : MoveResult × Game) (col : Fin BoardSize) : MoveResult × Game :=
  let result := acc.1
  let g := acc.2
  let line := indices.foldl (fun line row =>
    setAt line row (g.Board.Grid (mirror row) col)) zeroLine
  let positions := indices.foldl (fun positions row =>
    setAt positions row ((BoardSize : Int) - 1 - idx row)) zeroLine
  let out := compressAndMergeWithTracking line positions
  let newLine := out.1
  let moves := out.2.1
  let lineScore := out.2.2
  let result := { result with Score := wrapInt (result.Score + lineScore) }
  let result := moves.foldl (fun (result : MoveResult) move =>
    { result with Moves := result.Moves ++
        [{ From := { Row := move.fromIdx, Col := idx col }
           To := { Row := (BoardSize : Int) - 1 - move.toIdx, Col := idx col }
           Value := move.value
           Merged := move.merged }] }) result
  let board := indices.foldl (fun (b : Game2048.Board) row =>
    b.setCell (idx (mirror row)) (idx col) (newLine row)) g.Board
  (result, { g with Board := board })

/-- game.go: `moveDown`. -/
def Game.moveDown (g : Game) : MoveResult × Game :=
  indices.foldl Game.moveDownCol (emptyResult, g)

/-- The values taken by a loop counter `for i := 0; i < BoardSize-1; i++`. -/
def indicesButLast : List (Fin BoardSize) := [0, 1, 2]

/-- game.go: `canMove`. -/
def Game.canMove (g : Game) : Bool :=
  if !g.Board.IsFull then true
  else if indices.any (fun row => indicesButLast.any (fun col =>
      decide (g.Board.Grid row col = g.Board.Grid row (col + 1)))) then true
  else if indices.any (fun col => indicesButLast.any (fun row =>
      decide (g.Board.Grid row col = g.Board.Grid (row + 1) col))) then true
  else false

/-- The `switch dir` of `Game.Move`: the transform of the direction. -/
def Game.applyDir (g : Game) (dir : Direction) : MoveResult × Game :=
  match dir with
  | Direction.Up => g.moveUp
  | Direction.Down => g.moveDown
  | Direction.Left => g.moveLeft
  | Direction.Right => g.moveRight

/-- game.go: `Move`. Returns the result (`none` for `nil`) and the session
after the call; `rnd` holds the draws of the one `SpawnTile` call. -/
def Game.Move (g : Game) (dir : Direction) (rnd : Rand) : Option MoveResult × Game :=
  if g.GameOver then (none, g)
  else
    let oldBoard := g.Board.Clone
    let boardBefore := g.Board.Grid
    let moved := g.applyDir dir
    let result := moved.1
    let g := moved.2
    if g.Board.Equals oldBoard then
      (some { Moved := false, Moves := [], Score := 0, BoardBefore := boardBefore,
              BoardState := g.Board.Grid, NewTile := none }, g)
    else
      let result := { result with Moved := true, BoardBefore := boardBefore }
      let g := { g with Score := wrapInt (g.Score + result.Score) }
      let g := if g.Score > g.BestScore then { g with BestScore := g.Score } else g
      let g := if g.Board.MaxTile ≥ 2048 ∧ g.Won = false then { g with Won := true } else g
      let spawned := g.Board.SpawnTile rnd
      let newTilePos := spawned.1
      let g := { g with Board := spawned.2 }
      let result := if newTilePos ≠ none then { result with NewTile := newTilePos } else result
      let result := { result with BoardState := g.Board.Grid }
      let g := if g.canMove = false then { g with GameOver := true } else g
      (some result, g)

/-- A sequence of `Move` calls, each with its own direction and random draws. -/
def Game.runMoves (g : Game) (calls : List (Direction × Rand)) : Game :=
  calls.foldl (fun g call => (g.Move call.1 call.2).2) g



/-! ## Reference functions on lists

The reducer restated on plain lists of tile values: used to state what the
loops of `compressAndMergeWithTracking` compute. -/

/-- The non-zero cells of a line, in their original order. -/
def nonZero (line : Fin BoardSize → Int) : List Int :=
  (indices.map line).filter (fun v => v ≠ 0)

/-- Leftmost-greedy pairing of a compacted line: an equal neighbour pair
becomes its 64-bit double, every other tile is kept. -/
def mergeVals : List Int → List Int
  | [] => []
  | [a] => [a]
  | a :: b :: rest =>
    if a = b then wrapInt (a * 2) :: mergeVals rest else a :: mergeVals (b :: rest)

/-- The exact sum of the values created by `mergeVals`. -/
def mergeScore : List Int → Int
  | [] => 0
  | [_] => 0
  | a :: b :: rest =>
    if a = b then wrapInt (a * 2) + mergeScore rest else mergeScore (b :: rest)

/-- The move records emitted while reducing the tiles `l` with the write
cursor at `k`. -/
def mergeMoves : List tileInfo → Nat → List moveInfo
  | [], _ => []
  | [a], k =>
    if a.origPos ≠ (k : Int) then
      [{ fromIdx := a.origPos, toIdx := (k : Int), value := a.value, merged := false }]
    else []
  | a :: b :: rest, k =>
    if a.value = b.value then
      { fromIdx := a.origPos, toIdx := (k : Int), value := a.value, merged := true } ::
      { fromIdx := b.origPos, toIdx := (k : Int), value := b.value, merged := true } ::
      mergeMoves rest (k + 1)
    else
      (if a.origPos ≠ (k : Int) then
        [{ fromIdx := a.origPos, toIdx := (k : Int), value := a.value, merged := false }]
      else []) ++ mergeMoves (b :: rest) (k + 1)

/-- A list of cells read as a line of `BoardSize` cells, zero past its end. -/
def padLine (l : List Int) : Fin BoardSize → Int := fun j => l.getD (j : Nat) 0

/-- The sum of the four cells of a line. -/
def lineSum (line : Fin BoardSize → Int) : Int := line 0 + line 1 + line 2 + line 3

/-- The sum of the sixteen cells of a board. -/
def Board.total (b : Board) : Int :=
  lineSum (b.Grid 0) + lineSum (b.Grid 1) + lineSum (b.Grid 2) + lineSum (b.Grid 3)

/-- The new line computed by the reducer, as a function of the line alone. -/
def reduceLine (line : Fin BoardSize → Int) : Fin BoardSize → Int :=
  padLine (mergeVals (nonZero line))

/-- The grid `moveLeft` writes: every row reduced toward column 0. -/
def leftGrid (G : Fin BoardSize → Fin BoardSize → Int) : Fin BoardSize → Fin BoardSize → Int :=
  fun r c => reduceLine (G r) c

/-- The grid `moveRight` writes: every row reduced toward column 3. -/
def rightGrid (G : Fin BoardSize → Fin BoardSize → Int) : Fin BoardSize → Fin BoardSize → Int :=
  fun r c => reduceLine (fun k => G r (mirror k)) (mirror c)

/-- The grid `moveUp` writes: every column reduced toward row 0. -/
def upGrid (G : Fin BoardSize → Fin BoardSize → Int) : Fin BoardSize → Fin BoardSize → Int :=
  fun r c => reduceLine (fun k => G k c) r

/-- The grid `moveDown` writes: every column reduced toward row 3. -/
def downGrid (G : Fin BoardSize → Fin BoardSize → Int) : Fin BoardSize → Fin BoardSize → Int :=
  fun r c => reduceLine (fun k => G (mirror k) c) (mirror r)

/-- The grid written by the transform of a direction. -/
def dirGrid (dir : Direction) (G : Fin BoardSize → Fin BoardSize → Int) :
    Fin BoardSize → Fin BoardSize → Int :=
  match dir with
  | Direction.Up => upGrid G
  | Direction.Down => downGrid G
  | Direction.Left => leftGrid G
  | Direction.Right => rightGrid G

/-- A session with the given grid and zeroed score fields, still running. -/
def sessionOf (G : Fin BoardSize → Fin BoardSize → Int) : Game :=
  { Board := ⟨G⟩, Score := 0, BestScore := 0, GameOver := false, Won := false }

/-- A grid whose row 0 is `[2,0,0,0]`: moving left changes nothing. -/
def gridStuckLeft : Fin BoardSize → Fin BoardSize → Int :=
  ![![2, 0, 0, 0], ![0, 0, 0, 0], ![0, 0, 0, 0], ![0, 0, 0, 0]]

/-- The grid of the end-to-end scenario: row 0 is `[2,2,0,0]`. -/
def gridPair : Fin BoardSize → Fin BoardSize → Int :=
  ![![2, 2, 0, 0], ![0, 0, 0, 0], ![0, 0, 0, 0], ![0, 0, 0, 0]]

/-- A grid whose row 0 is `[2^62, 2^62, 0, 0]`: the double of its tiles leaves
the 64-bit range. -/
def gridOverflow : Fin BoardSize → Fin BoardSize → Int :=
  ![![4611686018427387904, 4611686018427387904, 0, 0], ![0, 0, 0, 0], ![0, 0, 0, 0],
    ![0, 0, 0, 0]]

/-- A grid whose row 0 is `[1024, 1024, 0, 0]`: moving left creates a 2048 tile. -/
def gridWin : Fin BoardSize → Fin BoardSize → Int :=
  ![![1024, 1024, 0, 0], ![0, 0, 0, 0], ![0, 0, 0, 0], ![0, 0, 0, 0]]

/-- The session of the end-to-end scenario with score `s`. -/
def scenario (s best : Int) (won : Bool) : Game :=
  { Board := ⟨gridPair⟩, Score := s, BestScore := best, GameOver := false, Won := won }

/-- The identity origin indices `[0,1,2,3]`. -/
def originIndices : Fin BoardSize → Int := ![0, 1, 2, 3]

/-- The destination index of cell `i` under compaction: the number of
non-zero cells to its left. -/
def slideDest (line : Fin BoardSize → Int) (i : Fin BoardSize) : Nat :=
  (indices.filter (fun k => decide (k < i ∧ line k ≠ 0))).length

/-- One unmerged record per non-zero cell whose destination differs from its
origin, left to right. -/
def expectedSlides (line : Fin BoardSize → Int) : List moveInfo :=
  (indices.filter (fun i => decide (line i ≠ 0 ∧ idx i ≠ (slideDest line i : Int)))).map
    (fun i => { fromIdx := idx i, toIdx := (slideDest line i : Int), value := line i,
                merged := false })

/-- No two non-zero cells that are neighbours once the zeros between them are
ignored hold the same value. -/
def noEqualNeighbours (line : Fin BoardSize → Int) : Prop :=
  ∀ i j : Fin BoardSize, i < j → line i ≠ 0 → line j ≠ 0 →
    (∀ k, i < k → k < j → line k = 0) → line i ≠ line j

instance (line : Fin BoardSize → Int) : Decidable (noEqualNeighbours line) := by
  unfold noEqualNeighbours
  infer_instance

/-- How a group of input cells feeds one output cell: a single tile carried
over unchanged, or two tiles of equal value replaced by their double. -/
def feeds (line : Fin BoardSize → Int) (block : List (Fin BoardSize)) (out : Int) : Prop :=
  (∃ i, block = [i] ∧ out = line i) ∨
  (∃ i j, block = [i, j] ∧ line i = line j ∧ out = 2 * line i)

/-- How a group of input cells feeds one output cell of the reducer: a single
tile carried over unchanged, or two tiles of equal value replaced by their
64-bit double. -/
def feeds64 (line : Fin BoardSize → Int) (block : List (Fin BoardSize)) (out : Int) : Prop :=
  (∃ i, block = [i] ∧ out = line i) ∨
  (∃ i j, block = [i, j] ∧ line i = line j ∧ out = wrapInt (line i * 2))

/-- The line `[2^62, 2^62, 2^62, 0]`. -/
def lineOverflow : Fin BoardSize → Int :=
  ![4611686018427387904, 4611686018427387904, 4611686018427387904, 0]

/-- game.go: `NewGame`; `rnd1` and `rnd2` hold the draws of the two `SpawnTile` calls. -/
def NewGame (bestScore : Int) (rnd1 rnd2 : Rand) : Game :=
  let g : Game :=
    { Board := NewBoard, Score := 0, BestScore := bestScore, GameOver := false, Won := false }
  let g := { g with Board := (g.Board.SpawnTile rnd1).2 }
  let g := { g with Board := (g.Board.SpawnTile rnd2).2 }
  g

/-- game.go: `Reset`; `rnd1` and `rnd2` hold the draws of the two `SpawnTile` calls. -/
def Game.Reset (g : Game) (rnd1 rnd2 : Rand) : Game :=
  let g := { g with Board := NewBoard }
  let g := { g with Score := 0 }
  let g := { g with GameOver := false }
  let g := { g with Won := false }
  let g := { g with Board := (g.Board.SpawnTile rnd1).2 }
  let g := { g with Board := (g.Board.SpawnTile rnd2).2 }
  g

/-- The positions slice of `moveRight` and `moveDown`: `BoardSize - 1 - i`. -/
def mirrorPos (i : Fin BoardSize) : Int := (BoardSize : Int) - 1 - idx i

/-- The `TileMove` appended by `moveLeft` for a line record of row `row`. -/
def leftRecord (row : Fin BoardSize) (move : moveInfo) : TileMove :=
  { From := { Row := idx row, Col := move.fromIdx }
    To := { Row := idx row, Col := move.toIdx }
    Value := move.value
    Merged := move.merged }

/-- The `TileMove` appended by `moveRight` for a line record of row `row`. -/
def rightRecord (row : Fin BoardSize) (move : moveInfo) : TileMove :=
  { From := { Row := idx row, Col := move.fromIdx }
    To := { Row := idx row, Col := (BoardSize : Int) - 1 - move.toIdx }
    Value := move.value
    Merged := move.merged }

/-- The `TileMove` appended by `moveUp` for a line record of column `col`. -/
def upRecord (col : Fin BoardSize) (move : moveInfo) : TileMove :=
  { From := { Row := move.fromIdx, Col := idx col }
    To := { Row := move.toIdx, Col := idx col }
    Value := move.value
    Merged := move.merged }

/-- The `TileMove` appended by `moveDown` for a line record of column `col`. -/
def downRecord (col : Fin BoardSize) (move : moveInfo) : TileMove :=
  { From := { Row := move.fromIdx, Col := idx col }
    To := { Row := (BoardSize : Int) - 1 - move.toIdx, Col := idx col }
    Value := move.value
    Merged := move.merged }

/-- The line records of the reducer for a line and its positions slice. -/
def lineMoves (line pos : Fin BoardSize → Int) : List moveInfo :=
  mergeMoves (compress line pos) 0

/-- The score of the reducer for a line: the sum of the created values as
the 64-bit accumulator `score` holds it. -/
def lineScore (line : Fin BoardSize → Int) : Int := wrapInt (mergeScore (nonZero line))

/-- The line with index `i` that the transform of a direction extracts from a grid. -/
def dirLine (dir : Direction) (G : Fin BoardSize → Fin BoardSize → Int) (i : Fin BoardSize) :
    Fin BoardSize → Int :=
  match dir with
  | Direction.Up => fun k => G k i
  | Direction.Down => fun k => G (mirror k) i
  | Direction.Left => G i
  | Direction.Right => fun k => G i (mirror k)

/-- The positions slice the transform of a direction passes to the reducer. -/
def dirPos (dir : Direction) : Fin BoardSize → Int :=
  match dir with
  | Direction.Up => idx
  | Direction.Down => mirrorPos
  | Direction.Left => idx
  | Direction.Right => mirrorPos

/-- The `TileMove` the transform of a direction appends for a record of line `i`. -/
def dirRecord (dir : Direction) (i : Fin BoardSize) (move : moveInfo) : TileMove :=
  match dir with
  | Direction.Up => upRecord i move
  | Direction.Down => downRecord i move
  | Direction.Left => leftRecord i move
  | Direction.Right => rightRecord i move

/-- The move records of a transform: the records of lines 0 to 3, in this order. -/
def dirMoves (dir : Direction) (G : Fin BoardSize → Fin BoardSize → Int) : List TileMove :=
  (indices.map (fun i => (lineMoves (dirLine dir G i) (dirPos dir)).map (dirRecord dir i))).flatten

/-- The score of a transform: the scores of its four lines added one after the
other into the 64-bit field `result.Score`. -/
def dirScore (dir : Direction) (G : Fin BoardSize → Fin BoardSize → Int) : Int :=
  indices.foldl (fun score i => wrapInt (score + lineScore (dirLine dir G i))) 0

/-- A session with its grid replaced. -/
def Game.withGrid (g : Game) (G : Fin BoardSize → Fin BoardSize → Int) : Game :=
  { g with Board := ⟨G⟩ }

/-- The horizontal mirror of a grid: every row reversed. -/
def mirrorH (G : Fin BoardSize → Fin BoardSize → Int) : Fin BoardSize → Fin BoardSize → Int :=
  fun r c => G r (mirror c)

/-- The vertical mirror of a grid: every column reversed. -/
def mirrorV (G : Fin BoardSize → Fin BoardSize → Int) : Fin BoardSize → Fin BoardSize → Int :=
  fun r c => G (mirror r) c

/-- The transpose of a grid. -/
def transposeGrid (G : Fin BoardSize → Fin BoardSize → Int) :
    Fin BoardSize → Fin BoardSize → Int :=
  fun r c => G c r

/-- The grid cell (row, column) from which a transform reads cell `k` of line `i`. -/
def dirCell (dir : Direction) (i k : Fin BoardSize) : Fin BoardSize × Fin BoardSize :=
  match dir with
  | Direction.Up => (k, i)
  | Direction.Down => (mirror k, i)
  | Direction.Left => (i, k)
  | Direction.Right => (i, mirror k)

/-- A grid with a single tile 2 in the top right corner. -/
def gridCornerRight : Fin BoardSize → Fin BoardSize → Int :=
  ![![0, 0, 0, 2], ![0, 0, 0, 0], ![0, 0, 0, 0], ![0, 0, 0, 0]]

/-- A grid with a single tile 2 in the top left corner. -/
def gridCornerLeft : Fin BoardSize → Fin BoardSize → Int :=
  ![![2, 0, 0, 0], ![0, 0, 0, 0], ![0, 0, 0, 0], ![0, 0, 0, 0]]

/-- The cells of row `r`, left to right. -/
def rowCells (r : Fin BoardSize) : List (Fin BoardSize × Fin BoardSize) :=
  indices.map (fun c => (r, c))

/-- The sixteen cells of the grid in row-major order. -/
def rowMajor : List (Fin BoardSize × Fin BoardSize) :=
  rowCells 0 ++ rowCells 1 ++ rowCells 2 ++ rowCells 3

/-- A grid without a zero cell. -/
def gridFull : Fin BoardSize → Fin BoardSize → Int :=
  ![![2, 4, 2, 4], ![4, 2, 4, 2], ![2, 4, 2, 4], ![4, 2, 4, 2]]

/-- The merged records among the records the reducer emits for the tiles `l`
with the write cursor at `k`. -/
def mergedRecords : List tileInfo → Nat → List moveInfo
  | [], _ => []
  | [_], _ => []
  | a :: b :: rest, k =>
    if a.value = b.value then
      { fromIdx := a.origPos, toIdx := (k : Int), value := a.value, merged := true } ::
      { fromIdx := b.origPos, toIdx := (k : Int), value := b.value, merged := true } ::
      mergedRecords rest (k + 1)
    else mergedRecords (b :: rest) (k + 1)

/-- Whether grid cell `p` is the target of a merged record. -/
def isMergeTarget (moves : List TileMove) (p : Fin BoardSize × Fin BoardSize) : Bool :=
  moves.any (fun m => m.Merged && decide (m.To = { Row := idx p.1, Col := idx p.2 }))

/-- The sum of the cells of grid `G` that are the target of a merged record:
the tiles created by a merge. -/
def createdSum (moves : List TileMove) (G : Fin BoardSize → Fin BoardSize → Int) : Int :=
  (rowMajor.map (fun p => if isMergeTarget moves p then G p.1 p.2 else 0)).sum

/-- Whether cell `k` of a reduced line is the target of a merged line record. -/
def isLineTarget (moves : List moveInfo) (k : Fin BoardSize) : Bool :=
  moves.any (fun m => m.merged && decide (m.toIdx = idx k))

/-- The sum of the cells of a reduced line that are the target of a merged
line record. -/
def lineCreated (moves : List moveInfo) (newLine : Fin BoardSize → Int) : Int :=
  (indices.map (fun k => if isLineTarget moves k then newLine k else 0)).sum

/-- The sum of the cells `vals`, laid out from index `k` on, that are the
target of one of the line records `moves`. -/
def createdList (moves : List moveInfo) : List Int → Nat → Int
  | [], _ => 0
  | v :: vs, k =>
    (if moves.any (fun m => decide (m.toIdx = (k : Int))) then v else 0)
      + createdList moves vs (k + 1)

/-- The `Position` of a grid cell. -/
def posOf (p : Fin BoardSize × Fin BoardSize) : Position := { Row := idx p.1, Col := idx p.2 }

/-- Two cells lie on the same line of a direction: the same row for `Left`
and `Right`, the same column for `Up` and `Down`. -/
def sameLine (dir : Direction) (p q : Fin BoardSize × Fin BoardSize) : Prop :=
  match dir with
  | Direction.Up => p.2 = q.2
  | Direction.Down => p.2 = q.2
  | Direction.Left => p.1 = q.1
  | Direction.Right => p.1 = q.1

/-- A line that the reducer leaves as it is: no zero cell left of a non-zero
cell and no non-zero cell equal to its right neighbour. -/
def lineSettled (line : Fin BoardSize → Int) : Prop :=
  (line 0 = 0 → line 1 = 0) ∧ (line 1 = 0 → line 2 = 0) ∧ (line 2 = 0 → line 3 = 0) ∧
  (line 0 ≠ 0 → line 0 ≠ line 1) ∧ (line 1 ≠ 0 → line 1 ≠ line 2) ∧
  (line 2 ≠ 0 → line 2 ≠ line 3)

/-- The all-zero grid. -/
def gridZero : Fin BoardSize → Fin BoardSize → Int := fun _ _ => 0

/-- A legal cell value: 0 (empty) or a power of two that is at least 2. -/
def isTileValue (v : Int) : Prop := v = 0 ∨ ∃ k : Nat, 1 ≤ k ∧ v = 2 ^ k

/-- Every cell of the board is 0 or a power of two that is at least 2. -/
def validBoard (b : Board) : Prop := ∀ r c, isTileValue (b.Grid r c)

/-- The number of entries of a list that are at least `T`. -/
def listCount (T : Int) : List Int → Int
  | [] => 0
  | x :: xs => (if T ≤ x then 1 else 0) + listCount T xs

/-- The number of cells of a line that are at least `T`. -/
def lineCount (T : Int) (line : Fin BoardSize → Int) : Int :=
  (indices.map (fun k => if T ≤ line k then (1 : Int) else 0)).sum

/-- The number of cells of a grid that are at least `T`. -/
def countGE (T : Int) (G : Fin BoardSize → Fin BoardSize → Int) : Int :=
  (rowMajor.map (fun p => if T ≤ G p.1 p.2 then (1 : Int) else 0)).sum

/-- The capacity bound of a 4x4 board: for every exponent `t` from 1 to 18, at
most `18 - t` cells hold `2^t` or more; in particular no cell holds `2^18`. -/
def packed (G : Fin BoardSize → Fin BoardSize → Int) : Prop :=
  ∀ t : Nat, 1 ≤ t → t ≤ 18 → countGE (2 ^ t) G + (t : Int) ≤ 18

/-- The invariant of play: every cell is 0 or a power of two that is at least
2, and the board respects the capacity bound. -/
def playable (b : Board) : Prop := validBoard b ∧ packed b.Grid

/-- The sessions reachable from `NewGame` by `Move` and `Reset`, for all
outcomes of the random draws. -/
inductive Reachable : Game → Prop
  | newGame (bestScore : Int) (rnd1 rnd2 : Rand) : Reachable (NewGame bestScore rnd1 rnd2)
  | move (g : Game) (dir : Direction) (rnd : Rand) : Reachable g → Reachable (g.Move dir rnd).2
  | reset (g : Game) (rnd1 rnd2 : Rand) : Reachable g → Reachable (g.Reset rnd1 rnd2)

/-! ## 64-bit arithmetic -/

theorem wrapInt_of_range (x : Int) (h1 : -9223372036854775808 ≤ x)
    (h2 : x < 9223372036854775808) : wrapInt x = x := by
  unfold wrapInt
  omega

theorem wrapInt_range (x : Int) :
    -9223372036854775808 ≤ wrapInt x ∧ wrapInt x < 9223372036854775808 := by
  unfold wrapInt
  omega

theorem wrapInt_zero : wrapInt 0 = 0 := by decide

theorem wrapInt_wrapInt (x : Int) : wrapInt (wrapInt x) = wrapInt x :=
  wrapInt_of_range _ (wrapInt_range x).1 (wrapInt_range x).2

theorem wrapInt_add_left (a b : Int) : wrapInt (wrapInt a + b) = wrapInt (a + b) := by
  unfold wrapInt
  omega

theorem wrapInt_add_right (a b : Int) : wrapInt (a + wrapInt b) = wrapInt (a + b) := by
  unfold wrapInt
  omega

/-- The 64-bit double of a non-zero value differs from the value. -/
theorem wrapInt_double_ne (a : Int) (h : a ≠ 0) (h1 : -9223372036854775808 ≤ a)
    (h2 : a < 9223372036854775808) : wrapInt (a * 2) ≠ a := by
  unfold wrapInt
  omega

theorem wrapInt_double (v : Int) (h : doubleFits v) : wrapInt (v * 2) = v * 2 := by
  unfold doubleFits at h
  exact wrapInt_of_range _ (by omega) (by omega)

/-! ## The loops of the reducer -/

theorem idx_inj (a b : Fin BoardSize) : idx a = idx b ↔ a = b := by
  unfold idx
  constructor
  · intro h
    exact Fin.ext (by exact_mod_cast h)
  · intro h
    rw [h]

theorem fill_eq (f : Fin BoardSize → Int) :
    indices.foldl (fun line i => setAt line i (f i)) zeroLine = f := by
  funext j
  fin_cases j <;> rfl

theorem foldl_appendIf {α β : Type} (p : α → Prop) [DecidablePred p] (f : α → β)
    (l : List α) (init : List β) :
    l.foldl (fun acc x => if p x then acc ++ [f x] else acc) init
      = init ++ (l.filter (fun x => decide (p x))).map f := by
  induction l generalizing init with
  | nil => simp
  | cons x xs ih =>
    simp only [List.foldl_cons, ih]
    by_cases hx : p x <;> simp [hx, List.filter_cons]

theorem compress_eq (line pos : Fin BoardSize → Int) :
    compress line pos = (indices.filter (fun i => decide (line i ≠ 0))).map
      (fun i => ({ value := line i, origPos := pos i } : tileInfo)) := by
  unfold compress
  rw [foldl_appendIf (fun i => line i ≠ 0)]
  simp

theorem compress_values (line pos : Fin BoardSize → Int) :
    (compress line pos).map tileInfo.value = nonZero line := by
  rw [compress_eq, nonZero, List.map_map, List.filter_map]
  rfl

theorem compress_length_le (line pos : Fin BoardSize → Int) :
    (compress line pos).length ≤ BoardSize := by
  rw [compress_eq, List.length_map]
  exact (List.length_filter_le _ _).trans (by simp [indices])

theorem mergeLoop_resultIdx (l : List tileInfo) (st : MergeState) :
    (mergeLoop l st).resultIdx = st.resultIdx + (mergeVals (l.map tileInfo.value)).length := by
  induction l, st using mergeLoop.induct with
  | case1 st => simp [mergeLoop, mergeVals]
  | case2 a st => simp [mergeLoop, mergeVals, carryStep]
  | case3 a b rest st h ih =>
    rw [mergeLoop, if_pos h, ih]
    simp only [List.map_cons, mergeVals, if_pos h, mergeStep, List.length_cons]
    omega
  | case4 a b rest st h ih =>
    rw [mergeLoop, if_neg h, ih]
    simp only [List.map_cons, mergeVals, if_neg h, carryStep, List.length_cons]
    omega

/-- The accumulator `score` holds the exact sum of the created values
reduced into the 64-bit range. -/
theorem mergeLoop_score (l : List tileInfo) (st : MergeState) (x : Int)
    (hx : st.score = wrapInt x) :
    (mergeLoop l st).score = wrapInt (x + mergeScore (l.map tileInfo.value)) := by
  induction l, st using mergeLoop.induct generalizing x with
  | case1 st => simp [mergeLoop, mergeScore, hx]
  | case2 a st => simp [mergeLoop, mergeScore, carryStep, hx]
  | case3 a b rest st h ih =>
    rw [mergeLoop, if_pos h, ih (x + wrapInt (a.value * 2))]
    · simp only [List.map_cons, mergeScore, if_pos h]
      rw [add_assoc]
    · simp only [mergeStep, hx]
      exact wrapInt_add_left _ _
  | case4 a b rest st h ih =>
    rw [mergeLoop, if_neg h, ih x]
    · simp only [List.map_cons, mergeScore, if_neg h]
    · simpa only [carryStep] using hx

theorem mergeLoop_moves (l : List tileInfo) (st : MergeState) :
    (mergeLoop l st).moves = st.moves ++ mergeMoves l st.resultIdx := by
  induction l, st using mergeLoop.induct with
  | case1 st => simp [mergeLoop, mergeMoves]
  | case2 a st =>
    simp only [mergeLoop, mergeMoves, carryStep]
    split_ifs <;> simp
  | case3 a b rest st h ih =>
    rw [mergeLoop, if_pos h, ih]
    simp only [mergeMoves, if_pos h, mergeStep, List.append_assoc, List.cons_append,
      List.nil_append]
  | case4 a b rest st h ih =>
    rw [mergeLoop, if_neg h, ih]
    simp only [mergeMoves, if_neg h, carryStep]
    split_ifs <;> simp

theorem getD_shift (l : List Int) (x d : Int) (j k : Nat) (h1 : ¬ j < k) (h2 : j ≠ k) :
    ((x :: l).get? (j - k)).getD d = (l.get? (j - (k + 1))).getD d := by
  have : j - k = (j - (k + 1)) + 1 := by omega
  rw [this]
  simp

theorem mergeLoop_result (l : List tileInfo) (st : MergeState) (j : Fin BoardSize) :
    (mergeLoop l st).result j =
      if (j : Nat) < st.resultIdx then st.result j
      else ((mergeVals (l.map tileInfo.value)).get? ((j : Nat) - st.resultIdx)).getD
        (st.result j) := by
  induction l, st using mergeLoop.induct with
  | case1 st => simp [mergeLoop, mergeVals]
  | case2 a st =>
    simp only [mergeLoop, carryStep, setAt, List.map_cons, List.map_nil, mergeVals]
    by_cases h1 : (j : Nat) < st.resultIdx
    · have h3 : (j : Nat) ≠ st.resultIdx := by omega
      simp [h1, h3]
    · by_cases h2 : (j : Nat) = st.resultIdx
      · simp [h2]
      · rw [if_neg h1, if_neg h2, getD_shift _ _ _ _ _ h1 h2]
        simp
  | case3 a b rest st h ih =>
    rw [mergeLoop, if_pos h, ih]
    simp only [List.map_cons, mergeVals, if_pos h, mergeStep, setAt]
    by_cases h1 : (j : Nat) < st.resultIdx
    · have h4 : (j : Nat) < st.resultIdx + 1 := by omega
      have h3 : (j : Nat) ≠ st.resultIdx := by omega
      simp [h1, h4, h3]
    · by_cases h2 : (j : Nat) = st.resultIdx
      · simp [h2]
      · have h3 : ¬ (j : Nat) < st.resultIdx + 1 := by omega
        rw [if_neg h1, if_neg h3, if_neg h2, getD_shift _ _ _ _ _ h1 h2]
  | case4 a b rest st h ih =>
    rw [mergeLoop, if_neg h, ih]
    simp only [List.map_cons, mergeVals, if_neg h, carryStep, setAt]
    by_cases h1 : (j : Nat) < st.resultIdx
    · have h4 : (j : Nat) < st.resultIdx + 1 := by omega
      have h3 : (j : Nat) ≠ st.resultIdx := by omega
      simp [h1, h4, h3]
    · by_cases h2 : (j : Nat) = st.resultIdx
      · simp [h2]
      · have h3 : ¬ (j : Nat) < st.resultIdx + 1 := by omega
        rw [if_neg h1, if_neg h3, if_neg h2, getD_shift _ _ _ _ _ h1 h2]

/-- The reducer in closed form: new line, move records and score. -/
theorem cam_eq (line pos : Fin BoardSize → Int) :
    compressAndMergeWithTracking line pos =
      (padLine (mergeVals (nonZero line)), mergeMoves (compress line pos) 0,
        wrapInt (mergeScore (nonZero line))) := by
  unfold compressAndMergeWithTracking
  have hs := mergeLoop_score (compress line pos)
    { result := fun _ => 0, resultIdx := 0, moves := [], score := 0 } 0 wrapInt_zero.symm
  simp only [mergeLoop_moves, hs, compress_values, List.nil_append, zero_add]
  congr 1
  funext j
  rw [mergeLoop_result, compress_values]
  simp [padLine, List.getD_eq_getElem?_getD]


/-! ## Properties of one reduced line -/

theorem adjacent_cases (P : Fin BoardSize → Fin BoardSize → Prop)
    (h01 : P 0 1) (h12 : P 1 2) (h23 : P 2 3) :
    ∀ c c2 : Fin BoardSize, (c2 : Nat) = (c : Nat) + 1 → P c c2 := by
  intro c c2 h
  fin_cases c <;> fin_cases c2 <;>
    first
    | exact h01
    | exact h12
    | exact h23
    | (exfalso; revert h; decide)

theorem all_cases (P : Fin BoardSize → Prop) (h0 : P 0) (h1 : P 1) (h2 : P 2) (h3 : P 3) :
    ∀ c : Fin BoardSize, P c := by
  intro c
  fin_cases c
  · exact h0
  · exact h1
  · exact h2
  · exact h3

theorem cam_line (line pos : Fin BoardSize → Int) :
    (compressAndMergeWithTracking line pos).1 = reduceLine line := by
  rw [cam_eq, reduceLine]

theorem nonZero_cases (line : Fin BoardSize → Int) :
    nonZero line =
      (if line 0 ≠ 0 then [line 0] else []) ++ ((if line 1 ≠ 0 then [line 1] else []) ++
        ((if line 2 ≠ 0 then [line 2] else []) ++ (if line 3 ≠ 0 then [line 3] else []))) := by
  simp only [nonZero, indices, List.map_cons, List.map_nil, List.filter_cons, List.filter_nil]
  by_cases h0 : line 0 = 0 <;> by_cases h1 : line 1 = 0 <;> by_cases h2 : line 2 = 0 <;>
    by_cases h3 : line 3 = 0 <;> simp [h0, h1, h2, h3]

theorem padLine_apply (l : List Int) :
    padLine l 0 = l.getD 0 0 ∧ padLine l 1 = l.getD 1 0 ∧ padLine l 2 = l.getD 2 0
      ∧ padLine l 3 = l.getD 3 0 := ⟨rfl, rfl, rfl, rfl⟩

/-- A reduction without 64-bit overflow keeps the sum of the line. -/
theorem lineSum_reduceLine (line : Fin BoardSize → Int) (h : ∀ i, doubleFits (line i)) :
    lineSum (reduceLine line) = lineSum line := by
  have hw : ∀ i, wrapInt (line i * 2) = line i * 2 := fun i => wrapInt_double _ (h i)
  simp only [reduceLine, lineSum, nonZero_cases, padLine_apply]
  by_cases h0 : line 0 = 0 <;> by_cases h1 : line 1 = 0 <;> by_cases h2 : line 2 = 0 <;>
    by_cases h3 : line 3 = 0 <;>
    simp only [h0, h1, h2, h3, ne_eq, not_true_eq_false, not_false_eq_true, if_true, if_false,
      List.nil_append, List.cons_append, List.append_nil, mergeVals, hw] <;>
    (try split_ifs) <;> simp <;> (try omega)

theorem reduceLine_full (line : Fin BoardSize → Int) (hne : reduceLine line 3 ≠ 0) :
    reduceLine line 0 = line 0 ∧ reduceLine line 1 = line 1 ∧ reduceLine line 2 = line 2
      ∧ reduceLine line 3 = line 3 := by
  revert hne
  simp only [reduceLine, nonZero_cases, padLine_apply]
  by_cases h0 : line 0 = 0 <;> by_cases h1 : line 1 = 0 <;> by_cases h2 : line 2 = 0 <;>
    by_cases h3 : line 3 = 0 <;>
    simp only [h0, h1, h2, h3, ne_eq, not_true_eq_false, not_false_eq_true, if_true, if_false,
      List.nil_append, List.cons_append, List.append_nil, mergeVals] <;>
    (try split_ifs) <;> simp

theorem reduceLine_last (line : Fin BoardSize → Int) (h : reduceLine line ≠ line) :
    reduceLine line 3 = 0 := by
  by_contra hne
  obtain ⟨e0, e1, e2, e3⟩ := reduceLine_full line hne
  apply h
  funext j
  fin_cases j
  · exact e0
  · exact e1
  · exact e2
  · exact e3

theorem mergeVals_length_le (l : List Int) : (mergeVals l).length ≤ l.length := by
  induction l using mergeVals.induct with
  | case1 => simp [mergeVals]
  | case2 a => simp [mergeVals]
  | case3 a rest ih =>
    simp only [mergeVals, if_true, List.length_cons]
    omega
  | case4 a b rest h ih =>
    simp only [mergeVals, if_neg h, List.length_cons] at ih ⊢
    omega

/-- Every write `result[resultIdx] = v` of the reducer is in bounds: the write
cursor ends at most at `BoardSize`. -/
theorem mergeLoop_in_bounds (line pos : Fin BoardSize → Int) :
    (mergeLoop (compress line pos)
      { result := fun _ => 0, resultIdx := 0, moves := [], score := 0 }).resultIdx
      ≤ BoardSize := by
  rw [mergeLoop_resultIdx]
  simp only [zero_add]
  have h1 := mergeVals_length_le ((compress line pos).map tileInfo.value)
  have h2 := compress_length_le line pos
  rw [List.length_map] at h1
  omega

set_option maxHeartbeats 1000000 in
theorem reduceLine_not_erase0 (line : Fin BoardSize → Int) :
    (line 0 = 2 ∨ line 0 = 4) → reduceLine line 0 = 0 →
    reduceLine line 1 = line 1 →
    reduceLine line 2 = line 2 →
    reduceLine line 3 = line 3 → False := by
  obtain ⟨w, hw, w1, w2, w3, w4⟩ : ∃ w : Int → Int, (∀ x, wrapInt x = w x) ∧
      w 4 ≠ 0 ∧ w 8 ≠ 0 ∧ w 4 ≠ 2 ∧ w 8 ≠ 4 :=
    ⟨wrapInt, fun _ => rfl, by decide, by decide, by decide, by decide⟩
  intro hv
  simp only [reduceLine, nonZero_cases, padLine_apply]
  rcases hv with hv | hv <;>
  by_cases h0 : line 0 = 0 <;> by_cases h1 : line 1 = 0 <;> by_cases h2 : line 2 = 0 <;>
    by_cases h3 : line 3 = 0 <;>
    simp only [h0, h1, h2, h3, ne_eq, not_true_eq_false, not_false_eq_true, if_true, if_false,
      List.nil_append, List.cons_append, List.append_nil, mergeVals, hw] <;>
    (try split_ifs) <;> simp <;> intros <;> (try simp_all) <;> (try omega)

set_option maxHeartbeats 1000000 in
theorem reduceLine_not_erase1 (line : Fin BoardSize → Int) :
    (line 1 = 2 ∨ line 1 = 4) → reduceLine line 1 = 0 →
    reduceLine line 0 = line 0 →
    reduceLine line 2 = line 2 →
    reduceLine line 3 = line 3 → False := by
  obtain ⟨w, hw, w1, w2, w3, w4⟩ : ∃ w : Int → Int, (∀ x, wrapInt x = w x) ∧
      w 4 ≠ 0 ∧ w 8 ≠ 0 ∧ w 4 ≠ 2 ∧ w 8 ≠ 4 :=
    ⟨wrapInt, fun _ => rfl, by decide, by decide, by decide, by decide⟩
  intro hv
  simp only [reduceLine, nonZero_cases, padLine_apply]
  rcases hv with hv | hv <;>
  by_cases h0 : line 0 = 0 <;> by_cases h1 : line 1 = 0 <;> by_cases h2 : line 2 = 0 <;>
    by_cases h3 : line 3 = 0 <;>
    simp only [h0, h1, h2, h3, ne_eq, not_true_eq_false, not_false_eq_true, if_true, if_false,
      List.nil_append, List.cons_append, List.append_nil, mergeVals, hw] <;>
    (try split_ifs) <;> simp <;> intros <;> (try simp_all) <;> (try omega)

set_option maxHeartbeats 1000000 in
theorem reduceLine_not_erase2 (line : Fin BoardSize → Int) :
    (line 2 = 2 ∨ line 2 = 4) → reduceLine line 2 = 0 →
    reduceLine line 0 = line 0 →
    reduceLine line 1 = line 1 →
    reduceLine line 3 = line 3 → False := by
  obtain ⟨w, hw, w1, w2, w3, w4⟩ : ∃ w : Int → Int, (∀ x, wrapInt x = w x) ∧
      w 4 ≠ 0 ∧ w 8 ≠ 0 ∧ w 4 ≠ 2 ∧ w 8 ≠ 4 :=
    ⟨wrapInt, fun _ => rfl, by decide, by decide, by decide, by decide⟩
  intro hv
  simp only [reduceLine, nonZero_cases, padLine_apply]
  rcases hv with hv | hv <;>
  by_cases h0 : line 0 = 0 <;> by_cases h1 : line 1 = 0 <;> by_cases h2 : line 2 = 0 <;>
    by_cases h3 : line 3 = 0 <;>
    simp only [h0, h1, h2, h3, ne_eq, not_true_eq_false, not_false_eq_true, if_true, if_false,
      List.nil_append, List.cons_append, List.append_nil, mergeVals, hw] <;>
    (try split_ifs) <;> simp <;> intros <;> (try simp_all) <;>
    (try (intro hx; rename_i ha; rw [← hx] at ha; norm_num at ha; first | exact w3 ha | exact w4 ha))

set_option maxHeartbeats 1000000 in
theorem reduceLine_not_erase3 (line : Fin BoardSize → Int) :
    (line 3 = 2 ∨ line 3 = 4) → reduceLine line 3 = 0 →
    reduceLine line 0 = line 0 →
    reduceLine line 1 = line 1 →
    reduceLine line 2 = line 2 → False := by
  obtain ⟨w, hw, w1, w2, w3, w4⟩ : ∃ w : Int → Int, (∀ x, wrapInt x = w x) ∧
      w 4 ≠ 0 ∧ w 8 ≠ 0 ∧ w 4 ≠ 2 ∧ w 8 ≠ 4 :=
    ⟨wrapInt, fun _ => rfl, by decide, by decide, by decide, by decide⟩
  intro hv
  simp only [reduceLine, nonZero_cases, padLine_apply]
  rcases hv with hv | hv <;>
  by_cases h0 : line 0 = 0 <;> by_cases h1 : line 1 = 0 <;> by_cases h2 : line 2 = 0 <;>
    by_cases h3 : line 3 = 0 <;>
    simp only [h0, h1, h2, h3, ne_eq, not_true_eq_false, not_false_eq_true, if_true, if_false,
      List.nil_append, List.cons_append, List.append_nil, mergeVals, hw] <;>
    (try split_ifs) <;> simp <;> intros <;> (try simp_all) <;> (try omega) <;>
    (try (intro hx; rename_i ha; rw [← hx] at ha; norm_num at ha; first | exact w3 ha | exact w4 ha))

/-- No reduction of a line is the line with one tile 2 or 4 erased: writing a
new tile into a cell that is empty after the reduction never restores the line
as it was. -/
theorem reduceLine_not_erase (line : Fin BoardSize → Int) (k : Fin BoardSize)
    (hv : line k = 2 ∨ line k = 4) (hk : reduceLine line k = 0)
    (hrest : ∀ j, j ≠ k → reduceLine line j = line j) : False := by
  fin_cases k
  · exact reduceLine_not_erase0 line hv hk (hrest 1 (by decide)) (hrest 2 (by decide))
      (hrest 3 (by decide))
  · exact reduceLine_not_erase1 line hv hk (hrest 0 (by decide)) (hrest 2 (by decide))
      (hrest 3 (by decide))
  · exact reduceLine_not_erase2 line hv hk (hrest 0 (by decide)) (hrest 1 (by decide))
      (hrest 3 (by decide))
  · exact reduceLine_not_erase3 line hv hk (hrest 0 (by decide)) (hrest 1 (by decide))
      (hrest 2 (by decide))


/-! ## The four direction transforms in closed form -/

theorem mirror_mirror (i : Fin BoardSize) : mirror (mirror i) = i := by
  fin_cases i <;> rfl

theorem writeRow_eq (B : Board) (row : Fin BoardSize) (nl : Fin BoardSize → Int) :
    indices.foldl (fun (b : Board) col => b.setCell (idx row) (idx col) (nl col)) B
      = { Grid := fun r c => if r = row then nl c else B.Grid r c } := by
  simp only [indices, List.foldl_cons, List.foldl_nil, Board.setCell, idx_inj]
  congr 1
  funext r c
  by_cases hr : r = row
  · subst hr
    simp only [true_and, if_true]
    fin_cases c <;> rfl
  · simp [hr]

theorem writeRowMirror_eq (B : Board) (row : Fin BoardSize) (nl : Fin BoardSize → Int) :
    indices.foldl (fun (b : Board) col => b.setCell (idx row) (idx (mirror col)) (nl col)) B
      = { Grid := fun r c => if r = row then nl (mirror c) else B.Grid r c } := by
  simp only [indices, List.foldl_cons, List.foldl_nil, Board.setCell, idx_inj]
  congr 1
  funext r c
  by_cases hr : r = row
  · subst hr
    simp only [true_and, if_true]
    fin_cases c <;> rfl
  · simp [hr]

theorem writeCol_eq (B : Board) (col : Fin BoardSize) (nl : Fin BoardSize → Int) :
    indices.foldl (fun (b : Board) row => b.setCell (idx row) (idx col) (nl row)) B
      = { Grid := fun r c => if c = col then nl r else B.Grid r c } := by
  simp only [indices, List.foldl_cons, List.foldl_nil, Board.setCell, idx_inj]
  congr 1
  funext r c
  by_cases hc : c = col
  · subst hc
    simp only [and_true, if_true]
    fin_cases r <;> rfl
  · simp [hc]

theorem writeColMirror_eq (B : Board) (col : Fin BoardSize) (nl : Fin BoardSize → Int) :
    indices.foldl (fun (b : Board) row => b.setCell (idx (mirror row)) (idx col) (nl row)) B
      = { Grid := fun r c => if c = col then nl (mirror r) else B.Grid r c } := by
  simp only [indices, List.foldl_cons, List.foldl_nil, Board.setCell, idx_inj]
  congr 1
  funext r c
  by_cases hc : c = col
  · subst hc
    simp only [and_true, if_true]
    fin_cases r <;> rfl
  · simp [hc]

theorem moveLeftRow_game (acc : MoveResult × Game) (row : Fin BoardSize) :
    (Game.moveLeftRow acc row).2 =
      { acc.2 with
        Board := ⟨fun r c =>
          if r = row then reduceLine (acc.2.Board.Grid row) c else acc.2.Board.Grid r c⟩ } := by
  simp only [Game.moveLeftRow, writeRow_eq, cam_line]
  rw [fill_eq (fun col => acc.2.Board.Grid row col)]

theorem moveRightRow_game (acc : MoveResult × Game) (row : Fin BoardSize) :
    (Game.moveRightRow acc row).2 =
      { acc.2 with
        Board := ⟨fun r c =>
          if r = row then reduceLine (fun k => acc.2.Board.Grid row (mirror k)) (mirror c)
          else acc.2.Board.Grid r c⟩ } := by
  simp only [Game.moveRightRow, writeRowMirror_eq, cam_line]
  rw [fill_eq (fun col => acc.2.Board.Grid row (mirror col))]

theorem moveUpCol_game (acc : MoveResult × Game) (col : Fin BoardSize) :
    (Game.moveUpCol acc col).2 =
      { acc.2 with
        Board := ⟨fun r c =>
          if c = col then reduceLine (fun k => acc.2.Board.Grid k col) r
          else acc.2.Board.Grid r c⟩ } := by
  simp only [Game.moveUpCol, writeCol_eq, cam_line]
  rw [fill_eq (fun row => acc.2.Board.Grid row col)]

theorem moveDownCol_game (acc : MoveResult × Game) (col : Fin BoardSize) :
    (Game.moveDownCol acc col).2 =
      { acc.2 with
        Board := ⟨fun r c =>
          if c = col then reduceLine (fun k => acc.2.Board.Grid (mirror k) col) (mirror r)
          else acc.2.Board.Grid r c⟩ } := by
  simp only [Game.moveDownCol, writeColMirror_eq, cam_line]
  rw [fill_eq (fun row => acc.2.Board.Grid (mirror row) col)]

theorem moveLeft_game (g : Game) :
    g.moveLeft.2 = { g with Board := { Grid := leftGrid g.Board.Grid } } := by
  simp only [Game.moveLeft, indices, List.foldl_cons, List.foldl_nil, moveLeftRow_game]
  congr 2
  funext r c
  fin_cases r <;> rfl

theorem moveRight_game (g : Game) :
    g.moveRight.2 = { g with Board := { Grid := rightGrid g.Board.Grid } } := by
  simp only [Game.moveRight, indices, List.foldl_cons, List.foldl_nil, moveRightRow_game]
  congr 2
  funext r c
  fin_cases r <;> rfl

theorem moveUp_game (g : Game) :
    g.moveUp.2 = { g with Board := { Grid := upGrid g.Board.Grid } } := by
  simp only [Game.moveUp, indices, List.foldl_cons, List.foldl_nil, moveUpCol_game]
  congr 2
  funext r c
  fin_cases c <;> rfl

theorem moveDown_game (g : Game) :
    g.moveDown.2 = { g with Board := { Grid := downGrid g.Board.Grid } } := by
  simp only [Game.moveDown, indices, List.foldl_cons, List.foldl_nil, moveDownCol_game]
  congr 2
  funext r c
  fin_cases c <;> rfl

theorem applyDir_game (g : Game) (dir : Direction) :
    (g.applyDir dir).2 = { g with Board := { Grid := dirGrid dir g.Board.Grid } } := by
  cases dir
  · exact moveUp_game g
  · exact moveDown_game g
  · exact moveLeft_game g
  · exact moveRight_game g


/-! ## Board operations -/

theorem fin_mk_two (h : 2 < BoardSize) : (⟨2, h⟩ : Fin BoardSize) = 2 := rfl

theorem fin_mk_three (h : 3 < BoardSize) : (⟨3, h⟩ : Fin BoardSize) = 3 := rfl

theorem mem_indices (i : Fin BoardSize) : i ∈ indices := by
  fin_cases i <;> decide

theorem setCell_grid (b : Board) (row col : Fin BoardSize) (v : Int) (r c : Fin BoardSize) :
    (b.setCell (idx row) (idx col) v).Grid r c = if r = row ∧ c = col then v else b.Grid r c := by
  simp only [Board.setCell, idx_inj]

theorem total_setCell (b : Board) (row col : Fin BoardSize) (v : Int) :
    (b.setCell (idx row) (idx col) v).total = b.total + (v - b.Grid row col) := by
  simp only [Board.total, lineSum, setCell_grid]
  fin_cases row <;> fin_cases col <;> simp [fin_mk_two, fin_mk_three] <;> ring

theorem Clone_eq (b : Board) : b.Clone = b := by
  cases b with
  | mk G =>
    simp only [Board.Clone, indices, List.foldl_cons, List.foldl_nil, NewBoard, Board.setCell,
      idx_inj]
    congr 1
    funext r c
    fin_cases r <;> fin_cases c <;> rfl

theorem Equals_iff (b other : Board) : b.Equals other = true ↔ b.Grid = other.Grid := by
  constructor
  · intro h
    simp only [Board.Equals, indices, List.all_cons, List.all_nil, Bool.and_true,
      Bool.and_eq_true, decide_eq_true_eq] at h
    funext r c
    fin_cases r <;> fin_cases c <;> simp [fin_mk_two, fin_mk_three, h]
  · intro h
    simp [Board.Equals, h]


/-- The empty cells of one row, as the inner loop of `GetEmptyCells` appends them. -/
theorem emptyRow_eq (b : Board) (row : Fin BoardSize) (empty : List Position) :
    indices.foldl (fun empty col =>
      if b.Grid row col = 0 then empty ++ [({ Row := idx row, Col := idx col } : Position)]
      else empty) empty
    = empty ++ (indices.filter (fun col => decide (b.Grid row col = 0))).map
        (fun col => ({ Row := idx row, Col := idx col } : Position)) :=
  foldl_appendIf (fun col => b.Grid row col = 0) _ indices empty

theorem mem_GetEmptyCells (b : Board) (p : Position) :
    p ∈ b.GetEmptyCells ↔ ∃ r c, b.Grid r c = 0 ∧ p = { Row := idx r, Col := idx c } := by
  unfold Board.GetEmptyCells
  simp only [emptyRow_eq]
  simp only [indices, List.foldl_cons, List.foldl_nil, List.nil_append, List.mem_append,
    List.mem_map, List.mem_filter, decide_eq_true_eq]
  constructor
  · rintro (((⟨c, ⟨_, hc⟩, rfl⟩ | ⟨c, ⟨_, hc⟩, rfl⟩) | ⟨c, ⟨_, hc⟩, rfl⟩) | ⟨c, ⟨_, hc⟩, rfl⟩)
    · exact ⟨0, c, hc, rfl⟩
    · exact ⟨1, c, hc, rfl⟩
    · exact ⟨2, c, hc, rfl⟩
    · exact ⟨3, c, hc, rfl⟩
  · rintro ⟨r, c, hc, rfl⟩
    have hmem : c ∈ [(0 : Fin BoardSize), 1, 2, 3] := mem_indices c
    fin_cases r
    · exact Or.inl (Or.inl (Or.inl ⟨c, ⟨hmem, hc⟩, rfl⟩))
    · exact Or.inl (Or.inl (Or.inr ⟨c, ⟨hmem, hc⟩, rfl⟩))
    · exact Or.inl (Or.inr ⟨c, ⟨hmem, hc⟩, rfl⟩)
    · exact Or.inr ⟨c, ⟨hmem, hc⟩, rfl⟩

theorem GetEmptyCells_length_eq_zero (b : Board) :
    b.GetEmptyCells.length = 0 ↔ ∀ r c, b.Grid r c ≠ 0 := by
  rw [List.length_eq_zero]
  constructor
  · intro h r c hz
    have : ({ Row := idx r, Col := idx c } : Position) ∈ b.GetEmptyCells :=
      (mem_GetEmptyCells b _).2 ⟨r, c, hz, rfl⟩
    rw [h] at this
    exact List.not_mem_nil _ this
  · intro h
    apply List.eq_nil_iff_forall_not_mem.2
    intro p hp
    obtain ⟨r, c, hz, _⟩ := (mem_GetEmptyCells b p).1 hp
    exact h r c hz

theorem IsFull_iff (b : Board) : b.IsFull = true ↔ ∀ r c, b.Grid r c ≠ 0 := by
  simp only [Board.IsFull, decide_eq_true_eq, GetEmptyCells_length_eq_zero]

/-- On a board with an empty cell `SpawnTile` writes 2 or 4 into an empty cell
and returns its position. -/
theorem SpawnTile_of_empty (b : Board) (rnd : Rand) (h : ∃ r c, b.Grid r c = 0) :
    ∃ r c, b.Grid r c = 0 ∧
      b.SpawnTile rnd = (some { Row := idx r, Col := idx c },
        b.setCell (idx r) (idx c) (if rnd.lt10 then 4 else 2)) := by
  have hlen : ¬ b.GetEmptyCells.length = 0 := by
    rw [GetEmptyCells_length_eq_zero]
    obtain ⟨r, c, hz⟩ := h
    exact fun hall => hall r c hz
  unfold Board.SpawnTile
  simp only [hlen, dite_false]
  obtain ⟨r, c, hz, hp⟩ := (mem_GetEmptyCells b _).1
    (List.get_mem b.GetEmptyCells (rnd.Intn b.GetEmptyCells.length)
      (Nat.mod_lt _ (Nat.pos_of_ne_zero hlen)))
  refine ⟨r, c, hz, ?_⟩
  rw [hp]

/-- On a full board `SpawnTile` returns nil and writes nothing. -/
theorem SpawnTile_of_full (b : Board) (rnd : Rand) (h : ∀ r c, b.Grid r c ≠ 0) :
    b.SpawnTile rnd = (none, b) := by
  have hlen : b.GetEmptyCells.length = 0 := (GetEmptyCells_length_eq_zero b).2 h
  unfold Board.SpawnTile
  simp only [hlen, dite_true]

theorem canMove_eq_false_iff (g : Game) :
    g.canMove = false ↔
      (∀ r c, g.Board.Grid r c ≠ 0) ∧
      (∀ r (c c2 : Fin BoardSize), (c2 : Nat) = (c : Nat) + 1 →
        g.Board.Grid r c ≠ g.Board.Grid r c2) ∧
      (∀ (r r2 : Fin BoardSize) c, (r2 : Nat) = (r : Nat) + 1 →
        g.Board.Grid r c ≠ g.Board.Grid r2 c) := by
  unfold Game.canMove
  by_cases hfull : g.Board.IsFull = true
  · have hf := (IsFull_iff g.Board).1 hfull
    simp only [hfull, Bool.not_true, Bool.false_eq_true, if_false]
    constructor
    · intro h
      refine ⟨hf, ?_, ?_⟩
      · intro r c c2 hc heq
        revert h
        fin_cases r <;> fin_cases c <;> fin_cases c2 <;> simp at hc <;>
          simp_all [indices, indicesButLast, fin_mk_two, fin_mk_three]
      · intro r r2 c hr heq
        revert h
        fin_cases c <;> fin_cases r <;> fin_cases r2 <;> simp at hr <;>
          simp_all [indices, indicesButLast, fin_mk_two, fin_mk_three]
    · rintro ⟨_, hh, hv⟩
      have h1 : indices.any (fun row => indicesButLast.any (fun col =>
          decide (g.Board.Grid row col = g.Board.Grid row (col + 1)))) = false := by
        simp only [indices, indicesButLast, List.any_cons, List.any_nil, Bool.or_false,
          Bool.or_eq_false_iff, decide_eq_false_iff_not]
        refine ⟨⟨?_, ?_, ?_⟩, ⟨?_, ?_, ?_⟩, ⟨?_, ?_, ?_⟩, ⟨?_, ?_, ?_⟩⟩ <;>
          exact hh _ _ _ (by decide)
      have h2 : indices.any (fun col => indicesButLast.any (fun row =>
          decide (g.Board.Grid row col = g.Board.Grid (row + 1) col))) = false := by
        simp only [indices, indicesButLast, List.any_cons, List.any_nil, Bool.or_false,
          Bool.or_eq_false_iff, decide_eq_false_iff_not]
        refine ⟨⟨?_, ?_, ?_⟩, ⟨?_, ?_, ?_⟩, ⟨?_, ?_, ?_⟩, ⟨?_, ?_, ?_⟩⟩ <;>
          exact hv _ _ _ (by decide)
      simp [h1, h2]
  · have hf : ¬ ∀ r c, g.Board.Grid r c ≠ 0 := fun h => hfull ((IsFull_iff g.Board).2 h)
    simp only [hfull, Bool.not_false, if_true]
    constructor
    · intro h
      exact absurd h (by decide)
    · rintro ⟨h, _⟩
      exact absurd h hf

/-- A running maximum is at least `T` exactly when its start value or one of
the values read is. -/
theorem foldl_max_ge {α : Type} (f : α → Int) (T : Int) (l : List α) (m : Int) :
    T ≤ l.foldl (fun max x => if f x > max then f x else max) m ↔
      T ≤ m ∨ ∃ x ∈ l, T ≤ f x := by
  induction l generalizing m with
  | nil => simp
  | cons x xs ih =>
    rw [List.foldl_cons, ih]
    by_cases h : f x > m
    · rw [if_pos h]
      constructor
      · rintro (h1 | ⟨y, hy, h2⟩)
        · exact Or.inr ⟨x, List.mem_cons_self _ _, h1⟩
        · exact Or.inr ⟨y, List.mem_cons_of_mem _ hy, h2⟩
      · rintro (h1 | ⟨y, hy, h2⟩)
        · exact Or.inl (by omega)
        · rcases List.mem_cons.1 hy with rfl | hy
          · exact Or.inl h2
          · exact Or.inr ⟨y, hy, h2⟩
    · rw [if_neg h]
      constructor
      · rintro (h1 | ⟨y, hy, h2⟩)
        · exact Or.inl h1
        · exact Or.inr ⟨y, List.mem_cons_of_mem _ hy, h2⟩
      · rintro (h1 | ⟨y, hy, h2⟩)
        · exact Or.inl h1
        · rcases List.mem_cons.1 hy with rfl | hy
          · exact Or.inl (by omega)
          · exact Or.inr ⟨y, hy, h2⟩

theorem foldl_rows_max_ge (b : Board) (T : Int) (l : List (Fin BoardSize)) (m : Int) :
    T ≤ l.foldl (fun max row =>
        indices.foldl (fun max col => if b.Grid row col > max then b.Grid row col else max) max) m ↔
      T ≤ m ∨ ∃ row ∈ l, ∃ col, T ≤ b.Grid row col := by
  induction l generalizing m with
  | nil => simp
  | cons x xs ih =>
    rw [List.foldl_cons, ih, foldl_max_ge (fun col => b.Grid x col)]
    constructor
    · rintro ((h1 | ⟨col, _, h2⟩) | ⟨row, hrow, col, h2⟩)
      · exact Or.inl h1
      · exact Or.inr ⟨x, List.mem_cons_self _ _, col, h2⟩
      · exact Or.inr ⟨row, List.mem_cons_of_mem _ hrow, col, h2⟩
    · rintro (h1 | ⟨row, hrow, col, h2⟩)
      · exact Or.inl (Or.inl h1)
      · rcases List.mem_cons.1 hrow with rfl | hrow
        · exact Or.inl (Or.inr ⟨col, mem_indices col, h2⟩)
        · exact Or.inr ⟨row, hrow, col, h2⟩

/-- `MaxTile` is the largest of 0 and the sixteen cells: it reaches a value `T`
exactly when `T ≤ 0` or some cell reaches `T`. -/
theorem MaxTile_ge_iff (b : Board) (T : Int) :
    T ≤ b.MaxTile ↔ T ≤ 0 ∨ ∃ r c, T ≤ b.Grid r c := by
  unfold Board.MaxTile
  rw [foldl_rows_max_ge]
  constructor
  · rintro (h | ⟨r, _, c, h⟩)
    · exact Or.inl h
    · exact Or.inr ⟨r, c, h⟩
  · rintro (h | ⟨r, c, h⟩)
    · exact Or.inl h
    · exact Or.inr ⟨r, mem_indices r, c, h⟩

/-- `MaxTile` reaches 2048 exactly when some cell does. -/
theorem MaxTile_win_iff (b : Board) : b.MaxTile ≥ 2048 ↔ ∃ r c, b.Grid r c ≥ 2048 := by
  have h := MaxTile_ge_iff b 2048
  simp only [ge_iff_le]
  rw [h]
  constructor
  · rintro (h0 | h1)
    · exact absurd h0 (by decide)
    · exact h1
  · exact Or.inr

/-! ## Sums and empty cells of a transformed grid -/

theorem lineSum_mirror (f : Fin BoardSize → Int) : lineSum (fun k => f (mirror k)) = lineSum f := by
  have h : lineSum (fun k => f (mirror k)) = f 3 + f 2 + f 1 + f 0 := rfl
  rw [h, lineSum]
  ring

theorem total_cols (G : Fin BoardSize → Fin BoardSize → Int) :
    Board.total ⟨G⟩ = lineSum (fun r => G r 0) + lineSum (fun r => G r 1)
      + lineSum (fun r => G r 2) + lineSum (fun r => G r 3) := by
  simp only [Board.total, lineSum]
  ring

theorem lineSum_leftGrid (G : Fin BoardSize → Fin BoardSize → Int)
    (hG : ∀ r c, doubleFits (G r c)) (r : Fin BoardSize) :
    lineSum (leftGrid G r) = lineSum (G r) :=
  lineSum_reduceLine (G r) (hG r)

theorem lineSum_rightGrid (G : Fin BoardSize → Fin BoardSize → Int)
    (hG : ∀ r c, doubleFits (G r c)) (r : Fin BoardSize) :
    lineSum (rightGrid G r) = lineSum (G r) := by
  have h : rightGrid G r = fun c => reduceLine (fun k => G r (mirror k)) (mirror c) := rfl
  rw [h, lineSum_mirror (reduceLine (fun k => G r (mirror k))),
    lineSum_reduceLine _ (fun k => hG r (mirror k)), lineSum_mirror (G r)]

theorem lineSum_upGrid (G : Fin BoardSize → Fin BoardSize → Int)
    (hG : ∀ r c, doubleFits (G r c)) (c : Fin BoardSize) :
    lineSum (fun r => upGrid G r c) = lineSum (fun r => G r c) :=
  lineSum_reduceLine (fun r => G r c) (fun r => hG r c)

theorem lineSum_downGrid (G : Fin BoardSize → Fin BoardSize → Int)
    (hG : ∀ r c, doubleFits (G r c)) (c : Fin BoardSize) :
    lineSum (fun r => downGrid G r c) = lineSum (fun r => G r c) := by
  have h : (fun r => downGrid G r c)
      = fun r => reduceLine (fun k => G (mirror k) c) (mirror r) := rfl
  rw [h, lineSum_mirror (reduceLine (fun k => G (mirror k) c)),
    lineSum_reduceLine _ (fun k => hG (mirror k) c), lineSum_mirror (fun r => G r c)]

/-- A transform without 64-bit overflow keeps the sum of the sixteen cells. -/
theorem total_dirGrid (dir : Direction) (G : Fin BoardSize → Fin BoardSize → Int)
    (hG : ∀ r c, doubleFits (G r c)) :
    Board.total ⟨dirGrid dir G⟩ = Board.total ⟨G⟩ := by
  cases dir
  · rw [total_cols, total_cols]
    simp only [dirGrid, lineSum_upGrid G hG]
  · rw [total_cols, total_cols]
    simp only [dirGrid, lineSum_downGrid G hG]
  · simp only [Board.total, dirGrid, lineSum_leftGrid G hG]
  · simp only [Board.total, dirGrid, lineSum_rightGrid G hG]

theorem mirror_three : mirror 3 = 0 := rfl

theorem mirror_zero : mirror 0 = 3 := rfl

/-- A transform that changes the grid leaves an empty cell. -/
theorem dirGrid_empty (dir : Direction) (G : Fin BoardSize → Fin BoardSize → Int)
    (h : dirGrid dir G ≠ G) : ∃ r c, dirGrid dir G r c = 0 := by
  cases dir
  · have : ∃ c, reduceLine (fun k => G k c) ≠ (fun k => G k c) := by
      by_contra hall
      push_neg at hall
      apply h
      funext r c
      exact congrFun (hall c) r
    obtain ⟨c, hc⟩ := this
    exact ⟨3, c, reduceLine_last _ hc⟩
  · have : ∃ c, reduceLine (fun k => G (mirror k) c) ≠ (fun k => G (mirror k) c) := by
      by_contra hall
      push_neg at hall
      apply h
      funext r c
      have := congrFun (hall c) (mirror r)
      simp only [mirror_mirror] at this
      exact this
    obtain ⟨c, hc⟩ := this
    exact ⟨0, c, reduceLine_last _ hc⟩
  · have : ∃ r, reduceLine (G r) ≠ G r := by
      by_contra hall
      push_neg at hall
      apply h
      funext r c
      exact congrFun (hall r) c
    obtain ⟨r, hr⟩ := this
    exact ⟨r, 3, reduceLine_last _ hr⟩
  · have : ∃ r, reduceLine (fun k => G r (mirror k)) ≠ (fun k => G r (mirror k)) := by
      by_contra hall
      push_neg at hall
      apply h
      funext r c
      have := congrFun (hall r) (mirror c)
      simp only [mirror_mirror] at this
      exact this
    obtain ⟨r, hr⟩ := this
    exact ⟨r, 0, reduceLine_last _ hr⟩

theorem dirLine_dirCell (dir : Direction) (G : Fin BoardSize → Fin BoardSize → Int)
    (i k : Fin BoardSize) : dirLine dir G i k = G (dirCell dir i k).1 (dirCell dir i k).2 := by
  cases dir <;> rfl

theorem dirGrid_dirCell (dir : Direction) (G : Fin BoardSize → Fin BoardSize → Int)
    (i k : Fin BoardSize) :
    dirGrid dir G (dirCell dir i k).1 (dirCell dir i k).2 = reduceLine (dirLine dir G i) k := by
  cases dir
  · rfl
  · show reduceLine (fun j => G (mirror j) i) (mirror (mirror k)) = _
    rw [mirror_mirror]
    rfl
  · rfl
  · show reduceLine (fun j => G i (mirror j)) (mirror (mirror k)) = _
    rw [mirror_mirror]
    rfl

theorem dirCell_inj (dir : Direction) (i k i2 k2 : Fin BoardSize) :
    dirCell dir i k = dirCell dir i2 k2 ↔ i = i2 ∧ k = k2 := by
  constructor
  · intro h
    cases dir <;> simp only [dirCell, Prod.mk.injEq] at h
    · exact ⟨h.2, h.1⟩
    · refine ⟨h.2, ?_⟩
      have := congrArg mirror h.1
      simpa only [mirror_mirror] using this
    · exact ⟨h.1, h.2⟩
    · refine ⟨h.1, ?_⟩
      have := congrArg mirror h.2
      simpa only [mirror_mirror] using this
  · rintro ⟨rfl, rfl⟩
    rfl

theorem dirCell_surj (dir : Direction) (r c : Fin BoardSize) :
    ∃ i k, dirCell dir i k = (r, c) := by
  cases dir
  · exact ⟨c, r, rfl⟩
  · exact ⟨c, mirror r, by simp only [dirCell, mirror_mirror]⟩
  · exact ⟨r, c, rfl⟩
  · exact ⟨r, mirror c, by simp only [dirCell, mirror_mirror]⟩

/-- The grid after the spawn differs from the grid before the move, whatever
the transform did: a transform followed by one new tile 2 or 4 on an empty
cell never gives back the grid it started from. -/
theorem spawn_ne_before (dir : Direction) (G : Fin BoardSize → Fin BoardSize → Int)
    (r c : Fin BoardSize) (v : Int) (hv : v = 2 ∨ v = 4) (hz : dirGrid dir G r c = 0) :
    ((⟨dirGrid dir G⟩ : Board).setCell (idx r) (idx c) v).Grid ≠ G := by
  intro heq
  obtain ⟨i, k, hik⟩ := dirCell_surj dir r c
  have hcell : ∀ r2 c2, G r2 c2 = if r2 = r ∧ c2 = c then v else dirGrid dir G r2 c2 := by
    intro r2 c2
    rw [← setCell_grid ⟨dirGrid dir G⟩ r c v r2 c2, heq]
  apply reduceLine_not_erase (dirLine dir G i) k
  · rw [dirLine_dirCell, hik, hcell r c]
    simpa using hv
  · rw [← dirGrid_dirCell, hik]
    exact hz
  · intro j hj
    rw [← dirGrid_dirCell, dirLine_dirCell, hcell (dirCell dir i j).1 (dirCell dir i j).2]
    have hne : ¬ ((dirCell dir i j).1 = r ∧ (dirCell dir i j).2 = c) := by
      rintro ⟨h1, h2⟩
      have : dirCell dir i j = dirCell dir i k := by
        rw [hik]
        exact Prod.ext h1 h2
      exact hj ((dirCell_inj dir i j i k).1 this).2
    rw [if_neg hne]


/-! ## The session transition -/

theorem applyDir_grid (g : Game) (dir : Direction) :
    (g.applyDir dir).2.Board.Grid = dirGrid dir g.Board.Grid := by
  rw [applyDir_game]

theorem canMove_congr (g1 g2 : Game) (h : g1.Board = g2.Board) : g1.canMove = g2.canMove := by
  simp only [Game.canMove, h]

theorem Move_of_over (g : Game) (dir : Direction) (rnd : Rand) (hover : g.GameOver = true) :
    g.Move dir rnd = (none, g) := by
  simp [Game.Move, hover]

theorem Move_of_same (g : Game) (dir : Direction) (rnd : Rand) (hover : g.GameOver = false)
    (hsame : dirGrid dir g.Board.Grid = g.Board.Grid) :
    g.Move dir rnd =
      (some { Moved := false, Moves := [], Score := 0, BoardBefore := g.Board.Grid,
              BoardState := g.Board.Grid, NewTile := none }, g) := by
  have hg : (g.applyDir dir).2 = g := by
    rw [applyDir_game, hsame]
  have heq : g.Board.Equals g.Board = true := (Equals_iff _ _).2 rfl
  simp only [Game.Move, hover, Bool.false_eq_true, if_false, Clone_eq, hg, heq, if_true]

/-- The board an accepted move leaves: the transformed grid with the new tile
written at row `r`, column `c`. -/
theorem Move_of_changed (g : Game) (dir : Direction) (rnd : Rand) (hover : g.GameOver = false)
    (hchg : dirGrid dir g.Board.Grid ≠ g.Board.Grid) :
    ∃ r c, dirGrid dir g.Board.Grid r c = 0 ∧
      g.Move dir rnd =
        (some { Moved := true
                Moves := (g.applyDir dir).1.Moves
                Score := (g.applyDir dir).1.Score
                BoardBefore := g.Board.Grid
                BoardState := ((⟨dirGrid dir g.Board.Grid⟩ : Board).setCell (idx r) (idx c)
                  (if rnd.lt10 then 4 else 2)).Grid
                NewTile := some { Row := idx r, Col := idx c } },
         { Board := (⟨dirGrid dir g.Board.Grid⟩ : Board).setCell (idx r) (idx c)
             (if rnd.lt10 then 4 else 2)
           Score := wrapInt (g.Score + (g.applyDir dir).1.Score)
           BestScore :=
             if wrapInt (g.Score + (g.applyDir dir).1.Score) > g.BestScore
             then wrapInt (g.Score + (g.applyDir dir).1.Score) else g.BestScore
           GameOver := !(Game.canMove
             { g with
               Board :=
                 (⟨dirGrid dir g.Board.Grid⟩ : Board).setCell (idx r) (idx c)
                   (if rnd.lt10 then 4 else 2) })
           Won := g.Won || decide (Board.MaxTile ⟨dirGrid dir g.Board.Grid⟩ ≥ 2048) }) := by
  obtain ⟨r, c, hz, hsp⟩ :=
    SpawnTile_of_empty ⟨dirGrid dir g.Board.Grid⟩ rnd (dirGrid_empty dir _ hchg)
  refine ⟨r, c, hz, ?_⟩
  have hne : (⟨dirGrid dir g.Board.Grid⟩ : Board).Equals g.Board = false := by
    rw [Bool.eq_false_iff]
    intro h
    exact hchg ((Equals_iff _ _).1 h)
  by_cases hb : wrapInt (g.Score + (g.applyDir dir).1.Score) > g.BestScore <;>
    by_cases hm : Board.MaxTile ⟨dirGrid dir g.Board.Grid⟩ ≥ 2048 <;>
    cases hw : g.Won <;>
    simp only [Game.Move, hover, Bool.false_eq_true, if_false, Clone_eq, applyDir_game, hne, hsp,
      hb, hm, hw, if_true, and_true, and_false, true_and, ne_eq, not_false_eq_true,
      Bool.true_or, Bool.false_or, decide_True, decide_False, Option.some_ne_none,
      reduceCtorEq] <;>
    cases hcm : Game.canMove _ <;> simp [hcm] <;>
    exact (canMove_congr _ _ rfl).trans hcm


/-! ## Claims about `Game.Move` -/

theorem grid_ne_iff (G H : Fin BoardSize → Fin BoardSize → Int) :
    G ≠ H ↔ ∃ r c, G r c ≠ H r c := by
  constructor
  · intro h
    by_contra hall
    push_neg at hall
    exact h (funext fun r => funext fun c => hall r c)
  · rintro ⟨r, c, hrc⟩ h
    exact hrc (by rw [h])

/-- C1. No-op move: on a running session, when the transform of the direction
leaves every cell unchanged, `Move` returns a result with `Moved = false`, no
moves, no new tile and both snapshots equal to the original grid, and the
session (grid, Score, BestScore, GameOver, Won) is exactly as before. -/
theorem C1_noop_move (g : Game) (dir : Direction) (rnd : Rand) (hover : g.GameOver = false)
    (hsame : ∀ r c, (g.applyDir dir).2.Board.Grid r c = g.Board.Grid r c) :
    g.Move dir rnd =
      (some { Moved := false, Moves := [], Score := 0, BoardBefore := g.Board.Grid,
              BoardState := g.Board.Grid, NewTile := none }, g) := by
  apply Move_of_same g dir rnd hover
  rw [← applyDir_grid]
  exact funext fun r => funext fun c => hsame r c

set_option maxRecDepth 100000 in
theorem C1_noop_move_witness :
    (sessionOf gridStuckLeft).GameOver = false ∧
    (∀ r c, ((sessionOf gridStuckLeft).applyDir Direction.Left).2.Board.Grid r c
      = (sessionOf gridStuckLeft).Board.Grid r c) ∧
    (sessionOf gridStuckLeft).Move Direction.Left ⟨5, true⟩ =
      (some { Moved := false, Moves := [], Score := 0, BoardBefore := gridStuckLeft,
              BoardState := gridStuckLeft, NewTile := none }, sessionOf gridStuckLeft) :=
  ⟨rfl, by decide, C1_noop_move (sessionOf gridStuckLeft) Direction.Left ⟨5, true⟩ rfl (by decide)⟩

theorem spawned_total (G : Fin BoardSize → Fin BoardSize → Int) (r c : Fin BoardSize) (v : Int)
    (hz : G r c = 0) : ((⟨G⟩ : Board).setCell (idx r) (idx c) v).total = Board.total ⟨G⟩ + v := by
  rw [total_setCell]
  simp only [hz, sub_zero]

theorem tile_value_cases (rnd : Rand) :
    (if rnd.lt10 then (4 : Int) else 2) = 2 ∨ (if rnd.lt10 then (4 : Int) else 2) = 4 := by
  cases rnd.lt10 <;> simp

set_option maxRecDepth 100000 in
/-- C2 (as stated) fails at the 64-bit boundary: on the running session whose
non-negative board holds two tiles `2^62` in row 0, moving left changes the
board, the merged tile wraps to `-2^63`, and the sum of the sixteen cells drops
from `2^63` to `-2^63 + 2` instead of growing by the spawned tile. -/
theorem C2_overflow_counterexample :
    (sessionOf gridOverflow).GameOver = false ∧
    (∀ r c, 0 ≤ (sessionOf gridOverflow).Board.Grid r c) ∧
    ((sessionOf gridOverflow).applyDir Direction.Left).2.Board.Grid
      ≠ (sessionOf gridOverflow).Board.Grid ∧
    (sessionOf gridOverflow).Board.total = 9223372036854775808 ∧
    ((sessionOf gridOverflow).Move Direction.Left ⟨0, false⟩).2.Board.Grid 0 0
      = -9223372036854775808 ∧
    ((sessionOf gridOverflow).Move Direction.Left ⟨0, false⟩).2.Board.total
      = -9223372036854775806 ∧
    ∀ v : Int, v = 2 ∨ v = 4 →
      ((sessionOf gridOverflow).Move Direction.Left ⟨0, false⟩).2.Board.total
        ≠ (sessionOf gridOverflow).Board.total + v := by
  have hgrid : ((sessionOf gridOverflow).applyDir Direction.Left).2.Board.Grid
      ≠ (sessionOf gridOverflow).Board.Grid := by
    rw [applyDir_grid]
    intro h
    have h0 := congrFun (congrFun h 0) 1
    revert h0
    decide
  have hcell : ((sessionOf gridOverflow).Move Direction.Left ⟨0, false⟩).2.Board.Grid 0 0
      = -9223372036854775808 := by decide
  have htot : ((sessionOf gridOverflow).Move Direction.Left ⟨0, false⟩).2.Board.total
      = -9223372036854775806 := by decide
  have hbefore : (sessionOf gridOverflow).Board.total = 9223372036854775808 := by decide
  refine ⟨rfl, by decide, hgrid, hbefore, hcell, htot, ?_⟩
  intro v hv
  rw [htot, hbefore]
  omega

/-- C2, amended. Sum conservation below the 64-bit boundary: on a running
session whose cells all lie in `[-2^62, 2^62)` (in particular all non-negative
cells below `2^62`), when the direction changes the board, `Move` spawns a tile
of value 2 or 4 on a cell that was empty after the transform, and the sum of
the sixteen cells after the move is the sum before the move plus the value of
that tile. -/
theorem C2_sum_conservation (g : Game) (dir : Direction) (rnd : Rand)
    (hover : g.GameOver = false) (hfit : ∀ r c, doubleFits (g.Board.Grid r c))
    (hchg : (g.applyDir dir).2.Board.Grid ≠ g.Board.Grid) :
    ∃ res r c,
      (g.Move dir rnd).1 = some res ∧
      res.NewTile = some { Row := idx r, Col := idx c } ∧
      (g.applyDir dir).2.Board.Grid r c = 0 ∧
      ((g.Move dir rnd).2.Board.Grid r c = 2 ∨ (g.Move dir rnd).2.Board.Grid r c = 4) ∧
      (g.Move dir rnd).2.Board.total = g.Board.total + (g.Move dir rnd).2.Board.Grid r c := by
  rw [applyDir_grid] at hchg
  obtain ⟨r, c, hz, hmove⟩ := Move_of_changed g dir rnd hover hchg
  refine ⟨_, r, c, by rw [hmove], rfl, by rw [applyDir_grid]; exact hz, ?_, ?_⟩
  · rw [hmove]
    simp only [setCell_grid, and_self, if_true]
    exact tile_value_cases rnd
  · rw [hmove]
    simp only [setCell_grid, and_self, if_true]
    rw [spawned_total _ r c _ hz, total_dirGrid _ _ hfit]

set_option maxRecDepth 100000 in
theorem C2_sum_conservation_witness :
    (sessionOf gridPair).GameOver = false ∧
    (∀ r c, doubleFits ((sessionOf gridPair).Board.Grid r c)) ∧
    ((sessionOf gridPair).applyDir Direction.Left).2.Board.Grid ≠ (sessionOf gridPair).Board.Grid ∧
    ∃ res r c,
      ((sessionOf gridPair).Move Direction.Left ⟨0, false⟩).1 = some res ∧
      res.NewTile = some { Row := idx r, Col := idx c } ∧
      ((sessionOf gridPair).applyDir Direction.Left).2.Board.Grid r c = 0 ∧
      (((sessionOf gridPair).Move Direction.Left ⟨0, false⟩).2.Board.Grid r c = 2 ∨
        ((sessionOf gridPair).Move Direction.Left ⟨0, false⟩).2.Board.Grid r c = 4) ∧
      ((sessionOf gridPair).Move Direction.Left ⟨0, false⟩).2.Board.total
        = (sessionOf gridPair).Board.total
          + ((sessionOf gridPair).Move Direction.Left ⟨0, false⟩).2.Board.Grid r c :=
  ⟨rfl, by decide, by decide,
    C2_sum_conservation (sessionOf gridPair) Direction.Left ⟨0, false⟩ rfl (by decide) (by decide)⟩
/-! ## Claims about the tile line reducer -/

theorem padLine_two (a b : Int) : padLine [a, b] = ![a, b, 0, 0] := by
  funext j
  fin_cases j <;> rfl

/-- The line `[v,v,v,0]` in 64-bit arithmetic: the leftmost pair merges into
the 64-bit double. -/
theorem reduce_three_equal (v : Int) (hv : v ≠ 0) :
    compressAndMergeWithTracking ![v, v, v, 0] ![0, 1, 2, 3] =
      (![wrapInt (v * 2), v, 0, 0],
       [{ fromIdx := 0, toIdx := 0, value := v, merged := true },
        { fromIdx := 1, toIdx := 0, value := v, merged := true },
        { fromIdx := 2, toIdx := 1, value := v, merged := false }],
       wrapInt (v * 2)) := by
  have hc : compress ![v, v, v, 0] ![0, 1, 2, 3] = [⟨v, 0⟩, ⟨v, 1⟩, ⟨v, 2⟩] := by
    simp [compress, indices, hv]
  have hn : nonZero ![v, v, v, 0] = [v, v, v] := by
    rw [← compress_values _ ![0, 1, 2, 3], hc]
    rfl
  rw [cam_eq, hn, hc]
  simp only [mergeVals, mergeScore, mergeMoves, if_true, padLine_two, add_zero,
    wrapInt_wrapInt]
  simp

/-- C3 (as stated) fails at the 64-bit boundary: for `v = 2^62` the reducer
returns `[-2^63, 2^62, 0, 0]` with score `-2^63`, not `[2v, v, 0, 0]` with
score `2v = 2^63`. -/
theorem C3_overflow_counterexample :
    (4611686018427387904 : Int) ≠ 0 ∧
    (compressAndMergeWithTracking lineOverflow ![0, 1, 2, 3]).1
      = ![-9223372036854775808, 4611686018427387904, 0, 0] ∧
    (compressAndMergeWithTracking lineOverflow ![0, 1, 2, 3]).2.2 = -9223372036854775808 ∧
    (compressAndMergeWithTracking lineOverflow ![0, 1, 2, 3]).1
      ≠ ![2 * 4611686018427387904, 4611686018427387904, 0, 0] ∧
    (compressAndMergeWithTracking lineOverflow ![0, 1, 2, 3]).2.2 ≠ 2 * 4611686018427387904 := by
  have h := reduce_three_equal 4611686018427387904 (by decide)
  have hl : lineOverflow = ![4611686018427387904, 4611686018427387904, 4611686018427387904, 0] :=
    rfl
  rw [hl, h]
  refine ⟨by decide, ?_, by decide, ?_, by decide⟩
  · have hw : wrapInt (4611686018427387904 * 2) = -9223372036854775808 := by decide
    simp only [hw]
  · intro heq
    have h0 := congrFun heq 0
    revert h0
    decide

/-- C3, amended. Merge greediness below the 64-bit boundary: for non-zero `v`
with `-2^62 ≤ v < 2^62` the line `[v,v,v,0]` with origins `[0,1,2,3]` reduces
to `[2v,v,0,0]` with score `2v`: the leftmost pair merges (two merged records
to index 0) and the third tile slides unmerged to index 1; `[2,2,2,0]` gives
`[4,2,0,0]` with score 4, not `[4,4,0,0]`. -/
theorem C3_merge_greediness (v : Int) (hv : v ≠ 0) (hfit : doubleFits v) :
    compressAndMergeWithTracking ![v, v, v, 0] ![0, 1, 2, 3] =
      (![2 * v, v, 0, 0],
       [{ fromIdx := 0, toIdx := 0, value := v, merged := true },
        { fromIdx := 1, toIdx := 0, value := v, merged := true },
        { fromIdx := 2, toIdx := 1, value := v, merged := false }],
       2 * v) ∧
    (compressAndMergeWithTracking ![2, 2, 2, 0] ![0, 1, 2, 3]).1 = ![4, 2, 0, 0] ∧
    (compressAndMergeWithTracking ![2, 2, 2, 0] ![0, 1, 2, 3]).2.2 = 4 ∧
    (compressAndMergeWithTracking ![2, 2, 2, 0] ![0, 1, 2, 3]).1 ≠ ![4, 4, 0, 0] := by
  refine ⟨?_, by decide, by decide, by decide⟩
  rw [reduce_three_equal v hv, wrapInt_double v hfit, mul_comm v 2]

theorem C3_merge_greediness_witness :
    (2 : Int) ≠ 0 ∧ doubleFits 2 ∧
    compressAndMergeWithTracking ![2, 2, 2, 0] ![0, 1, 2, 3] =
      (![2 * 2, 2, 0, 0],
       [{ fromIdx := 0, toIdx := 0, value := 2, merged := true },
        { fromIdx := 1, toIdx := 0, value := 2, merged := true },
        { fromIdx := 2, toIdx := 1, value := 2, merged := false }],
       2 * 2) :=
  ⟨by decide, by decide, (C3_merge_greediness 2 (by decide) (by decide)).1⟩

/-- The line `[v,v,v,v]` in 64-bit arithmetic: two merges, each into the
64-bit double, and the 64-bit sum of the two as score. -/
theorem reduce_four_equal (v : Int) (hv : v ≠ 0) :
    compressAndMergeWithTracking ![v, v, v, v] ![0, 1, 2, 3] =
      (![wrapInt (v * 2), wrapInt (v * 2), 0, 0],
       [{ fromIdx := 0, toIdx := 0, value := v, merged := true },
        { fromIdx := 1, toIdx := 0, value := v, merged := true },
        { fromIdx := 2, toIdx := 1, value := v, merged := true },
        { fromIdx := 3, toIdx := 1, value := v, merged := true }],
       wrapInt (wrapInt (v * 2) + wrapInt (v * 2))) := by
  have hc : compress ![v, v, v, v] ![0, 1, 2, 3] = [⟨v, 0⟩, ⟨v, 1⟩, ⟨v, 2⟩, ⟨v, 3⟩] := by
    simp [compress, indices, hv]
  have hn : nonZero ![v, v, v, v] = [v, v, v, v] := by
    rw [← compress_values _ ![0, 1, 2, 3], hc]
    rfl
  rw [cam_eq, hn, hc]
  simp only [mergeVals, mergeScore, mergeMoves, if_true, padLine_two, add_zero]
  simp

/-- C4 (as stated) fails at the 64-bit boundary: for `v = 2^62` the reducer
returns `[-2^63, -2^63, 0, 0]` with score 0, not `[2v, 2v, 0, 0]` with score
`4v = 2^64`. -/
theorem C4_overflow_counterexample :
    (4611686018427387904 : Int) ≠ 0 ∧
    (compressAndMergeWithTracking
        ![4611686018427387904, 4611686018427387904, 4611686018427387904, 4611686018427387904]
        ![0, 1, 2, 3]).1
      = ![-9223372036854775808, -9223372036854775808, 0, 0] ∧
    (compressAndMergeWithTracking
        ![4611686018427387904, 4611686018427387904, 4611686018427387904, 4611686018427387904]
        ![0, 1, 2, 3]).2.2 = 0 ∧
    (compressAndMergeWithTracking
        ![4611686018427387904, 4611686018427387904, 4611686018427387904, 4611686018427387904]
        ![0, 1, 2, 3]).1
      ≠ ![2 * 4611686018427387904, 2 * 4611686018427387904, 0, 0] ∧
    (compressAndMergeWithTracking
        ![4611686018427387904, 4611686018427387904, 4611686018427387904, 4611686018427387904]
        ![0, 1, 2, 3]).2.2 ≠ 4 * 4611686018427387904 := by
  rw [reduce_four_equal 4611686018427387904 (by decide)]
  have hw : wrapInt (4611686018427387904 * 2) = -9223372036854775808 := by decide
  have hs : wrapInt (-9223372036854775808 + -9223372036854775808) = 0 := by decide
  simp only [hw, hs]
  refine ⟨by decide, trivial, trivial, ?_, by decide⟩
  intro heq
  have h0 := congrFun heq 0
  revert h0
  decide

/-- C4, amended. Four-equal double merge below the 64-bit boundary: for
non-zero `v` with `-2^61 ≤ v < 2^61` the line `[v,v,v,v]` with origins
`[0,1,2,3]` reduces to `[2v,2v,0,0]` with score `4v` and exactly four move
records, all merged, from 0 and 1 to index 0 and from 2 and 3 to index 1;
`[4,4,4,4]` gives `[8,8,0,0]` with score 16. -/
theorem C4_four_equal (v : Int) (hv : v ≠ 0) (hlo : -2305843009213693952 ≤ v)
    (hhi : v < 2305843009213693952) :
    compressAndMergeWithTracking ![v, v, v, v] ![0, 1, 2, 3] =
      (![2 * v, 2 * v, 0, 0],
       [{ fromIdx := 0, toIdx := 0, value := v, merged := true },
        { fromIdx := 1, toIdx := 0, value := v, merged := true },
        { fromIdx := 2, toIdx := 1, value := v, merged := true },
        { fromIdx := 3, toIdx := 1, value := v, merged := true }],
       4 * v) ∧
    (compressAndMergeWithTracking ![4, 4, 4, 4] ![0, 1, 2, 3]).1 = ![8, 8, 0, 0] ∧
    (compressAndMergeWithTracking ![4, 4, 4, 4] ![0, 1, 2, 3]).2.2 = 16 := by
  refine ⟨?_, by decide, by decide⟩
  have hfit : doubleFits v := by
    unfold doubleFits
    omega
  have hs : wrapInt (v * 2 + v * 2) = 4 * v := by
    rw [wrapInt_of_range _ (by omega) (by omega)]
    ring
  rw [reduce_four_equal v hv, wrapInt_double v hfit, hs, mul_comm v 2]

theorem C4_four_equal_witness :
    (4 : Int) ≠ 0 ∧ (-2305843009213693952 : Int) ≤ 4 ∧ (4 : Int) < 2305843009213693952 ∧
    compressAndMergeWithTracking ![4, 4, 4, 4] ![0, 1, 2, 3] =
      (![2 * 4, 2 * 4, 0, 0],
       [{ fromIdx := 0, toIdx := 0, value := 4, merged := true },
        { fromIdx := 1, toIdx := 0, value := 4, merged := true },
        { fromIdx := 2, toIdx := 1, value := 4, merged := true },
        { fromIdx := 3, toIdx := 1, value := 4, merged := true }],
       4 * 4) :=
  ⟨by decide, by decide, by decide, (C4_four_equal 4 (by decide) (by decide) (by decide)).1⟩

theorem idx_zero : idx 0 = 0 := rfl

theorem idx_one : idx 1 = 1 := rfl

theorem idx_two : idx 2 = 2 := rfl

theorem idx_three : idx 3 = 3 := rfl

theorem compress_cases (line pos : Fin BoardSize → Int) :
    compress line pos =
      (if line 0 ≠ 0 then [⟨line 0, pos 0⟩] else []) ++
        ((if line 1 ≠ 0 then [⟨line 1, pos 1⟩] else []) ++
          ((if line 2 ≠ 0 then [⟨line 2, pos 2⟩] else []) ++
            (if line 3 ≠ 0 then [⟨line 3, pos 3⟩] else []))) := by
  rw [compress_eq]
  simp only [indices, List.filter_cons, List.filter_nil]
  by_cases h0 : line 0 = 0 <;> by_cases h1 : line 1 = 0 <;> by_cases h2 : line 2 = 0 <;>
    by_cases h3 : line 3 = 0 <;> simp [h0, h1, h2, h3]

theorem slideDest_cases (line : Fin BoardSize → Int) :
    slideDest line 0 = 0 ∧
    slideDest line 1 = (if line 0 ≠ 0 then 1 else 0) ∧
    slideDest line 2 = (if line 0 ≠ 0 then 1 else 0) + (if line 1 ≠ 0 then 1 else 0) ∧
    slideDest line 3 = (if line 0 ≠ 0 then 1 else 0) + (if line 1 ≠ 0 then 1 else 0)
      + (if line 2 ≠ 0 then 1 else 0) := by
  simp only [slideDest, indices, List.filter_cons, List.filter_nil]
  by_cases h0 : line 0 = 0 <;> by_cases h1 : line 1 = 0 <;> by_cases h2 : line 2 = 0 <;>
    simp [h0, h1, h2]

theorem C5_core (line : Fin BoardSize → Int) (hadj : noEqualNeighbours line) :
    mergeVals (nonZero line) = nonZero line ∧ mergeScore (nonZero line) = 0 ∧
      mergeMoves (compress line originIndices) 0 = expectedSlides line := by
  have h01 : line 0 ≠ 0 → line 1 ≠ 0 → line 0 ≠ line 1 := fun a b =>
    hadj 0 1 (by decide) a b (by
      intro k hk1 hk2; exfalso; revert hk1 hk2; revert k; decide)
  have h12 : line 1 ≠ 0 → line 2 ≠ 0 → line 1 ≠ line 2 := fun a b =>
    hadj 1 2 (by decide) a b (by
      intro k hk1 hk2; exfalso; revert hk1 hk2; revert k; decide)
  have h23 : line 2 ≠ 0 → line 3 ≠ 0 → line 2 ≠ line 3 := fun a b =>
    hadj 2 3 (by decide) a b (by
      intro k hk1 hk2; exfalso; revert hk1 hk2; revert k; decide)
  have h02 : line 0 ≠ 0 → line 2 ≠ 0 → line 1 = 0 → line 0 ≠ line 2 := fun a b z =>
    hadj 0 2 (by decide) a b (by
      intro k hk1 hk2
      have : k = 1 := by revert hk1 hk2; revert k; decide
      rw [this]; exact z)
  have h13 : line 1 ≠ 0 → line 3 ≠ 0 → line 2 = 0 → line 1 ≠ line 3 := fun a b z =>
    hadj 1 3 (by decide) a b (by
      intro k hk1 hk2
      have : k = 2 := by revert hk1 hk2; revert k; decide
      rw [this]; exact z)
  have h03 : line 0 ≠ 0 → line 3 ≠ 0 → line 1 = 0 → line 2 = 0 → line 0 ≠ line 3 :=
    fun a b z1 z2 =>
    hadj 0 3 (by decide) a b (by
      intro k hk1 hk2
      have : k = 1 ∨ k = 2 := by revert hk1 hk2; revert k; decide
      rcases this with h | h
      · rw [h]; exact z1
      · rw [h]; exact z2)
  obtain ⟨d0, d1, d2, d3⟩ := slideDest_cases line
  simp only [nonZero_cases, compress_cases, expectedSlides, indices, List.filter_cons,
    List.filter_nil, d0, d1, d2, d3, originIndices]
  by_cases z0 : line 0 = 0 <;> by_cases z1 : line 1 = 0 <;> by_cases z2 : line 2 = 0 <;>
    by_cases z3 : line 3 = 0 <;>
    simp [z0, z1, z2, z3, mergeVals, mergeScore, mergeMoves, idx_zero, idx_one, idx_two,
      idx_three] <;>
    simp_all [mergeVals, mergeScore, mergeMoves, idx_zero, idx_one, idx_two, idx_three]

/-- C5. Compaction without merge: when no two neighbouring non-zero cells
(zeros between them ignored) are equal, the reducer with origins `[0,1,2,3]`
returns the non-zero cells in order followed by zeros, score 0, and exactly one
unmerged record, left to right, for each non-zero cell whose destination
differs from its origin; `[0,2,0,4]` gives `[2,4,0,0]` with records 1->0
(value 2) and 3->1 (value 4). -/
theorem C5_compaction_only (line : Fin BoardSize → Int) (hadj : noEqualNeighbours line) :
    compressAndMergeWithTracking line ![0, 1, 2, 3] =
      (padLine (nonZero line), expectedSlides line, 0) ∧
    compressAndMergeWithTracking ![0, 2, 0, 4] ![0, 1, 2, 3] =
      (![2, 4, 0, 0],
       [{ fromIdx := 1, toIdx := 0, value := 2, merged := false },
        { fromIdx := 3, toIdx := 1, value := 4, merged := false }], 0) := by
  obtain ⟨h1, h2, h3⟩ := C5_core line hadj
  refine ⟨?_, by decide⟩
  rw [cam_eq, h1, h2]
  exact congrArg (fun m => (padLine (nonZero line), m, (0 : Int))) h3

theorem C5_compaction_only_witness :
    noEqualNeighbours ![0, 2, 0, 4] ∧
    compressAndMergeWithTracking ![0, 2, 0, 4] ![0, 1, 2, 3] =
      (padLine (nonZero ![0, 2, 0, 4]), expectedSlides ![0, 2, 0, 4], 0) :=
  ⟨by decide, (C5_compaction_only ![0, 2, 0, 4] (by decide)).1⟩

theorem nonZero_eq_map (line : Fin BoardSize → Int) :
    nonZero line = (indices.filter (fun i => decide (line i ≠ 0))).map line := by
  rw [← compress_values line originIndices, compress_eq, List.map_map]
  rfl

theorem blocks_exist (line : Fin BoardSize → Int) :
    ∀ (n : Nat) (l : List (Fin BoardSize)), l.length ≤ n →
      ∃ blocks : List (List (Fin BoardSize)),
        blocks.flatten = l ∧ List.Forall₂ (feeds64 line) blocks (mergeVals (l.map line)) := by
  intro n
  induction n with
  | zero =>
    intro l hl
    have : l = [] := List.length_eq_zero.1 (Nat.le_zero.1 hl)
    subst this
    exact ⟨[], rfl, List.Forall₂.nil⟩
  | succ n ih =>
    intro l hl
    match l, hl with
    | [], _ => exact ⟨[], rfl, List.Forall₂.nil⟩
    | [i], _ =>
      exact ⟨[[i]], rfl, List.Forall₂.cons (Or.inl ⟨i, rfl, rfl⟩) List.Forall₂.nil⟩
    | i :: j :: rest, hl =>
      by_cases heq : line i = line j
      · obtain ⟨bs, hjoin, hall⟩ := ih rest (by simp only [List.length_cons] at hl; omega)
        refine ⟨[i, j] :: bs, by simp [hjoin], ?_⟩
        simp only [List.map_cons, mergeVals, if_pos heq]
        exact List.Forall₂.cons (Or.inr ⟨i, j, rfl, heq, rfl⟩) hall
      · obtain ⟨bs, hjoin, hall⟩ := ih (j :: rest) (by simp only [List.length_cons] at hl ⊢; omega)
        refine ⟨[i] :: bs, by simp [hjoin], ?_⟩
        simp only [List.map_cons, mergeVals, if_neg heq]
        exact List.Forall₂.cons (Or.inl ⟨i, rfl, rfl⟩) hall

theorem feeds_of_feeds64 (line : Fin BoardSize → Int) (hfit : ∀ i, doubleFits (line i))
    (block : List (Fin BoardSize)) (out : Int) (h : feeds64 line block out) :
    feeds line block out := by
  rcases h with h | ⟨i, j, hb, heq, hout⟩
  · exact Or.inl h
  · refine Or.inr ⟨i, j, hb, heq, ?_⟩
    rw [hout, wrapInt_double _ (hfit i)]
    ring

theorem mergeMoves_sublist (l : List tileInfo) (k : Nat) :
    ((mergeMoves l k).map moveInfo.fromIdx).Sublist (l.map tileInfo.origPos) := by
  induction l, k using mergeMoves.induct with
  | case1 k => simp [mergeMoves]
  | case2 a k h => simp [mergeMoves, h]
  | case3 a k h => simp [mergeMoves, h]
  | case4 a b rest k h ih =>
    simp only [mergeMoves, if_pos h, List.map_cons]
    exact (ih.cons₂ _).cons₂ _
  | case5 a b rest k h ih =>
    simp only [mergeMoves, if_neg h, List.map_cons]
    by_cases h2 : a.origPos ≠ (k : Int)
    · simp only [if_pos h2, List.singleton_append, List.map_cons]
      exact ih.cons₂ _
    · simp only [if_neg h2, List.nil_append]
      exact ih.cons _

theorem originIndices_injective :
    ∀ a b : Fin BoardSize, originIndices a = originIndices b → a = b := by
  decide

theorem fromIdx_nodup (line : Fin BoardSize → Int) :
    ((compressAndMergeWithTracking line originIndices).2.1.map moveInfo.fromIdx).Nodup := by
  rw [cam_eq]
  apply List.Nodup.sublist (mergeMoves_sublist _ _)
  rw [compress_eq, List.map_map]
  apply List.Nodup.map
  · intro a b hab
    exact originIndices_injective a b hab
  · exact List.Nodup.filter _ (by decide)

/-- Single merge per tile in 64-bit arithmetic, for every line: the non-zero
input cells split, in order, into consecutive groups of one tile or of two
equal tiles, one group per output cell; each output cell is the value of its
single tile or the 64-bit double of its two equal tiles. -/
theorem single_merge_blocks (line : Fin BoardSize → Int) :
    ∃ (blocks : List (List (Fin BoardSize))) (cells : List Int),
      blocks.flatten = indices.filter (fun i => decide (line i ≠ 0)) ∧
      List.Forall₂ (feeds64 line) blocks cells ∧
      (compressAndMergeWithTracking line ![0, 1, 2, 3]).1 = padLine cells := by
  obtain ⟨blocks, hjoin, hall⟩ :=
    blocks_exist line _ (indices.filter (fun i => decide (line i ≠ 0))) (le_refl _)
  refine ⟨blocks, _, hjoin, hall, ?_⟩
  rw [cam_eq, nonZero_eq_map]

/-- C6 (as stated) fails at the 64-bit boundary: on `[2^62, 2^62, 2^62, 0]`
cell 0 of the returned line is `-2^63`, which is neither zero, nor the value of
an input tile, nor the double of two equal input tiles. -/
theorem C6_overflow_counterexample :
    (compressAndMergeWithTracking lineOverflow ![0, 1, 2, 3]).1 0 = -9223372036854775808 ∧
    ¬ ((compressAndMergeWithTracking lineOverflow ![0, 1, 2, 3]).1 0 = 0 ∨
       (∃ i, (compressAndMergeWithTracking lineOverflow ![0, 1, 2, 3]).1 0 = lineOverflow i) ∨
       (∃ i j, lineOverflow i = lineOverflow j ∧
         (compressAndMergeWithTracking lineOverflow ![0, 1, 2, 3]).1 0 = 2 * lineOverflow i)) := by
  have h : (compressAndMergeWithTracking lineOverflow ![0, 1, 2, 3]).1 0
      = -9223372036854775808 := by decide
  rw [h]
  exact ⟨rfl, by decide⟩

/-- C6, amended. Single merge per tile below the 64-bit boundary: for a line
whose cells lie in `[-2^62, 2^62)` the non-zero input cells split, in order,
into consecutive groups of one tile or of two equal tiles, one group per
output cell; each output cell is the value of its single tile or the double of
its two equal tiles, the cells past the last group are zero, and every origin
index is the source of at most one move record. `[2,2,4,0]` gives `[4,4,0,0]`,
not `[8,0,0,0]`. -/
theorem C6_single_merge (line : Fin BoardSize → Int) (hfit : ∀ i, doubleFits (line i)) :
    (∃ (blocks : List (List (Fin BoardSize))) (cells : List Int),
      blocks.flatten = indices.filter (fun i => decide (line i ≠ 0)) ∧
      List.Forall₂ (feeds line) blocks cells ∧
      (compressAndMergeWithTracking line ![0, 1, 2, 3]).1 = padLine cells) ∧
    ((compressAndMergeWithTracking line ![0, 1, 2, 3]).2.1.map moveInfo.fromIdx).Nodup ∧
    (compressAndMergeWithTracking ![2, 2, 4, 0] ![0, 1, 2, 3]).1 = ![4, 4, 0, 0] ∧
    (compressAndMergeWithTracking ![2, 2, 4, 0] ![0, 1, 2, 3]).1 ≠ ![8, 0, 0, 0] := by
  refine ⟨?_, fromIdx_nodup line, by decide, by decide⟩
  obtain ⟨blocks, cells, hjoin, hall, hline⟩ := single_merge_blocks line
  exact ⟨blocks, cells, hjoin, hall.imp (feeds_of_feeds64 line hfit), hline⟩

theorem C6_single_merge_witness :
    (∀ i, doubleFits ((![2, 2, 4, 0] : Fin BoardSize → Int) i)) ∧
    ∃ (blocks : List (List (Fin BoardSize))) (cells : List Int),
      blocks.flatten = indices.filter (fun i => decide ((![2, 2, 4, 0] : Fin BoardSize → Int) i ≠ 0)) ∧
      List.Forall₂ (feeds ![2, 2, 4, 0]) blocks cells ∧
      (compressAndMergeWithTracking ![2, 2, 4, 0] ![0, 1, 2, 3]).1 = padLine cells :=
  ⟨by decide, (C6_single_merge ![2, 2, 4, 0] (by decide)).1⟩
/-! ## Claims about the session after a move -/

/-- C7. Terminal detection: after a `Move` that changed the board of a running
session, `GameOver` is true exactly when the board after the spawn has no zero
cell and no two horizontally adjacent and no two vertically adjacent cells are
equal; so a board with an empty cell, or a full board with an equal adjacent
pair, is not game-over. -/
theorem C7_terminal_detection (g : Game) (dir : Direction) (rnd : Rand)
    (hover : g.GameOver = false)
    (hchg : (g.applyDir dir).2.Board.Grid ≠ g.Board.Grid) :
    ((g.Move dir rnd).2.GameOver = true ↔
      (∀ r c, (g.Move dir rnd).2.Board.Grid r c ≠ 0) ∧
      (∀ r (c c2 : Fin BoardSize), (c2 : Nat) = (c : Nat) + 1 →
        (g.Move dir rnd).2.Board.Grid r c ≠ (g.Move dir rnd).2.Board.Grid r c2) ∧
      (∀ (r r2 : Fin BoardSize) c, (r2 : Nat) = (r : Nat) + 1 →
        (g.Move dir rnd).2.Board.Grid r c ≠ (g.Move dir rnd).2.Board.Grid r2 c)) := by
  rw [applyDir_grid] at hchg
  obtain ⟨r, c, _, hmove⟩ := Move_of_changed g dir rnd hover hchg
  rw [hmove]
  simp only [Bool.not_eq_true']
  rw [canMove_eq_false_iff]

set_option maxRecDepth 100000 in
theorem C7_terminal_detection_witness :
    (sessionOf gridPair).GameOver = false ∧
    ((sessionOf gridPair).applyDir Direction.Left).2.Board.Grid ≠ (sessionOf gridPair).Board.Grid ∧
    (((sessionOf gridPair).Move Direction.Left ⟨0, false⟩).2.GameOver = true ↔
      (∀ r c, ((sessionOf gridPair).Move Direction.Left ⟨0, false⟩).2.Board.Grid r c ≠ 0) ∧
      (∀ r (c c2 : Fin BoardSize), (c2 : Nat) = (c : Nat) + 1 →
        ((sessionOf gridPair).Move Direction.Left ⟨0, false⟩).2.Board.Grid r c
          ≠ ((sessionOf gridPair).Move Direction.Left ⟨0, false⟩).2.Board.Grid r c2) ∧
      (∀ (r r2 : Fin BoardSize) c, (r2 : Nat) = (r : Nat) + 1 →
        ((sessionOf gridPair).Move Direction.Left ⟨0, false⟩).2.Board.Grid r c
          ≠ ((sessionOf gridPair).Move Direction.Left ⟨0, false⟩).2.Board.Grid r2 c)) :=
  ⟨rfl, by decide,
    C7_terminal_detection (sessionOf gridPair) Direction.Left ⟨0, false⟩ rfl (by decide)⟩

theorem Move_board_ne_iff (g : Game) (dir : Direction) (rnd : Rand) :
    (g.Move dir rnd).2.Board.Grid ≠ g.Board.Grid ↔
      g.GameOver = false ∧ (g.applyDir dir).2.Board.Grid ≠ g.Board.Grid := by
  rw [applyDir_grid]
  cases hover : g.GameOver
  · by_cases hchg : dirGrid dir g.Board.Grid = g.Board.Grid
    · rw [Move_of_same g dir rnd hover hchg]
      simp [hchg]
    · obtain ⟨r, c, hz, hmove⟩ := Move_of_changed g dir rnd hover hchg
      simp only [hchg, ne_eq, not_false_eq_true, and_self, iff_true]
      rw [hmove]
      exact spawn_ne_before dir g.Board.Grid r c _ (tile_value_cases rnd) hz
  · rw [Move_of_over g dir rnd hover]
    simp

/-- C8. Win stickiness: for every session and direction, `Won` is true after
`Move` exactly when it was true before, or the move changed the board and some
cell of the transformed board, hence its maximum tile, is at least 2048; the
value `MaxTile` returns for that board reaches 2048 exactly when one of its
sixteen cells does; a session that has `Won = true` keeps it through any
`Move`. -/
theorem C8_win_stickiness (g : Game) (dir : Direction) (rnd : Rand) :
    ((g.Move dir rnd).2.Won = true ↔
      g.Won = true ∨
        ((g.Move dir rnd).2.Board.Grid ≠ g.Board.Grid ∧
          ∃ r c, (g.applyDir dir).2.Board.Grid r c ≥ 2048)) ∧
    ((g.applyDir dir).2.Board.MaxTile ≥ 2048 ↔
      ∃ r c, (g.applyDir dir).2.Board.Grid r c ≥ 2048) ∧
    (({ g with Won := true } : Game).Move dir rnd).2.Won = true := by
  have key : ∀ g : Game, ((g.Move dir rnd).2.Won = true ↔
      g.Won = true ∨
        ((g.Move dir rnd).2.Board.Grid ≠ g.Board.Grid ∧
          ∃ r c, (g.applyDir dir).2.Board.Grid r c ≥ 2048)) := by
    intro g
    rw [← MaxTile_win_iff, Move_board_ne_iff]
    cases hover : g.GameOver
    · by_cases hchg : dirGrid dir g.Board.Grid = g.Board.Grid
      · rw [Move_of_same g dir rnd hover hchg, applyDir_grid]
        simp [hchg]
      · obtain ⟨r, c, _, hmove⟩ := Move_of_changed g dir rnd hover hchg
        rw [hmove, applyDir_game]
        simp [hchg]
    · rw [Move_of_over g dir rnd hover]
      simp
  exact ⟨key g, MaxTile_win_iff _, (key _).2 (Or.inl rfl)⟩

set_option maxRecDepth 100000 in
theorem C8_win_stickiness_witness :
    ((sessionOf gridWin).Move Direction.Left ⟨0, false⟩).2.Won = true ∧
    ((sessionOf gridPair).Move Direction.Left ⟨0, false⟩).2.Won = false :=
  ⟨(C8_win_stickiness (sessionOf gridWin) Direction.Left ⟨0, false⟩).1.2
      (Or.inr ⟨by decide, 0, 0, by decide⟩),
    by decide⟩

theorem scenario_leftGrid :
    dirGrid Direction.Left gridPair = ![![4, 0, 0, 0], ![0, 0, 0, 0], ![0, 0, 0, 0], ![0, 0, 0, 0]] := by
  decide

set_option maxRecDepth 100000 in
theorem scenario_left_score (s best : Int) (won : Bool) :
    ((scenario s best won).applyDir Direction.Left).1.Score = 4 := by
  rfl

theorem scenario_rest_empty : ∀ r c : Fin BoardSize, (r, c) ≠ (0, 0) →
    (![![4, 0, 0, 0], ![0, 0, 0, 0], ![0, 0, 0, 0], ![0, 0, 0, 0]] :
      Fin BoardSize → Fin BoardSize → Int) r c = 0 := by
  decide

set_option maxRecDepth 100000 in
/-- C9 as stated fails: when the spawn draws the first empty cell, the new tile
lands in row 0, which is then `[4,2,0,0]` and not `[4,0,0,0]`; and from
`Score = 2^63 - 1` the 64-bit addition wraps, leaving `Score = -2^63 + 3` and
not `s + 4`. -/
theorem C9_row0_counterexample :
    ((scenario 0 0 false).Move Direction.Left ⟨0, false⟩).2.Board.Grid 0 = ![4, 2, 0, 0] ∧
    ((scenario 0 0 false).Move Direction.Left ⟨0, false⟩).2.Board.Grid 0 ≠ ![4, 0, 0, 0] ∧
    ((scenario 9223372036854775807 0 false).Move Direction.Left ⟨0, false⟩).2.Score
      = -9223372036854775805 ∧
    ((scenario 9223372036854775807 0 false).Move Direction.Left ⟨0, false⟩).2.Score
      ≠ 9223372036854775807 + 4 := by
  decide

/-- C9 (amended). End-to-end scenario: from row 0 `[2,2,0,0]` on an otherwise
empty board, `Move(Left)` returns `Moved = true` with move score 4, the
transform leaves row 0 as `[4,0,0,0]`, Score becomes the 64-bit sum of `s` and
4, which is `s + 4` whenever `s + 4` is in the 64-bit range, cell (0,0) holds 4
and exactly one other cell, anywhere among the fifteen others (row 0
included), holds the new tile of value 2 or 4, for every random draw. -/
theorem C9_scenario (s best : Int) (won : Bool) (rnd : Rand) :
    ((scenario s best won).applyDir Direction.Left).2.Board.Grid 0 = ![4, 0, 0, 0] ∧
    (∃ res r c,
      ((scenario s best won).Move Direction.Left rnd).1 = some res ∧
      res.Moved = true ∧ res.Score = 4 ∧
      ((scenario s best won).Move Direction.Left rnd).2.Score = wrapInt (s + 4) ∧
      res.NewTile = some { Row := idx r, Col := idx c } ∧
      (r, c) ≠ (0, 0) ∧
      res.BoardState = ((scenario s best won).Move Direction.Left rnd).2.Board.Grid ∧
      ((scenario s best won).Move Direction.Left rnd).2.Board.Grid 0 0 = 4 ∧
      (((scenario s best won).Move Direction.Left rnd).2.Board.Grid r c = 2 ∨
        ((scenario s best won).Move Direction.Left rnd).2.Board.Grid r c = 4) ∧
      (∀ r2 c2, (r2, c2) ≠ (0, 0) → (r2, c2) ≠ (r, c) →
        ((scenario s best won).Move Direction.Left rnd).2.Board.Grid r2 c2 = 0)) ∧
    (-9223372036854775808 ≤ s + 4 → s + 4 < 9223372036854775808 →
      ((scenario s best won).Move Direction.Left rnd).2.Score = s + 4) := by
  have hgrid := scenario_leftGrid
  have hchg : dirGrid Direction.Left (scenario s best won).Board.Grid
      ≠ (scenario s best won).Board.Grid := by
    show dirGrid Direction.Left gridPair ≠ gridPair
    decide
  obtain ⟨r, c, hz, hmove⟩ := Move_of_changed (scenario s best won) Direction.Left rnd rfl hchg
  have hz2 : dirGrid Direction.Left gridPair r c = 0 := hz
  have hG : (scenario s best won).Board.Grid = gridPair := rfl
  have hrc : (r, c) ≠ (0, 0) := by
    intro h
    obtain ⟨h1, h2⟩ := Prod.mk.inj h
    rw [h1, h2, hgrid] at hz2
    exact absurd hz2 (by decide)
  have hscore : ((scenario s best won).Move Direction.Left rnd).2.Score = wrapInt (s + 4) := by
    rw [hmove]
    show wrapInt (s + ((scenario s best won).applyDir Direction.Left).1.Score) = wrapInt (s + 4)
    rw [scenario_left_score]
  refine ⟨?_, ⟨_, r, c, by rw [hmove], rfl, ?_, hscore, rfl, hrc, ?_, ?_, ?_, ?_⟩, ?_⟩
  · rw [applyDir_grid, hG, hgrid]
    rfl
  · exact scenario_left_score s best won
  · rw [hmove]
  · rw [hmove]
    simp only [setCell_grid, hG, hgrid]
    have : ¬ ((0 : Fin BoardSize) = r ∧ (0 : Fin BoardSize) = c) := by
      rintro ⟨h1, h2⟩
      exact hrc (by rw [← h1, ← h2])
    rw [if_neg this]
    rfl
  · rw [hmove]
    simp only [setCell_grid, and_self, if_true]
    exact tile_value_cases rnd
  · intro r2 c2 h0 hne
    rw [hmove]
    simp only [setCell_grid, hG, hgrid]
    have : ¬ (r2 = r ∧ c2 = c) := by
      rintro ⟨h1, h2⟩
      exact hne (by rw [h1, h2])
    rw [if_neg this]
    exact scenario_rest_empty r2 c2 h0
  · intro hlo hhi
    rw [hscore, wrapInt_of_range _ hlo hhi]

theorem C9_scenario_witness :
    (-9223372036854775808 : Int) ≤ 0 + 4 ∧ (0 + 4 : Int) < 9223372036854775808 ∧
    ((scenario 0 0 false).Move Direction.Left ⟨0, false⟩).2.Score = 0 + 4 :=
  ⟨by decide, by decide,
    (C9_scenario 0 0 false ⟨0, false⟩).2.2 (by decide) (by decide)⟩

/-- C10. Move on a finished session: with `GameOver = true` every `Move`
returns nil and leaves the session unchanged, so after any sequence of `Move`
calls the session is the same and `GameOver` is still true. -/
theorem C10_move_when_over (g : Game) (hover : g.GameOver = true) :
    (∀ dir rnd, g.Move dir rnd = (none, g)) ∧
    (∀ calls, g.runMoves calls = g ∧ (g.runMoves calls).GameOver = true) := by
  have h1 : ∀ dir rnd, g.Move dir rnd = (none, g) := fun dir rnd => Move_of_over g dir rnd hover
  refine ⟨h1, ?_⟩
  have h2 : ∀ calls : List (Direction × Rand), g.runMoves calls = g := by
    intro calls
    unfold Game.runMoves
    induction calls with
    | nil => rfl
    | cons call rest ih =>
      rw [List.foldl_cons, h1]
      exact ih
  intro calls
  rw [h2 calls]
  exact ⟨rfl, hover⟩

theorem C10_move_when_over_witness :
    ({ sessionOf gridPair with GameOver := true } : Game).GameOver = true ∧
    (∀ dir rnd, ({ sessionOf gridPair with GameOver := true } : Game).Move dir rnd
      = (none, { sessionOf gridPair with GameOver := true })) ∧
    (∀ calls, ({ sessionOf gridPair with GameOver := true } : Game).runMoves calls
        = { sessionOf gridPair with GameOver := true } ∧
      (({ sessionOf gridPair with GameOver := true } : Game).runMoves calls).GameOver = true) :=
  ⟨rfl, C10_move_when_over { sessionOf gridPair with GameOver := true } rfl⟩

/-! ## The results of the four direction transforms in closed form -/

theorem foldl_appendMoves (f : moveInfo → TileMove) (moves : List moveInfo)
    (result : MoveResult) :
    moves.foldl (fun (result : MoveResult) move =>
      { result with Moves := result.Moves ++ [f move] }) result
      = { result with Moves := result.Moves ++ moves.map f } := by
  induction moves generalizing result with
  | nil => simp
  | cons m ms ih =>
    rw [List.foldl_cons, ih]
    simp

theorem cam_moves (line pos : Fin BoardSize → Int) :
    (compressAndMergeWithTracking line pos).2.1 = lineMoves line pos := by
  rw [cam_eq, lineMoves]

theorem cam_score (line pos : Fin BoardSize → Int) :
    (compressAndMergeWithTracking line pos).2.2 = lineScore line := by
  rw [cam_eq, lineScore]

theorem moveLeftRow_result (acc : MoveResult × Game) (row : Fin BoardSize) :
    (Game.moveLeftRow acc row).1 =
      { acc.1 with
        Score := wrapInt (acc.1.Score + lineScore (acc.2.Board.Grid row))
        Moves := acc.1.Moves ++
          (lineMoves (acc.2.Board.Grid row) idx).map (leftRecord row) } := by
  simp only [Game.moveLeftRow, cam_moves, cam_score]
  rw [fill_eq (fun col => acc.2.Board.Grid row col), fill_eq idx]
  exact foldl_appendMoves (leftRecord row) _ _

theorem moveRightRow_result (acc : MoveResult × Game) (row : Fin BoardSize) :
    (Game.moveRightRow acc row).1 =
      { acc.1 with
        Score := wrapInt (acc.1.Score + lineScore (fun k => acc.2.Board.Grid row (mirror k)))
        Moves := acc.1.Moves ++
          (lineMoves (fun k => acc.2.Board.Grid row (mirror k)) mirrorPos).map
            (rightRecord row) } := by
  simp only [Game.moveRightRow, cam_moves, cam_score]
  rw [fill_eq (fun col => acc.2.Board.Grid row (mirror col)), fill_eq (fun col => (BoardSize : Int) - 1 - idx col)]
  exact foldl_appendMoves (rightRecord row) _ _

theorem moveUpCol_result (acc : MoveResult × Game) (col : Fin BoardSize) :
    (Game.moveUpCol acc col).1 =
      { acc.1 with
        Score := wrapInt (acc.1.Score + lineScore (fun k => acc.2.Board.Grid k col))
        Moves := acc.1.Moves ++
          (lineMoves (fun k => acc.2.Board.Grid k col) idx).map (upRecord col) } := by
  simp only [Game.moveUpCol, cam_moves, cam_score]
  rw [fill_eq (fun row => acc.2.Board.Grid row col), fill_eq idx]
  exact foldl_appendMoves (upRecord col) _ _

theorem moveDownCol_result (acc : MoveResult × Game) (col : Fin BoardSize) :
    (Game.moveDownCol acc col).1 =
      { acc.1 with
        Score := wrapInt (acc.1.Score + lineScore (fun k => acc.2.Board.Grid (mirror k) col))
        Moves := acc.1.Moves ++
          (lineMoves (fun k => acc.2.Board.Grid (mirror k) col) mirrorPos).map
            (downRecord col) } := by
  simp only [Game.moveDownCol, cam_moves, cam_score]
  rw [fill_eq (fun row => acc.2.Board.Grid (mirror row) col), fill_eq (fun col => (BoardSize : Int) - 1 - idx col)]
  exact foldl_appendMoves (downRecord col) _ _

theorem dirScore_eq (dir : Direction) (G : Fin BoardSize → Fin BoardSize → Int) :
    dirScore dir G =
      wrapInt (wrapInt (wrapInt (wrapInt (0 + lineScore (dirLine dir G 0))
        + lineScore (dirLine dir G 1)) + lineScore (dirLine dir G 2))
        + lineScore (dirLine dir G 3)) := by
  simp only [dirScore, indices, List.foldl_cons, List.foldl_nil]

theorem dirMoves_eq (dir : Direction) (G : Fin BoardSize → Fin BoardSize → Int) :
    dirMoves dir G =
      (lineMoves (dirLine dir G 0) (dirPos dir)).map (dirRecord dir 0) ++
      ((lineMoves (dirLine dir G 1) (dirPos dir)).map (dirRecord dir 1) ++
      ((lineMoves (dirLine dir G 2) (dirPos dir)).map (dirRecord dir 2) ++
      (lineMoves (dirLine dir G 3) (dirPos dir)).map (dirRecord dir 3))) := by
  simp [dirMoves, indices]

theorem moveLeft_result (g : Game) :
    g.moveLeft.1 = { emptyResult with
      Score := dirScore Direction.Left g.Board.Grid
      Moves := dirMoves Direction.Left g.Board.Grid } := by
  rw [dirScore_eq, dirMoves_eq]
  simp only [Game.moveLeft, indices, List.foldl_cons, List.foldl_nil, moveLeftRow_result,
    moveLeftRow_game, emptyResult, List.nil_append, zero_add, List.append_assoc]
  rfl

theorem moveRight_result (g : Game) :
    g.moveRight.1 = { emptyResult with
      Score := dirScore Direction.Right g.Board.Grid
      Moves := dirMoves Direction.Right g.Board.Grid } := by
  rw [dirScore_eq, dirMoves_eq]
  simp only [Game.moveRight, indices, List.foldl_cons, List.foldl_nil, moveRightRow_result,
    moveRightRow_game, emptyResult, List.nil_append, zero_add, List.append_assoc]
  rfl

theorem moveUp_result (g : Game) :
    g.moveUp.1 = { emptyResult with
      Score := dirScore Direction.Up g.Board.Grid
      Moves := dirMoves Direction.Up g.Board.Grid } := by
  rw [dirScore_eq, dirMoves_eq]
  simp only [Game.moveUp, indices, List.foldl_cons, List.foldl_nil, moveUpCol_result,
    moveUpCol_game, emptyResult, List.nil_append, zero_add, List.append_assoc]
  rfl

theorem moveDown_result (g : Game) :
    g.moveDown.1 = { emptyResult with
      Score := dirScore Direction.Down g.Board.Grid
      Moves := dirMoves Direction.Down g.Board.Grid } := by
  rw [dirScore_eq, dirMoves_eq]
  simp only [Game.moveDown, indices, List.foldl_cons, List.foldl_nil, moveDownCol_result,
    moveDownCol_game, emptyResult, List.nil_append, zero_add, List.append_assoc]
  rfl

/-- The result record returned by the transform of a direction. -/
theorem applyDir_result (g : Game) (dir : Direction) :
    (g.applyDir dir).1 = { emptyResult with
      Score := dirScore dir g.Board.Grid
      Moves := dirMoves dir g.Board.Grid } := by
  cases dir
  · exact moveUp_result g
  · exact moveDown_result g
  · exact moveLeft_result g
  · exact moveRight_result g

theorem applyDir_score (g : Game) (dir : Direction) :
    (g.applyDir dir).1.Score = dirScore dir g.Board.Grid := by
  rw [applyDir_result]

theorem applyDir_moves (g : Game) (dir : Direction) :
    (g.applyDir dir).1.Moves = dirMoves dir g.Board.Grid := by
  rw [applyDir_result]

/-! ## Best score, spawn and reset -/

theorem BestScore_le_Move (g : Game) (dir : Direction) (rnd : Rand) :
    g.BestScore ≤ (g.Move dir rnd).2.BestScore := by
  cases hover : g.GameOver
  · by_cases hchg : dirGrid dir g.Board.Grid = g.Board.Grid
    · rw [Move_of_same g dir rnd hover hchg]
    · obtain ⟨r, c, _, hmove⟩ := Move_of_changed g dir rnd hover hchg
      rw [hmove]
      simp only
      split_ifs with h
      · exact le_of_lt h
      · exact le_refl _
  · rw [Move_of_over g dir rnd hover]

theorem BestScore_le_runMoves (calls : List (Direction × Rand)) :
    ∀ g : Game, g.BestScore ≤ (g.runMoves calls).BestScore := by
  induction calls with
  | nil => intro g; exact le_refl _
  | cons call rest ih =>
    intro g
    have h1 := BestScore_le_Move g call.1 call.2
    have h2 := ih (g.Move call.1 call.2).2
    exact le_trans h1 h2

/-! ## Merged records and the move score -/

theorem filter_merged (l : List tileInfo) (k : Nat) :
    (mergeMoves l k).filter (fun m => m.merged) = mergedRecords l k := by
  induction l, k using mergeMoves.induct with
  | case1 k => simp [mergeMoves, mergedRecords]
  | case2 a k h => simp [mergeMoves, mergedRecords, h]
  | case3 a k h => simp [mergeMoves, mergedRecords, h]
  | case4 a b rest k h ih =>
    simp only [mergeMoves, mergedRecords, if_pos h, List.filter_cons, if_true]
    rw [ih]
  | case5 a b rest k h ih =>
    simp only [mergeMoves, mergedRecords, if_neg h, List.filter_append]
    rw [ih]
    by_cases h2 : a.origPos ≠ (k : Int)
    · simp [h2]
    · simp [h2]

/-- Without 64-bit overflow the values of the merged records add up to the
sum of the created tiles. -/
theorem mergedRecords_sum (l : List tileInfo) (k : Nat)
    (hfit : ∀ t ∈ l, doubleFits t.value) :
    ((mergedRecords l k).map moveInfo.value).sum = mergeScore (l.map tileInfo.value) := by
  induction l, k using mergedRecords.induct with
  | case1 k => simp [mergedRecords, mergeScore]
  | case2 a k => simp [mergedRecords, mergeScore]
  | case3 a b rest k h ih =>
    have ih2 := ih (fun t ht => hfit t (by simp [ht]))
    simp only [mergedRecords, if_pos h, List.map_cons, List.sum_cons, mergeScore, ih2]
    rw [← h, wrapInt_double _ (hfit a (by simp))]
    ring
  | case4 a b rest k h ih =>
    have ih2 := ih (fun t ht => hfit t (List.mem_cons_of_mem _ ht))
    simp only [mergedRecords, if_neg h, List.map_cons, mergeScore, ih2]

theorem isLineTarget_eq (l : List tileInfo) (k : Fin BoardSize) :
    isLineTarget (mergeMoves l 0) k
      = (mergedRecords l 0).any (fun m => decide (m.toIdx = idx k)) := by
  rw [← filter_merged, List.any_filter]
  rfl

/-- For tiles in `[0, 2^59)` the sum of the created tiles is non-negative and
at most `2^59 - 1` per tile read. -/
theorem mergeScore_bounds (l : List Int)
    (h : ∀ x ∈ l, 0 ≤ x ∧ x < 576460752303423488) :
    0 ≤ mergeScore l ∧ mergeScore l ≤ (l.length : Int) * 576460752303423487 := by
  induction l using mergeScore.induct with
  | case1 => simp [mergeScore]
  | case2 a => simp [mergeScore]
  | case3 a rest ih =>
    simp only [mergeScore, if_true, List.length_cons]
    have ha := h a (by simp)
    have hw : wrapInt (a * 2) = a * 2 := wrapInt_of_range _ (by omega) (by omega)
    have := ih (fun x hx => h x (by simp [hx]))
    rw [hw]
    push_cast
    omega
  | case4 a b rest hab ih =>
    simp only [mergeScore, if_neg hab, List.length_cons]
    have := ih (fun x hx => h x (List.mem_cons_of_mem _ hx))
    simp only [List.length_cons] at this
    push_cast at this ⊢
    omega

theorem mem_nonZero (line : Fin BoardSize → Int) (x : Int) (hx : x ∈ nonZero line) :
    ∃ i, x = line i := by
  rw [nonZero_eq_map] at hx
  obtain ⟨i, _, hi⟩ := List.mem_map.1 hx
  exact ⟨i, hi.symm⟩

theorem nonZero_length_le (line : Fin BoardSize → Int) : (nonZero line).length ≤ 4 := by
  rw [nonZero_eq_map, List.length_map]
  exact (List.length_filter_le _ _).trans (by simp [indices])

/-- For a line with cells in `[0, 2^59)` the line score is the exact sum of
the created tiles, and it lies in `[0, 2^61)`. -/
theorem lineScore_exact (line : Fin BoardSize → Int)
    (h : ∀ i, 0 ≤ line i ∧ line i < 576460752303423488) :
    lineScore line = mergeScore (nonZero line) ∧ 0 ≤ lineScore line ∧
      lineScore line ≤ 2305843009213693948 := by
  have hb := mergeScore_bounds (nonZero line) (by
    intro x hx
    obtain ⟨i, hi⟩ := mem_nonZero line x hx
    rw [hi]
    exact h i)
  have hlen : ((nonZero line).length : Int) ≤ 4 := by exact_mod_cast nonZero_length_le line
  have he : lineScore line = mergeScore (nonZero line) :=
    wrapInt_of_range _ (by omega) (by omega)
  rw [he]
  omega

theorem mergedRecords_toIdx_ge (l : List tileInfo) (k : Nat) :
    ∀ m ∈ mergedRecords l k, (k : Int) ≤ m.toIdx := by
  induction l, k using mergedRecords.induct with
  | case1 k => simp [mergedRecords]
  | case2 a k => simp [mergedRecords]
  | case3 a b rest k h ih =>
    intro m hm
    simp only [mergedRecords, if_pos h, List.mem_cons] at hm
    rcases hm with hm | hm | hm
    · rw [hm]
    · rw [hm]
    · have := ih m hm
      push_cast at this
      omega
  | case4 a b rest k h ih =>
    intro m hm
    simp only [mergedRecords, if_neg h] at hm
    have := ih m hm
    push_cast at this
    omega

theorem createdList_congr (ms1 ms2 : List moveInfo) (vs : List Int) :
    ∀ k : Nat, (∀ j : Nat, k ≤ j →
      ms1.any (fun m => decide (m.toIdx = (j : Int)))
        = ms2.any (fun m => decide (m.toIdx = (j : Int)))) →
      createdList ms1 vs k = createdList ms2 vs k := by
  induction vs with
  | nil => intro k _; rfl
  | cons v vs ih =>
    intro k h
    simp only [createdList]
    rw [h k (le_refl k), ih (k + 1) (fun j hj => h j (by omega))]

theorem createdList_skip (m : moveInfo) (ms : List moveInfo) (vs : List Int) (k : Nat)
    (hm : m.toIdx < (k : Int)) : createdList (m :: ms) vs k = createdList ms vs k := by
  apply createdList_congr
  intro j hj
  have : ¬ m.toIdx = (j : Int) := by
    have : (k : Int) ≤ (j : Int) := by exact_mod_cast hj
    omega
  simp [this]

theorem createdList_none (ms : List moveInfo) (k : Nat)
    (h : ∀ m ∈ ms, (k : Int) < m.toIdx) :
    ms.any (fun m => decide (m.toIdx = (k : Int))) = false := by
  rw [List.any_eq_false]
  intro m hm
  have := h m hm
  simp only [decide_eq_true_eq]
  omega

theorem createdList_mergedRecords (l : List tileInfo) (k : Nat) :
    createdList (mergedRecords l k) (mergeVals (l.map tileInfo.value)) k
      = mergeScore (l.map tileInfo.value) := by
  induction l, k using mergedRecords.induct with
  | case1 k => simp [mergedRecords, mergeVals, mergeScore, createdList]
  | case2 a k => simp [mergedRecords, mergeVals, mergeScore, createdList]
  | case3 a b rest k h ih =>
    simp only [mergedRecords, if_pos h, List.map_cons, mergeVals, mergeScore, createdList]
    rw [createdList_skip _ _ _ _ (by simp), createdList_skip _ _ _ _ (by simp), ih]
    simp
  | case4 a b rest k h ih =>
    simp only [mergedRecords, if_neg h, List.map_cons, mergeVals, mergeScore, createdList]
    rw [createdList_none _ k (fun m hm => by
      have := mergedRecords_toIdx_ge _ _ m hm
      push_cast at this
      omega)]
    simp only [Bool.false_eq_true, if_false, zero_add]
    exact ih

theorem lineCreated_padLine (moves : List moveInfo) (vals : List Int)
    (h : vals.length ≤ BoardSize) :
    lineCreated moves (padLine vals)
      = createdList (moves.filter (fun m => m.merged)) vals 0 := by
  have key : ∀ k : Fin BoardSize, isLineTarget moves k
      = (moves.filter (fun m => m.merged)).any (fun m => decide (m.toIdx = idx k)) := by
    intro k
    rw [List.any_filter]
    rfl
  simp only [lineCreated, indices, List.map_cons, List.map_nil, List.sum_cons, List.sum_nil,
    key, padLine_apply, idx_zero, idx_one, idx_two, idx_three]
  match vals, h with
  | [], _ => simp [createdList]
  | [a], _ => simp [createdList]
  | [a, b], _ => simp [createdList]
  | [a, b, c], _ => simp [createdList]
  | [a, b, c, d], _ => simp [createdList]
  | _ :: _ :: _ :: _ :: _ :: _, h =>
    exfalso
    have h4 : BoardSize = 4 := rfl
    simp only [List.length_cons] at h
    omega

/-- On one line the cells that are targets of merged records add up to the
exact sum of the created tiles. -/
theorem lineCreated_eq (line pos : Fin BoardSize → Int) :
    lineCreated (lineMoves line pos) (reduceLine line) = mergeScore (nonZero line) := by
  have hlen : (mergeVals (nonZero line)).length ≤ BoardSize := by
    have h1 := mergeVals_length_le (nonZero line)
    have h2 := compress_length_le line pos
    rw [← compress_values line pos, List.length_map] at h1
    rw [← compress_values line pos]
    omega
  rw [reduceLine, lineCreated_padLine _ _ hlen, lineMoves, filter_merged,
    ← compress_values line pos, createdList_mergedRecords, compress_values]

theorem mem_compress_value (line pos : Fin BoardSize → Int) (t : tileInfo)
    (ht : t ∈ compress line pos) : ∃ i, t.value = line i := by
  rw [compress_eq] at ht
  obtain ⟨i, _, hi⟩ := List.mem_map.1 ht
  exact ⟨i, by rw [← hi]⟩

theorem lineMerged_sum (line pos : Fin BoardSize → Int) (hfit : ∀ i, doubleFits (line i)) :
    (((lineMoves line pos).filter (fun m => m.merged)).map moveInfo.value).sum
      = mergeScore (nonZero line) := by
  rw [lineMoves, filter_merged, mergedRecords_sum, compress_values]
  intro t ht
  obtain ⟨i, hi⟩ := mem_compress_value line pos t ht
  rw [hi]
  exact hfit i

/-! ## What each move record says -/

theorem mergeMoves_spec (l : List tileInfo) (k : Nat) :
    ∀ m ∈ mergeMoves l k, ∃ t ∈ l, m.fromIdx = t.origPos ∧ m.value = t.value ∧
      ∃ j : Nat, m.toIdx = ((k + j : Nat) : Int) ∧
        (mergeVals (l.map tileInfo.value)).get? j
          = some (if m.merged then wrapInt (m.value * 2) else m.value) := by
  induction l, k using mergeMoves.induct with
  | case1 k => simp [mergeMoves]
  | case2 a k h =>
    intro m hm
    simp only [mergeMoves, if_pos h, List.mem_singleton] at hm
    subst hm
    exact ⟨a, by simp, rfl, rfl, 0, rfl, by simp [mergeVals]⟩
  | case3 a k h => simp [mergeMoves, h]
  | case4 a b rest k h ih =>
    intro m hm
    simp only [mergeMoves, if_pos h, List.mem_cons] at hm
    rcases hm with hm | hm | hm
    · subst hm
      exact ⟨a, by simp, rfl, rfl, 0, rfl, by simp [mergeVals, h]⟩
    · subst hm
      exact ⟨b, by simp, rfl, rfl, 0, rfl, by simp [mergeVals, h]⟩
    · obtain ⟨t, ht, h1, h2, j, h3, h4⟩ := ih m hm
      refine ⟨t, by simp [ht], h1, h2, j + 1, ?_, ?_⟩
      · rw [h3]
        push_cast
        ring
      · simp only [List.map_cons, mergeVals, if_pos h, List.get?_cons_succ]
        exact h4
  | case5 a b rest k h ih =>
    intro m hm
    simp only [mergeMoves, if_neg h, List.mem_append] at hm
    rcases hm with hm | hm
    · by_cases h2 : a.origPos ≠ (k : Int)
      · simp only [if_pos h2, List.mem_singleton] at hm
        subst hm
        exact ⟨a, by simp, rfl, rfl, 0, rfl, by simp [mergeVals, h]⟩
      · simp only [if_neg h2, List.not_mem_nil] at hm
    · obtain ⟨t, ht, h1, h2, j, h3, h4⟩ := ih m hm
      refine ⟨t, List.mem_cons_of_mem _ ht, h1, h2, j + 1, ?_, ?_⟩
      · rw [h3]
        push_cast
        ring
      · simp only [List.map_cons, mergeVals, if_neg h, List.get?_cons_succ]
        simp only [List.map_cons] at h4
        exact h4

theorem mem_compress (line pos : Fin BoardSize → Int) (t : tileInfo)
    (ht : t ∈ compress line pos) : ∃ i, line i ≠ 0 ∧ t = ⟨line i, pos i⟩ := by
  rw [compress_eq] at ht
  obtain ⟨i, hi, rfl⟩ := List.mem_map.1 ht
  have := (List.mem_filter.1 hi).2
  exact ⟨i, by simpa using this, rfl⟩

/-- Each line record names a non-zero source cell and the cell of the reduced
line that receives it; a merged record's target holds the 64-bit double. -/
theorem lineMoves_spec (line pos : Fin BoardSize → Int) :
    ∀ m ∈ lineMoves line pos, ∃ i k : Fin BoardSize, line i ≠ 0 ∧ m.fromIdx = pos i ∧
      m.value = line i ∧ m.toIdx = idx k ∧
      reduceLine line k = (if m.merged then wrapInt (m.value * 2) else m.value) := by
  intro m hm
  obtain ⟨t, ht, h1, h2, j, h3, h4⟩ := mergeMoves_spec _ _ m hm
  obtain ⟨i, hi, rfl⟩ := mem_compress line pos t ht
  rw [compress_values] at h4
  have hj : j < (mergeVals (nonZero line)).length := by
    by_contra hge
    rw [List.get?_eq_none.2 (not_lt.1 hge)] at h4
    exact absurd h4 (by simp)
  have hlen : (mergeVals (nonZero line)).length ≤ BoardSize := by
    have e1 := mergeVals_length_le (nonZero line)
    have e2 := compress_length_le line pos
    rw [← compress_values line pos, List.length_map] at e1
    rw [← compress_values line pos]
    omega
  refine ⟨i, ⟨j, lt_of_lt_of_le hj hlen⟩, hi, h1, h2, ?_, ?_⟩
  · rw [h3]
    simp [idx]
  · show (mergeVals (nonZero line)).getD j 0 = _
    rw [List.getD_eq_getElem?_getD, ← List.get?_eq_getElem?, h4]
    rfl

theorem mirrorPos_eq (i : Fin BoardSize) : mirrorPos i = idx (mirror i) := by
  fin_cases i <;> rfl

theorem idx_mirror (k : Fin BoardSize) : (BoardSize : Int) - 1 - idx k = idx (mirror k) :=
  mirrorPos_eq k

theorem dirRecord_From (dir : Direction) (i a : Fin BoardSize) (lm : moveInfo)
    (h : lm.fromIdx = dirPos dir a) : (dirRecord dir i lm).From = posOf (dirCell dir i a) := by
  cases dir <;> simp only [dirRecord, upRecord, downRecord, leftRecord, rightRecord, dirPos,
    dirCell, posOf, h, mirrorPos_eq]

theorem dirRecord_To (dir : Direction) (i k : Fin BoardSize) (lm : moveInfo)
    (h : lm.toIdx = idx k) : (dirRecord dir i lm).To = posOf (dirCell dir i k) := by
  cases dir <;> simp only [dirRecord, upRecord, downRecord, leftRecord, rightRecord,
    dirCell, posOf, h, idx_mirror]

theorem dirRecord_Value (dir : Direction) (i : Fin BoardSize) (lm : moveInfo) :
    (dirRecord dir i lm).Value = lm.value := by
  cases dir <;> rfl

theorem dirRecord_Merged (dir : Direction) (i : Fin BoardSize) (lm : moveInfo) :
    (dirRecord dir i lm).Merged = lm.merged := by
  cases dir <;> rfl

theorem sameLine_dirCell (dir : Direction) (i a b : Fin BoardSize) :
    sameLine dir (dirCell dir i a) (dirCell dir i b) := by
  cases dir <;> rfl

theorem mem_dirMoves (dir : Direction) (G : Fin BoardSize → Fin BoardSize → Int) (m : TileMove) :
    m ∈ dirMoves dir G ↔
      ∃ i, ∃ lm ∈ lineMoves (dirLine dir G i) (dirPos dir), m = dirRecord dir i lm := by
  simp only [dirMoves, List.mem_flatten, List.mem_map]
  constructor
  · rintro ⟨l, ⟨i, _, rfl⟩, hm⟩
    obtain ⟨lm, hlm, rfl⟩ := List.mem_map.1 hm
    exact ⟨i, lm, hlm, rfl⟩
  · rintro ⟨i, lm, hlm, rfl⟩
    exact ⟨_, ⟨i, mem_indices i, rfl⟩, List.mem_map.2 ⟨lm, hlm, rfl⟩⟩

/-! ## The move score of a transform -/

theorem posOf_inj (p q : Fin BoardSize × Fin BoardSize) : posOf p = posOf q ↔ p = q := by
  constructor
  · intro h
    simp only [posOf, Position.mk.injEq, idx_inj] at h
    exact Prod.ext h.1 h.2
  · intro h
    rw [h]

theorem isMergeTarget_dirCell (dir : Direction) (G : Fin BoardSize → Fin BoardSize → Int)
    (i k : Fin BoardSize) :
    isMergeTarget (dirMoves dir G) (dirCell dir i k)
      = isLineTarget (lineMoves (dirLine dir G i) (dirPos dir)) k := by
  rw [Bool.eq_iff_iff]
  simp only [isMergeTarget, isLineTarget, List.any_eq_true, Bool.and_eq_true,
    decide_eq_true_eq]
  constructor
  · rintro ⟨m, hm, hmerged, hto⟩
    obtain ⟨i2, lm, hlm, rfl⟩ := (mem_dirMoves dir G m).1 hm
    obtain ⟨_, k2, _, _, _, hto2, _⟩ := lineMoves_spec _ _ lm hlm
    rw [dirRecord_To dir i2 k2 lm hto2] at hto
    have hcell := (posOf_inj _ _).1 hto
    obtain ⟨rfl, rfl⟩ := (dirCell_inj dir i2 k2 i k).1 hcell
    rw [dirRecord_Merged] at hmerged
    exact ⟨lm, hlm, hmerged, hto2⟩
  · rintro ⟨lm, hlm, hmerged, hto⟩
    refine ⟨dirRecord dir i lm, (mem_dirMoves dir G _).2 ⟨i, lm, hlm, rfl⟩, ?_, ?_⟩
    · rw [dirRecord_Merged]
      exact hmerged
    · exact dirRecord_To dir i k lm hto

theorem mirror_one : mirror 1 = 2 := rfl

theorem mirror_two : mirror 2 = 1 := rfl

theorem sum_rowMajor_dir (dir : Direction) (F : Fin BoardSize × Fin BoardSize → Int) :
    (rowMajor.map F).sum
      = (indices.map (fun i => (indices.map (fun k => F (dirCell dir i k))).sum)).sum := by
  cases dir <;>
    simp only [rowMajor, rowCells, indices, dirCell, List.map_cons, List.map_nil,
      List.map_append, List.sum_append, List.sum_cons, List.sum_nil, mirror_zero, mirror_one,
      mirror_two, mirror_three] <;>
    ring

/-- The cells of the transformed grid that are targets of merged records add
up to the exact sum of the tiles created on the four lines. -/
theorem createdSum_dir (dir : Direction) (G : Fin BoardSize → Fin BoardSize → Int) :
    createdSum (dirMoves dir G) (dirGrid dir G)
      = (indices.map (fun i => mergeScore (nonZero (dirLine dir G i)))).sum := by
  rw [createdSum, sum_rowMajor_dir dir]
  simp only [isMergeTarget_dirCell, dirGrid_dirCell]
  congr 1
  apply List.map_congr_left
  intro i _
  exact lineCreated_eq (dirLine dir G i) (dirPos dir)

theorem mergedValues_dirRecord (dir : Direction) (i : Fin BoardSize) (lms : List moveInfo) :
    (((lms.map (dirRecord dir i)).filter (fun m => m.Merged)).map TileMove.Value)
      = ((lms.filter (fun m => m.merged)).map moveInfo.value) := by
  induction lms with
  | nil => rfl
  | cons lm rest ih =>
    simp only [List.map_cons, List.filter_cons, dirRecord_Merged]
    by_cases h : lm.merged = true
    · simp only [h, if_true, List.map_cons, dirRecord_Value, ih]
    · simp only [h, Bool.false_eq_true, if_false, ih]

theorem doubleFits_dirLine (dir : Direction) (G : Fin BoardSize → Fin BoardSize → Int)
    (hfit : ∀ r c, doubleFits (G r c)) (i k : Fin BoardSize) :
    doubleFits (dirLine dir G i k) := by
  rw [dirLine_dirCell]
  exact hfit _ _

/-- Without 64-bit overflow of a doubling, the values of the merged records
add up to the exact sum of the tiles created on the four lines. -/
theorem mergedSum_dir (dir : Direction) (G : Fin BoardSize → Fin BoardSize → Int)
    (hfit : ∀ r c, doubleFits (G r c)) :
    (((dirMoves dir G).filter (fun m => m.Merged)).map TileMove.Value).sum
      = (indices.map (fun i => mergeScore (nonZero (dirLine dir G i)))).sum := by
  rw [dirMoves_eq]
  simp only [List.filter_append, List.map_append, List.sum_append, mergedValues_dirRecord,
    lineMerged_sum _ _ (doubleFits_dirLine dir G hfit _), indices, List.map_cons, List.map_nil,
    List.sum_cons, List.sum_nil]
  ring

/-- For cells in `[0, 2^59)` the score of a transform is the exact sum of the
tiles created on the four lines, and it is non-negative. -/
theorem dirScore_exact (dir : Direction) (G : Fin BoardSize → Fin BoardSize → Int)
    (h : ∀ r c, 0 ≤ G r c ∧ G r c < 576460752303423488) :
    dirScore dir G = (indices.map (fun i => mergeScore (nonZero (dirLine dir G i)))).sum ∧
      0 ≤ dirScore dir G := by
  have key : ∀ i, lineScore (dirLine dir G i) = mergeScore (nonZero (dirLine dir G i)) ∧
      0 ≤ lineScore (dirLine dir G i) ∧ lineScore (dirLine dir G i) ≤ 2305843009213693948 := by
    intro i
    apply lineScore_exact
    intro k
    rw [dirLine_dirCell]
    exact h _ _
  obtain ⟨e0, p0, q0⟩ := key 0
  obtain ⟨e1, p1, q1⟩ := key 1
  obtain ⟨e2, p2, q2⟩ := key 2
  obtain ⟨e3, p3, q3⟩ := key 3
  have hsum : dirScore dir G = lineScore (dirLine dir G 0) + lineScore (dirLine dir G 1)
      + lineScore (dirLine dir G 2) + lineScore (dirLine dir G 3) := by
    rw [dirScore_eq, zero_add, wrapInt_of_range (lineScore (dirLine dir G 0)) (by omega) (by omega),
      wrapInt_of_range (lineScore (dirLine dir G 0) + lineScore (dirLine dir G 1))
        (by omega) (by omega),
      wrapInt_of_range (lineScore (dirLine dir G 0) + lineScore (dirLine dir G 1)
        + lineScore (dirLine dir G 2)) (by omega) (by omega),
      wrapInt_of_range _ (by omega) (by omega)]
  constructor
  · rw [hsum, e0, e1, e2, e3]
    simp only [indices, List.map_cons, List.map_nil, List.sum_cons, List.sum_nil]
    ring
  · rw [hsum]
    omega

theorem foldl_rows {α : Type} (F : Fin BoardSize → List α) :
    indices.foldl (fun acc row => acc ++ F row) [] = F 0 ++ F 1 ++ F 2 ++ F 3 := by
  simp [indices]

theorem GetEmptyCells_rowMajor (b : Board) :
    b.GetEmptyCells = (rowMajor.filter (fun p => decide (b.Grid p.1 p.2 = 0))).map
      (fun p => ({ Row := idx p.1, Col := idx p.2 } : Position)) := by
  unfold Board.GetEmptyCells
  simp only [emptyRow_eq]
  rw [foldl_rows (fun row => (indices.filter (fun col => decide (b.Grid row col = 0))).map
    (fun col => ({ Row := idx row, Col := idx col } : Position)))]
  simp only [rowMajor, rowCells, List.filter_append, List.map_append, List.filter_map,
    List.map_map]
  rfl

theorem SpawnTile_drawn (b : Board) (rnd : Rand) (h : ∃ r c, b.Grid r c = 0) :
    ∃ r c, b.Grid r c = 0 ∧
      b.GetEmptyCells.get? (rnd.intn % b.GetEmptyCells.length)
        = some { Row := idx r, Col := idx c } ∧
      b.SpawnTile rnd = (some { Row := idx r, Col := idx c },
        b.setCell (idx r) (idx c) (if rnd.lt10 then 4 else 2)) := by
  have hlen : ¬ b.GetEmptyCells.length = 0 := by
    rw [GetEmptyCells_length_eq_zero]
    obtain ⟨r, c, hz⟩ := h
    exact fun hall => hall r c hz
  have hlt : rnd.intn % b.GetEmptyCells.length < b.GetEmptyCells.length :=
    Nat.mod_lt _ (Nat.pos_of_ne_zero hlen)
  obtain ⟨r, c, hz, hp⟩ := (mem_GetEmptyCells b _).1
    (List.get_mem b.GetEmptyCells (rnd.intn % b.GetEmptyCells.length) hlt)
  refine ⟨r, c, hz, ?_, ?_⟩
  · rw [List.get?_eq_get hlt, hp]
  · unfold Board.SpawnTile
    simp only [hlen, dite_false, Rand.Intn]
    rw [hp]

theorem NewBoard_grid (r c : Fin BoardSize) : NewBoard.Grid r c = 0 := rfl

/-- Two spawns on the empty board leave exactly two tiles, each 2 or 4. -/
theorem two_spawns (rnd1 rnd2 : Rand) :
    ∃ p q : Fin BoardSize × Fin BoardSize, p ≠ q ∧
      (((NewBoard.SpawnTile rnd1).2.SpawnTile rnd2).2.Grid p.1 p.2 = 2 ∨
        ((NewBoard.SpawnTile rnd1).2.SpawnTile rnd2).2.Grid p.1 p.2 = 4) ∧
      (((NewBoard.SpawnTile rnd1).2.SpawnTile rnd2).2.Grid q.1 q.2 = 2 ∨
        ((NewBoard.SpawnTile rnd1).2.SpawnTile rnd2).2.Grid q.1 q.2 = 4) ∧
      (∀ r c, (r, c) ≠ p → (r, c) ≠ q →
        ((NewBoard.SpawnTile rnd1).2.SpawnTile rnd2).2.Grid r c = 0) := by
  obtain ⟨r1, c1, _, h1⟩ := SpawnTile_of_empty NewBoard rnd1 ⟨0, 0, rfl⟩
  rw [h1]
  simp only
  have hv1 := tile_value_cases rnd1
  have hv2 := tile_value_cases rnd2
  have hzero : ∃ r c, (NewBoard.setCell (idx r1) (idx c1) (if rnd1.lt10 then 4 else 2)).Grid r c
      = 0 := by
    by_cases h00 : r1 = 0 ∧ c1 = 0
    · refine ⟨0, 1, ?_⟩
      rw [setCell_grid, if_neg]
      · rfl
      · rintro ⟨_, h⟩
        rw [h00.2] at h
        exact absurd h (by decide)
    · refine ⟨0, 0, ?_⟩
      rw [setCell_grid, if_neg]
      · rfl
      · rintro ⟨ha, hb⟩
        exact h00 ⟨ha.symm, hb.symm⟩
  obtain ⟨r2, c2, hz2, h2⟩ := SpawnTile_of_empty _ rnd2 hzero
  rw [h2]
  simp only
  have hne : ¬ (r2 = r1 ∧ c2 = c1) := by
    rintro ⟨ha, hb⟩
    rw [setCell_grid, if_pos ⟨ha, hb⟩] at hz2
    rcases hv1 with h | h <;> rw [h] at hz2 <;> exact absurd hz2 (by decide)
  refine ⟨(r1, c1), (r2, c2), ?_, ?_, ?_, ?_⟩
  · intro h
    obtain ⟨ha, hb⟩ := Prod.mk.inj h
    exact hne ⟨ha.symm, hb.symm⟩
  · have hne2 : ¬ (r1 = r2 ∧ c1 = c2) := fun h => hne ⟨h.1.symm, h.2.symm⟩
    simp only [setCell_grid, hne2, if_false, and_self, if_true]
    exact hv1
  · simp only [setCell_grid, and_self, if_true]
    exact hv2
  · intro r c hp hq
    have n1 : ¬ (r = r1 ∧ c = c1) := by
      rintro ⟨ha, hb⟩
      exact hp (by rw [ha, hb])
    have n2 : ¬ (r = r2 ∧ c = c2) := by
      rintro ⟨ha, hb⟩
      exact hq (by rw [ha, hb])
    simp only [setCell_grid, n1, n2, if_false]
    rfl

/-! ## Lines and boards that no transform changes -/

theorem reduceLine_cells (line : Fin BoardSize → Int) :
    reduceLine line = line ↔
      reduceLine line 0 = line 0 ∧ reduceLine line 1 = line 1 ∧ reduceLine line 2 = line 2
        ∧ reduceLine line 3 = line 3 := by
  constructor
  · intro h
    rw [h]
    exact ⟨rfl, rfl, rfl, rfl⟩
  · rintro ⟨e0, e1, e2, e3⟩
    funext j
    fin_cases j
    · exact e0
    · exact e1
    · exact e2
    · exact e3

theorem reduceLine_eq_iff (line : Fin BoardSize → Int) :
    reduceLine line = line ↔ lineSettled line := by
  rw [reduceLine_cells]
  simp only [reduceLine, nonZero_cases, padLine_apply, lineSettled]
  by_cases h0 : line 0 = 0 <;> by_cases h1 : line 1 = 0 <;> by_cases h2 : line 2 = 0 <;>
    by_cases h3 : line 3 = 0 <;>
    simp only [h0, h1, h2, h3, ne_eq, not_true_eq_false, not_false_eq_true, if_true, if_false,
      List.nil_append, List.cons_append, List.append_nil, mergeVals] <;>
    (try split_ifs) <;> simp_all <;> intros <;> omega

theorem dirGrid_eq_iff (dir : Direction) (G : Fin BoardSize → Fin BoardSize → Int) :
    dirGrid dir G = G ↔ ∀ i, lineSettled (dirLine dir G i) := by
  simp only [← reduceLine_eq_iff]
  constructor
  · intro h i
    funext k
    rw [← dirGrid_dirCell, h, dirLine_dirCell]
  · intro h
    funext r c
    obtain ⟨i, k, hik⟩ := dirCell_surj dir r c
    have := congrFun (h i) k
    rw [← dirGrid_dirCell, dirLine_dirCell, hik] at this
    exact this

/-- A line settled in both reading orders is all zero or has no zero. -/
theorem settled_uniform (line : Fin BoardSize → Int) (h1 : lineSettled line)
    (h2 : lineSettled (fun k => line (mirror k))) (a : Fin BoardSize) (ha : line a ≠ 0) :
    ∀ b, line b ≠ 0 := by
  obtain ⟨a1, a2, a3, _, _, _⟩ := h1
  obtain ⟨b1, b2, b3, _, _, _⟩ := h2
  have c1 : line 3 = 0 → line 2 = 0 := b1
  have c2 : line 2 = 0 → line 1 = 0 := b2
  have c3 : line 1 = 0 → line 0 = 0 := b3
  have key : ∀ a, line a ≠ 0 → (line 0 ≠ 0 ∧ line 1 ≠ 0 ∧ line 2 ≠ 0 ∧ line 3 ≠ 0) :=
    all_cases (fun a => line a ≠ 0 → (line 0 ≠ 0 ∧ line 1 ≠ 0 ∧ line 2 ≠ 0 ∧ line 3 ≠ 0))
      (fun h => ⟨h, fun z => h (c3 z), fun z => h (c3 (c2 z)), fun z => h (c3 (c2 (c1 z)))⟩)
      (fun h => ⟨fun z => h (a1 z), h, fun z => h (c2 z), fun z => h (c2 (c1 z))⟩)
      (fun h => ⟨fun z => h (a2 (a1 z)), fun z => h (a2 z), h, fun z => h (c1 z)⟩)
      (fun h => ⟨fun z => h (a3 (a2 (a1 z))), fun z => h (a3 (a2 z)), fun z => h (a3 z), h⟩)
  have hall := key a ha
  exact all_cases (fun b => line b ≠ 0) hall.1 hall.2.1 hall.2.2.1 hall.2.2.2

/-- A line without zero whose neighbours differ is settled in both reading orders. -/
theorem settled_of_full (line : Fin BoardSize → Int) (hfull : ∀ k, line k ≠ 0)
    (h01 : line 0 ≠ line 1) (h12 : line 1 ≠ line 2) (h23 : line 2 ≠ line 3) :
    lineSettled line ∧ lineSettled (fun k => line (mirror k)) := by
  refine ⟨⟨fun h => absurd h (hfull 0), fun h => absurd h (hfull 1), fun h => absurd h (hfull 2),
    fun _ => h01, fun _ => h12, fun _ => h23⟩, ?_⟩
  exact ⟨fun h => absurd h (hfull 3), fun h => absurd h (hfull 2), fun h => absurd h (hfull 1),
    fun _ => Ne.symm h23, fun _ => Ne.symm h12, fun _ => Ne.symm h01⟩

theorem canMove_false_noop (g : Game) (h : g.canMove = false) (dir : Direction) :
    dirGrid dir g.Board.Grid = g.Board.Grid := by
  obtain ⟨hfull, hh, hv⟩ := (canMove_eq_false_iff g).1 h
  rw [dirGrid_eq_iff]
  intro i
  cases dir
  · exact (settled_of_full (fun k => g.Board.Grid k i) (fun k => hfull k i)
      (hv 0 1 i (by decide)) (hv 1 2 i (by decide)) (hv 2 3 i (by decide))).1
  · exact (settled_of_full (fun k => g.Board.Grid k i) (fun k => hfull k i)
      (hv 0 1 i (by decide)) (hv 1 2 i (by decide)) (hv 2 3 i (by decide))).2
  · exact (settled_of_full (g.Board.Grid i) (fun k => hfull i k)
      (hh i 0 1 (by decide)) (hh i 1 2 (by decide)) (hh i 2 3 (by decide))).1
  · exact (settled_of_full (g.Board.Grid i) (fun k => hfull i k)
      (hh i 0 1 (by decide)) (hh i 1 2 (by decide)) (hh i 2 3 (by decide))).2

theorem noop_canMove_false (g : Game) (hnz : ∃ r c, g.Board.Grid r c ≠ 0)
    (h : ∀ dir, dirGrid dir g.Board.Grid = g.Board.Grid) : g.canMove = false := by
  have hL := (dirGrid_eq_iff Direction.Left _).1 (h Direction.Left)
  have hR := (dirGrid_eq_iff Direction.Right _).1 (h Direction.Right)
  have hU := (dirGrid_eq_iff Direction.Up _).1 (h Direction.Up)
  have hD := (dirGrid_eq_iff Direction.Down _).1 (h Direction.Down)
  obtain ⟨r0, c0, h0⟩ := hnz
  have hrow : ∀ c, g.Board.Grid r0 c ≠ 0 :=
    settled_uniform (g.Board.Grid r0) (hL r0) (hR r0) c0 h0
  have hfull : ∀ r c, g.Board.Grid r c ≠ 0 := fun r c =>
    settled_uniform (fun k => g.Board.Grid k c) (hU c) (hD c) r0 (hrow c) r
  rw [canMove_eq_false_iff]
  refine ⟨hfull, ?_, ?_⟩
  · intro r
    obtain ⟨_, _, _, e01, e12, e23⟩ := hL r
    exact adjacent_cases (fun c c2 => g.Board.Grid r c ≠ g.Board.Grid r c2)
      (e01 (hfull r 0)) (e12 (hfull r 1)) (e23 (hfull r 2))
  · intro r r2 c hr
    obtain ⟨_, _, _, e01, e12, e23⟩ := hU c
    exact adjacent_cases (fun a b => g.Board.Grid a c ≠ g.Board.Grid b c)
      (e01 (hfull 0 c)) (e12 (hfull 1 c)) (e23 (hfull 2 c)) r r2 hr

/-! ## The tile-value invariant -/

theorem isTileValue_double (v : Int) (h : isTileValue v) : isTileValue (v * 2) := by
  rcases h with h | ⟨k, hk, h⟩
  · exact Or.inl (by rw [h]; rfl)
  · refine Or.inr ⟨k + 1, by omega, ?_⟩
    rw [h, pow_succ]

theorem isTileValue_two : isTileValue 2 := Or.inr ⟨1, le_refl 1, rfl⟩

theorem isTileValue_four : isTileValue 4 := Or.inr ⟨2, by decide, rfl⟩

theorem isTileValue_zero : isTileValue 0 := Or.inl rfl

theorem isTileValue_nonneg (v : Int) (h : isTileValue v) : 0 ≤ v := by
  rcases h with h | ⟨k, _, h⟩
  · rw [h]
  · rw [h]
    positivity

theorem mem_mergeVals (l : List Int) :
    ∀ x ∈ mergeVals l, ∃ y ∈ l, x = y ∨ x = wrapInt (y * 2) := by
  induction l using mergeVals.induct with
  | case1 => simp [mergeVals]
  | case2 a =>
    intro x hx
    simp only [mergeVals, List.mem_singleton] at hx
    exact ⟨a, by simp, Or.inl hx⟩
  | case3 a rest ih =>
    intro x hx
    simp only [mergeVals, if_true, List.mem_cons] at hx
    rcases hx with hx | hx
    · exact ⟨a, by simp, Or.inr hx⟩
    · obtain ⟨y, hy, h⟩ := ih x hx
      exact ⟨y, by simp [hy], h⟩
  | case4 a b rest hab ih =>
    intro x hx
    simp only [mergeVals, if_neg hab, List.mem_cons] at hx
    rcases hx with hx | hx
    · exact ⟨a, by simp, Or.inl hx⟩
    · obtain ⟨y, hy, h⟩ := ih x (by simpa using hx)
      exact ⟨y, List.mem_cons_of_mem _ hy, h⟩

/-- A reduction without 64-bit overflow keeps the cells of a line legal. -/
theorem reduceLine_valid (line : Fin BoardSize → Int) (h : ∀ i, isTileValue (line i))
    (hfit : ∀ i, doubleFits (line i)) (k : Fin BoardSize) :
    isTileValue (reduceLine line k) := by
  show isTileValue ((mergeVals (nonZero line)).getD (k : Nat) 0)
  by_cases hk : (k : Nat) < (mergeVals (nonZero line)).length
  · rw [List.getD_eq_getElem _ _ hk]
    obtain ⟨y, hy, hxy⟩ := mem_mergeVals _ _ (List.getElem_mem hk)
    obtain ⟨i, rfl⟩ := mem_nonZero line y hy
    rcases hxy with e | e
    · rw [e]
      exact h i
    · rw [e, wrapInt_double _ (hfit i)]
      exact isTileValue_double _ (h i)
  · rw [List.getD_eq_default _ _ (not_lt.1 hk)]
    exact isTileValue_zero

theorem dirGrid_valid (dir : Direction) (G : Fin BoardSize → Fin BoardSize → Int)
    (h : validBoard ⟨G⟩) (hfit : ∀ r c, doubleFits (G r c)) : validBoard ⟨dirGrid dir G⟩ := by
  intro r c
  obtain ⟨i, k, hik⟩ := dirCell_surj dir r c
  have := dirGrid_dirCell dir G i k
  rw [hik] at this
  show isTileValue (dirGrid dir G r c)
  rw [this]
  apply reduceLine_valid
  · intro j
    rw [dirLine_dirCell]
    exact h _ _
  · exact doubleFits_dirLine dir G hfit i

theorem setCell_valid (b : Board) (r c : Fin BoardSize) (v : Int) (hb : validBoard b)
    (hv : isTileValue v) : validBoard (b.setCell (idx r) (idx c) v) := by
  intro r2 c2
  rw [setCell_grid]
  split_ifs
  · exact hv
  · exact hb r2 c2

theorem tile_value_valid (rnd : Rand) : isTileValue (if rnd.lt10 then 4 else 2) := by
  cases rnd.lt10
  · exact isTileValue_two
  · exact isTileValue_four

/-- Legal cells below `2^62` stay legal through `Move`. -/
theorem Move_valid (g : Game) (dir : Direction) (rnd : Rand) (h : validBoard g.Board)
    (hfit : ∀ r c, doubleFits (g.Board.Grid r c)) :
    validBoard (g.Move dir rnd).2.Board := by
  cases hover : g.GameOver
  · by_cases hchg : dirGrid dir g.Board.Grid = g.Board.Grid
    · rw [Move_of_same g dir rnd hover hchg]
      exact h
    · obtain ⟨r, c, _, hmove⟩ := Move_of_changed g dir rnd hover hchg
      rw [hmove]
      exact setCell_valid _ r c _ (dirGrid_valid dir _ h hfit) (tile_value_valid rnd)
  · rw [Move_of_over g dir rnd hover]
    exact h

theorem two_spawns_valid (rnd1 rnd2 : Rand) :
    validBoard ((NewBoard.SpawnTile rnd1).2.SpawnTile rnd2).2 := by
  obtain ⟨p, q, _, hp, hq, hrest⟩ := two_spawns rnd1 rnd2
  intro r c
  by_cases h1 : (r, c) = p
  · have e1 : r = p.1 := by rw [← h1]
    have e2 : c = p.2 := by rw [← h1]
    rw [e1, e2]
    rcases hp with e | e <;> rw [e]
    · exact isTileValue_two
    · exact isTileValue_four
  · by_cases h2 : (r, c) = q
    · have e1 : r = q.1 := by rw [← h2]
      have e2 : c = q.2 := by rw [← h2]
      rw [e1, e2]
      rcases hq with e | e <;> rw [e]
      · exact isTileValue_two
      · exact isTileValue_four
    · rw [hrest r c h1 h2]
      exact isTileValue_zero

theorem two_spawns_le (rnd1 rnd2 : Rand) (r c : Fin BoardSize) :
    ((NewBoard.SpawnTile rnd1).2.SpawnTile rnd2).2.Grid r c ≤ 4 := by
  obtain ⟨p, q, _, hp, hq, hrest⟩ := two_spawns rnd1 rnd2
  by_cases h1 : (r, c) = p
  · have e1 : r = p.1 := by rw [← h1]
    have e2 : c = p.2 := by rw [← h1]
    rw [e1, e2]
    omega
  · by_cases h2 : (r, c) = q
    · have e1 : r = q.1 := by rw [← h2]
      have e2 : c = q.2 := by rw [← h2]
      rw [e1, e2]
      omega
    · rw [hrest r c h1 h2]
      decide

theorem NewGame_valid (bestScore : Int) (rnd1 rnd2 : Rand) :
    validBoard (NewGame bestScore rnd1 rnd2).Board := by
  simp only [NewGame]
  exact two_spawns_valid rnd1 rnd2

theorem Reset_valid (g : Game) (rnd1 rnd2 : Rand) : validBoard (g.Reset rnd1 rnd2).Board := by
  simp only [Game.Reset]
  exact two_spawns_valid rnd1 rnd2

theorem gridPair_valid : validBoard (sessionOf gridPair).Board := by
  intro r c
  fin_cases r <;> fin_cases c <;>
    first
    | exact isTileValue_zero
    | exact isTileValue_two

/-! ## The capacity bound of the board -/

theorem listCount_nonneg (T : Int) (l : List Int) : 0 ≤ listCount T l := by
  induction l with
  | nil => simp [listCount]
  | cons x xs ih =>
    simp only [listCount]
    split_ifs <;> omega

/-- One reduction of a line, counted at the thresholds `T` and `2T`: with `m`
the number of merges of tiles in `[T, 2T)`, the cells at least `2T` grow by at
most `m`, and together with `m` they stay below the cells at least `T`. -/
theorem mergeVals_count (T : Int) (hT : 0 ≤ T) (l : List Int)
    (hfit : ∀ x ∈ l, doubleFits x) :
    ∃ m : Int, 0 ≤ m ∧ listCount (2 * T) (mergeVals l) ≤ listCount (2 * T) l + m ∧
      listCount (2 * T) (mergeVals l) + m ≤ listCount T l := by
  induction l using mergeVals.induct with
  | case1 => exact ⟨0, le_refl 0, by simp [mergeVals, listCount], by simp [mergeVals, listCount]⟩
  | case2 a =>
    refine ⟨0, le_refl 0, by simp [mergeVals, listCount], ?_⟩
    simp only [mergeVals, listCount]
    split_ifs <;> omega
  | case3 a rest ih =>
    obtain ⟨m, hm, h1, h2⟩ := ih (fun x hx => hfit x (by simp [hx]))
    have hw : wrapInt (a * 2) = a * 2 := wrapInt_double _ (hfit a (by simp))
    simp only [mergeVals, if_true, listCount, hw]
    by_cases hA : T ≤ a
    · by_cases hB : 2 * T ≤ a
      · refine ⟨m, hm, ?_, ?_⟩ <;> split_ifs <;> omega
      · refine ⟨m + 1, by omega, ?_, ?_⟩ <;> split_ifs <;> omega
    · refine ⟨m, hm, ?_, ?_⟩ <;> split_ifs <;> omega
  | case4 a b rest hab ih =>
    obtain ⟨m, hm, h1, h2⟩ := ih (fun x hx => hfit x (List.mem_cons_of_mem _ hx))
    simp only [mergeVals, if_neg hab, listCount] at h1 h2 ⊢
    refine ⟨m, hm, ?_, ?_⟩ <;> split_ifs at h1 h2 ⊢ <;> omega

theorem listCount_filter (T : Int) (hT : 0 < T) (l : List Int) :
    listCount T (l.filter (fun v => decide (v ≠ 0))) = listCount T l := by
  induction l with
  | nil => rfl
  | cons x xs ih =>
    rw [List.filter_cons]
    split_ifs with h
    · simp only [listCount, ih]
    · have hx : x = 0 := by simpa using h
      have hz : ¬ T ≤ x := by omega
      simp only [listCount, ih, if_neg hz, zero_add]

theorem lineCount_eq (T : Int) (hT : 0 < T) (line : Fin BoardSize → Int) :
    lineCount T line = listCount T (nonZero line) := by
  rw [nonZero, listCount_filter T hT]
  simp only [lineCount, indices, List.map_cons, List.map_nil, List.sum_cons, List.sum_nil,
    listCount]

theorem lineCount_padLine (T : Int) (hT : 0 < T) (l : List Int) (h : l.length ≤ BoardSize) :
    lineCount T (padLine l) = listCount T l := by
  have hz : ¬ T ≤ 0 := by omega
  simp only [lineCount, indices, List.map_cons, List.map_nil, List.sum_cons, List.sum_nil,
    padLine_apply]
  match l, h with
  | [], _ => simp [listCount, hz]
  | [a], _ => simp [listCount, hz]
  | [a, b], _ => simp [listCount, hz]
  | [a, b, c], _ => simp [listCount, hz]
  | [a, b, c, d], _ => simp [listCount, hz]
  | _ :: _ :: _ :: _ :: _ :: _, h =>
    exfalso
    have h4 : BoardSize = 4 := rfl
    simp only [List.length_cons] at h
    omega

/-- The counting lemma for one line of the board. -/
theorem reduceLine_count (T : Int) (hT : 0 < T) (line : Fin BoardSize → Int)
    (hfit : ∀ i, doubleFits (line i)) :
    ∃ m : Int, 0 ≤ m ∧ lineCount (2 * T) (reduceLine line) ≤ lineCount (2 * T) line + m ∧
      lineCount (2 * T) (reduceLine line) + m ≤ lineCount T line := by
  have hlen : (mergeVals (nonZero line)).length ≤ BoardSize := by
    have h1 := mergeVals_length_le (nonZero line)
    have h2 := nonZero_length_le line
    have h4 : BoardSize = 4 := rfl
    omega
  rw [reduceLine, lineCount_padLine _ (by omega) _ hlen, lineCount_eq _ (by omega),
    lineCount_eq _ hT]
  apply mergeVals_count T (by omega)
  intro x hx
  obtain ⟨i, hi⟩ := mem_nonZero line x hx
  rw [hi]
  exact hfit i

theorem countGE_dir (dir : Direction) (T : Int) (G : Fin BoardSize → Fin BoardSize → Int) :
    countGE T G = lineCount T (dirLine dir G 0) + lineCount T (dirLine dir G 1)
      + lineCount T (dirLine dir G 2) + lineCount T (dirLine dir G 3) := by
  rw [countGE, sum_rowMajor_dir dir]
  simp only [← dirLine_dirCell, lineCount]
  simp only [indices, List.map_cons, List.map_nil, List.sum_cons, List.sum_nil]
  ring

theorem countGE_dirGrid (dir : Direction) (T : Int) (G : Fin BoardSize → Fin BoardSize → Int) :
    countGE T (dirGrid dir G) = lineCount T (reduceLine (dirLine dir G 0))
      + lineCount T (reduceLine (dirLine dir G 1))
      + lineCount T (reduceLine (dirLine dir G 2))
      + lineCount T (reduceLine (dirLine dir G 3)) := by
  rw [countGE, sum_rowMajor_dir dir]
  simp only [dirGrid_dirCell, lineCount]
  simp only [indices, List.map_cons, List.map_nil, List.sum_cons, List.sum_nil]
  ring

/-- The counting lemma for a transform of the board. -/
theorem dirGrid_count (dir : Direction) (T : Int) (hT : 0 < T)
    (G : Fin BoardSize → Fin BoardSize → Int) (hfit : ∀ r c, doubleFits (G r c)) :
    ∃ m : Int, 0 ≤ m ∧ countGE (2 * T) (dirGrid dir G) ≤ countGE (2 * T) G + m ∧
      countGE (2 * T) (dirGrid dir G) + m ≤ countGE T G := by
  obtain ⟨m0, p0, a0, b0⟩ := reduceLine_count T hT (dirLine dir G 0) (doubleFits_dirLine dir G hfit 0)
  obtain ⟨m1, p1, a1, b1⟩ := reduceLine_count T hT (dirLine dir G 1) (doubleFits_dirLine dir G hfit 1)
  obtain ⟨m2, p2, a2, b2⟩ := reduceLine_count T hT (dirLine dir G 2) (doubleFits_dirLine dir G hfit 2)
  obtain ⟨m3, p3, a3, b3⟩ := reduceLine_count T hT (dirLine dir G 3) (doubleFits_dirLine dir G hfit 3)
  refine ⟨m0 + m1 + m2 + m3, by omega, ?_, ?_⟩
  · rw [countGE_dirGrid dir, countGE_dir dir]
    omega
  · rw [countGE_dirGrid dir, countGE_dir dir T]
    omega

theorem countGE_bounds (T : Int) (G : Fin BoardSize → Fin BoardSize → Int) :
    0 ≤ countGE T G ∧ countGE T G ≤ 16 := by
  simp only [countGE, rowMajor, rowCells, indices, List.map_cons, List.map_nil, List.map_append,
    List.sum_append, List.sum_cons, List.sum_nil, List.cons_append, List.nil_append]
  have key : ∀ r c, 0 ≤ (if T ≤ G r c then (1 : Int) else 0) ∧
      (if T ≤ G r c then (1 : Int) else 0) ≤ 1 := by
    intro r c
    split_ifs <;> omega
  have := key 0 0; have := key 0 1; have := key 0 2; have := key 0 3
  have := key 1 0; have := key 1 1; have := key 1 2; have := key 1 3
  have := key 2 0; have := key 2 1; have := key 2 2; have := key 2 3
  have := key 3 0; have := key 3 1; have := key 3 2; have := key 3 3
  omega

theorem mem_rowMajor (p : Fin BoardSize × Fin BoardSize) : p ∈ rowMajor := by
  obtain ⟨r, c⟩ := p
  fin_cases r <;> fin_cases c <;> decide

theorem countGE_eq_zero (T : Int) (G : Fin BoardSize → Fin BoardSize → Int)
    (h : ∀ r c, G r c < T) : countGE T G = 0 := by
  rw [countGE]
  have : rowMajor.map (fun p => if T ≤ G p.1 p.2 then (1 : Int) else 0)
      = rowMajor.map (fun _ => (0 : Int)) := by
    apply List.map_congr_left
    intro p _
    have := h p.1 p.2
    rw [if_neg (by omega)]
  rw [this]
  simp

theorem lt_of_countGE_zero (T : Int) (G : Fin BoardSize → Fin BoardSize → Int)
    (h : countGE T G ≤ 0) (r c : Fin BoardSize) : G r c < T := by
  by_contra hge
  have hmem : (if T ≤ G r c then (1 : Int) else 0) ∈
      rowMajor.map (fun p => if T ≤ G p.1 p.2 then (1 : Int) else 0) :=
    List.mem_map.2 ⟨(r, c), mem_rowMajor _, rfl⟩
  have hnn : ∀ x ∈ rowMajor.map (fun p => if T ≤ G p.1 p.2 then (1 : Int) else 0), 0 ≤ x := by
    intro x hx
    obtain ⟨p, _, rfl⟩ := List.mem_map.1 hx
    split_ifs <;> omega
  have := List.single_le_sum hnn _ hmem
  rw [if_pos (not_lt.1 hge)] at this
  rw [countGE] at h
  omega

theorem countGE_setCell (T : Int) (G : Fin BoardSize → Fin BoardSize → Int)
    (r c : Fin BoardSize) (v : Int) (hv : v < T) (hz : G r c < T) :
    countGE T ((⟨G⟩ : Board).setCell (idx r) (idx c) v).Grid = countGE T G := by
  rw [countGE, countGE]
  congr 1
  apply List.map_congr_left
  intro p _
  rw [setCell_grid]
  by_cases hp : p.1 = r ∧ p.2 = c
  · rw [if_pos hp, if_neg (by omega)]
    obtain ⟨h1, h2⟩ := hp
    rw [h1, h2, if_neg (by omega)]
  · rw [if_neg hp]

theorem two_pow_ge_eight (t : Nat) (ht : 3 ≤ t) : (8 : Int) ≤ 2 ^ t := by
  have h : (2 : Int) ^ 3 ≤ 2 ^ t := pow_le_pow_right₀ (by norm_num) ht
  norm_num at h
  exact h

/-- A board whose cells are all at most 4 respects the capacity bound. -/
theorem packed_of_small (G : Fin BoardSize → Fin BoardSize → Int) (h : ∀ r c, G r c ≤ 4) :
    packed G := by
  intro t ht ht18
  by_cases h3 : 3 ≤ t
  · have h8 := two_pow_ge_eight t h3
    have hz := countGE_eq_zero (2 ^ t) G (fun r c => by have := h r c; omega)
    rw [hz]
    omega
  · have := (countGE_bounds (2 ^ t) G).2
    omega

/-- A transform keeps the capacity bound. -/
theorem packed_dirGrid (dir : Direction) (G : Fin BoardSize → Fin BoardSize → Int)
    (hfit : ∀ r c, doubleFits (G r c)) (h : packed G) : packed (dirGrid dir G) := by
  intro t ht ht18
  by_cases h1 : t = 1
  · have := (countGE_bounds (2 ^ t) (dirGrid dir G)).2
    omega
  · obtain ⟨s, rfl⟩ : ∃ s, t = s + 1 := ⟨t - 1, by omega⟩
    have hpos : (0 : Int) < 2 ^ s := by positivity
    obtain ⟨m, hm, ha, hb⟩ := dirGrid_count dir (2 ^ s) hpos G hfit
    have hpow : (2 : Int) ^ (s + 1) = 2 * 2 ^ s := by rw [pow_succ]; ring
    rw [hpow]
    have e1 := h (s + 1) (by omega) ht18
    have e2 := h s (by omega) (by omega)
    rw [hpow] at e1
    push_cast at e1 ⊢
    omega

/-- The spawn keeps the capacity bound: the new tile is below 8, and at most
sixteen cells reach 2 or 4. -/
theorem packed_setCell (G : Fin BoardSize → Fin BoardSize → Int) (r c : Fin BoardSize)
    (v : Int) (hv : v = 2 ∨ v = 4) (hz : G r c = 0) (h : packed G) :
    packed ((⟨G⟩ : Board).setCell (idx r) (idx c) v).Grid := by
  intro t ht ht18
  by_cases h3 : 3 ≤ t
  · have h8 := two_pow_ge_eight t h3
    rw [countGE_setCell _ _ _ _ _ (by omega) (by omega)]
    exact h t ht ht18
  · have := (countGE_bounds (2 ^ t) ((⟨G⟩ : Board).setCell (idx r) (idx c) v).Grid).2
    omega

/-- On a board that respects the capacity bound every cell is below `2^18`. -/
theorem packed_lt (G : Fin BoardSize → Fin BoardSize → Int) (h : packed G)
    (r c : Fin BoardSize) : G r c < 262144 := by
  have h18 := h 18 (by decide) (le_refl 18)
  have e : (2 : Int) ^ 18 = 262144 := by norm_num
  rw [e] at h18
  exact lt_of_countGE_zero 262144 G (by push_cast at h18; omega) r c

theorem playable_fits (b : Board) (h : playable b) (r c : Fin BoardSize) :
    doubleFits (b.Grid r c) := by
  have h1 := isTileValue_nonneg _ (h.1 r c)
  have h2 := packed_lt _ h.2 r c
  unfold doubleFits
  omega

/-- The invariant of play is kept by `Move`. -/
theorem Move_playable (g : Game) (dir : Direction) (rnd : Rand) (h : playable g.Board) :
    playable (g.Move dir rnd).2.Board := by
  cases hover : g.GameOver
  · by_cases hchg : dirGrid dir g.Board.Grid = g.Board.Grid
    · rw [Move_of_same g dir rnd hover hchg]
      exact h
    · obtain ⟨r, c, hz, hmove⟩ := Move_of_changed g dir rnd hover hchg
      rw [hmove]
      exact ⟨setCell_valid _ r c _ (dirGrid_valid dir _ h.1 (playable_fits _ h))
          (tile_value_valid rnd),
        packed_setCell _ r c _ (tile_value_cases rnd) hz
          (packed_dirGrid dir _ (playable_fits _ h) h.2)⟩
  · rw [Move_of_over g dir rnd hover]
    exact h

theorem NewGame_playable (bestScore : Int) (rnd1 rnd2 : Rand) :
    playable (NewGame bestScore rnd1 rnd2).Board := by
  refine ⟨NewGame_valid bestScore rnd1 rnd2, ?_⟩
  simp only [NewGame]
  exact packed_of_small _ (two_spawns_le rnd1 rnd2)

theorem Reset_playable (g : Game) (rnd1 rnd2 : Rand) : playable (g.Reset rnd1 rnd2).Board := by
  refine ⟨Reset_valid g rnd1 rnd2, ?_⟩
  simp only [Game.Reset]
  exact packed_of_small _ (two_spawns_le rnd1 rnd2)

/-- Every session reachable from `NewGame` satisfies the invariant of play. -/
theorem Reachable_playable (g : Game) (h : Reachable g) : playable g.Board := by
  induction h with
  | newGame bestScore rnd1 rnd2 => exact NewGame_playable bestScore rnd1 rnd2
  | move g dir rnd _ ih => exact Move_playable g dir rnd ih
  | reset g rnd1 rnd2 _ _ => exact Reset_playable g rnd1 rnd2

/-- A legal cell below `2^18` is at most `2^17`. -/
theorem tile_le_of_lt (v : Int) (h : isTileValue v) (hlt : v < 262144) : v ≤ 131072 := by
  rcases h with h | ⟨k, _, h⟩
  · rw [h]
    decide
  · have hk : k < 18 := by
      by_contra hge
      have : (2 : Int) ^ 18 ≤ 2 ^ k := pow_le_pow_right₀ (by norm_num) (not_lt.1 hge)
      norm_num at this
      omega
    have : (2 : Int) ^ k ≤ 2 ^ 17 := pow_le_pow_right₀ (by norm_num) (by omega)
    norm_num at this
    omega

/-! ## Conjugating the transforms -/

theorem withGrid_grid (g : Game) (G : Fin BoardSize → Fin BoardSize → Int) :
    (g.withGrid G).Board.Grid = G := rfl

/-! ## Move records and no-op detection -/

theorem lineMoves_idx_nil_iff (line : Fin BoardSize → Int) :
    lineMoves line idx = [] ↔ lineSettled line := by
  simp only [lineMoves, compress_cases, lineSettled, idx_zero, idx_one, idx_two, idx_three]
  by_cases h0 : line 0 = 0 <;> by_cases h1 : line 1 = 0 <;> by_cases h2 : line 2 = 0 <;>
    by_cases h3 : line 3 = 0 <;>
    simp [h0, h1, h2, h3, mergeMoves] <;>
    (try split_ifs) <;> (try simp_all)

/-- For `moveLeft` and `moveUp` the record list is empty exactly when the
transform changes no cell. -/
theorem records_nil_iff_noop (g : Game) :
    (g.moveLeft.1.Moves = [] ↔ g.moveLeft.2.Board.Grid = g.Board.Grid) ∧
    (g.moveUp.1.Moves = [] ↔ g.moveUp.2.Board.Grid = g.Board.Grid) := by
  constructor
  · rw [moveLeft_result, moveLeft_game]
    show dirMoves Direction.Left g.Board.Grid = [] ↔ dirGrid Direction.Left g.Board.Grid = _
    rw [dirGrid_eq_iff, dirMoves_eq]
    simp only [List.append_eq_nil, List.map_eq_nil_iff, dirPos, lineMoves_idx_nil_iff]
    constructor
    · rintro ⟨h0, h1, h2, h3⟩
      exact all_cases _ h0 h1 h2 h3
    · intro h
      exact ⟨h 0, h 1, h 2, h 3⟩
  · rw [moveUp_result, moveUp_game]
    show dirMoves Direction.Up g.Board.Grid = [] ↔ dirGrid Direction.Up g.Board.Grid = _
    rw [dirGrid_eq_iff, dirMoves_eq]
    simp only [List.append_eq_nil, List.map_eq_nil_iff, dirPos, lineMoves_idx_nil_iff]
    constructor
    · rintro ⟨h0, h1, h2, h3⟩
      exact all_cases _ h0 h1 h2 h3
    · intro h
      exact ⟨h 0, h 1, h 2, h 3⟩

theorem canMove_iff_changes (g : Game) (hnz : ∃ r c, g.Board.Grid r c ≠ 0) :
    g.canMove = true ↔ ∃ dir, (g.applyDir dir).2.Board.Grid ≠ g.Board.Grid := by
  constructor
  · intro hcan
    by_contra hno
    push_neg at hno
    have hall : ∀ dir, dirGrid dir g.Board.Grid = g.Board.Grid := by
      intro dir
      rw [← applyDir_grid]
      exact hno dir
    have := noop_canMove_false g hnz hall
    rw [this] at hcan
    exact absurd hcan (by decide)
  · rintro ⟨dir, hdir⟩
    by_contra hcan
    have hfalse : g.canMove = false := by
      cases h : g.canMove
      · rfl
      · exact absurd h hcan
    exact hdir (by rw [applyDir_grid]; exact canMove_false_noop g hfalse dir)

/-! ## Claims C11 to C20 -/

set_option maxRecDepth 100000 in
/-- C11 (as stated) fails at the 64-bit boundary: on the running session with
`Score = 2^63 - 1` and row 0 `[2,2,0,0]`, moving left changes the board and
returns a move score of 4, and the session Score becomes `-2^63 + 3`, not the
old Score plus 4. -/
theorem C11_overflow_counterexample :
    (scenario 9223372036854775807 0 false).GameOver = false ∧
    ((scenario 9223372036854775807 0 false).applyDir Direction.Left).2.Board.Grid
      ≠ (scenario 9223372036854775807 0 false).Board.Grid ∧
    (((scenario 9223372036854775807 0 false).Move Direction.Left ⟨0, false⟩).1.map
      MoveResult.Score) = some 4 ∧
    ((scenario 9223372036854775807 0 false).Move Direction.Left ⟨0, false⟩).2.Score
      = -9223372036854775805 ∧
    ((scenario 9223372036854775807 0 false).Move Direction.Left ⟨0, false⟩).2.Score
      ≠ (scenario 9223372036854775807 0 false).Score + 4 := by
  refine ⟨rfl, ?_, by decide, by decide, by decide⟩
  rw [applyDir_grid]
  intro h
  have h0 := congrFun (congrFun h 0) 1
  revert h0
  decide

/-- C11, amended. Score update: on a running session, when the direction
changes the board, the session Score after `Move` is the 64-bit sum of the old
Score and the returned `MoveResult.Score`, which is their exact sum whenever
that sum is in the 64-bit range, and BestScore is the maximum of the old
BestScore and the new Score; BestScore never decreases across any sequence of
`Move` calls. -/
theorem C11_score_update (g : Game) (dir : Direction) (rnd : Rand)
    (hover : g.GameOver = false)
    (hchg : (g.applyDir dir).2.Board.Grid ≠ g.Board.Grid) :
    (∃ res, (g.Move dir rnd).1 = some res ∧
      res.Score = (g.applyDir dir).1.Score ∧
      (g.Move dir rnd).2.Score = wrapInt (g.Score + res.Score) ∧
      (-9223372036854775808 ≤ g.Score + res.Score →
        g.Score + res.Score < 9223372036854775808 →
        (g.Move dir rnd).2.Score = g.Score + res.Score) ∧
      (g.Move dir rnd).2.BestScore = max g.BestScore (g.Move dir rnd).2.Score) ∧
    (∀ (g2 : Game) (calls : List (Direction × Rand)),
      g2.BestScore ≤ (g2.runMoves calls).BestScore) := by
  refine ⟨?_, fun g2 calls => BestScore_le_runMoves calls g2⟩
  rw [applyDir_grid] at hchg
  obtain ⟨r, c, _, hmove⟩ := Move_of_changed g dir rnd hover hchg
  rw [hmove]
  refine ⟨_, rfl, rfl, rfl, ?_, ?_⟩
  · intro hlo hhi
    exact wrapInt_of_range _ hlo hhi
  · simp only
    split_ifs with h
    · exact (max_eq_right (le_of_lt h)).symm
    · exact (max_eq_left (not_lt.1 h)).symm

set_option maxRecDepth 100000 in
theorem C11_score_update_witness :
    (sessionOf gridPair).GameOver = false ∧
    ((sessionOf gridPair).applyDir Direction.Left).2.Board.Grid ≠ (sessionOf gridPair).Board.Grid ∧
    (∃ res, ((sessionOf gridPair).Move Direction.Left ⟨0, false⟩).1 = some res ∧
      ((sessionOf gridPair).Move Direction.Left ⟨0, false⟩).2.Score
        = (sessionOf gridPair).Score + res.Score ∧
      ((sessionOf gridPair).Move Direction.Left ⟨0, false⟩).2.BestScore
        = max (sessionOf gridPair).BestScore
            ((sessionOf gridPair).Move Direction.Left ⟨0, false⟩).2.Score) :=
  ⟨rfl, by decide,
    match (C11_score_update (sessionOf gridPair) Direction.Left ⟨0, false⟩ rfl (by decide)).1 with
    | ⟨res, h1, h2, _, h4, h5⟩ =>
      ⟨res, h1, h4 (by rw [h2]; decide) (by rw [h2]; decide), h5⟩⟩

set_option maxRecDepth 100000 in
/-- C12 (as stated) fails at the 64-bit boundary: on the non-negative board
with two tiles `2^62` in row 0 the score returned by `moveLeft` is `-2^63`,
which is negative and differs from the sum `2^63` of `Value` over the two
merged records. -/
theorem C12_overflow_counterexample :
    (∀ r c, 0 ≤ (sessionOf gridOverflow).Board.Grid r c) ∧
    ((sessionOf gridOverflow).applyDir Direction.Left).1.Score = -9223372036854775808 ∧
    ¬ (0 ≤ ((sessionOf gridOverflow).applyDir Direction.Left).1.Score) ∧
    (((((sessionOf gridOverflow).applyDir Direction.Left).1.Moves.filter
        (fun m => m.Merged)).map TileMove.Value).sum) = 9223372036854775808 ∧
    ((sessionOf gridOverflow).applyDir Direction.Left).1.Score
      ≠ (((((sessionOf gridOverflow).applyDir Direction.Left).1.Moves.filter
          (fun m => m.Merged)).map TileMove.Value).sum) := by
  refine ⟨by decide, by decide, by decide, by decide, by decide⟩

/-- C12, amended. Move score below the 64-bit boundary: on a board whose cells
all lie in `[0, 2^59)` the Score returned by the transform of a direction is
non-negative, equals the sum of the cells of the transformed board that are
the target of a merged record (the tiles created by a merge), and equals the
sum of `Value` over the returned records with `Merged = true`. -/
theorem C12_move_score (g : Game) (dir : Direction)
    (hcells : ∀ r c, 0 ≤ g.Board.Grid r c ∧ g.Board.Grid r c < 576460752303423488) :
    0 ≤ (g.applyDir dir).1.Score ∧
    (g.applyDir dir).1.Score
      = createdSum (g.applyDir dir).1.Moves (g.applyDir dir).2.Board.Grid ∧
    (g.applyDir dir).1.Score
      = ((((g.applyDir dir).1.Moves.filter (fun m => m.Merged)).map TileMove.Value).sum) := by
  rw [applyDir_score, applyDir_moves, applyDir_grid]
  obtain ⟨he, hnn⟩ := dirScore_exact dir _ hcells
  have hfit : ∀ r c, doubleFits (g.Board.Grid r c) := by
    intro r c
    have := hcells r c
    unfold doubleFits
    omega
  exact ⟨hnn, by rw [he, createdSum_dir], by rw [he, mergedSum_dir dir _ hfit]⟩

set_option maxRecDepth 100000 in
theorem C12_move_score_witness :
    (∀ r c, 0 ≤ (sessionOf gridPair).Board.Grid r c ∧
      (sessionOf gridPair).Board.Grid r c < 576460752303423488) ∧
    0 ≤ ((sessionOf gridPair).applyDir Direction.Left).1.Score ∧
    ((sessionOf gridPair).applyDir Direction.Left).1.Score
      = createdSum ((sessionOf gridPair).applyDir Direction.Left).1.Moves
          ((sessionOf gridPair).applyDir Direction.Left).2.Board.Grid ∧
    ((sessionOf gridPair).applyDir Direction.Left).1.Score
      = (((((sessionOf gridPair).applyDir Direction.Left).1.Moves.filter
          (fun m => m.Merged)).map TileMove.Value).sum) :=
  ⟨by decide, C12_move_score (sessionOf gridPair) Direction.Left (by decide)⟩

/-- C13. Reset: for every session and every outcome of the two spawns, after
`Reset` Score is 0, GameOver and Won are false, BestScore is what it was, and
the board holds exactly two non-zero cells, each 2 or 4. -/
theorem C13_reset (g : Game) (rnd1 rnd2 : Rand) :
    (g.Reset rnd1 rnd2).Score = 0 ∧
    (g.Reset rnd1 rnd2).GameOver = false ∧
    (g.Reset rnd1 rnd2).Won = false ∧
    (g.Reset rnd1 rnd2).BestScore = g.BestScore ∧
    ∃ p q : Fin BoardSize × Fin BoardSize, p ≠ q ∧
      ((g.Reset rnd1 rnd2).Board.Grid p.1 p.2 = 2 ∨ (g.Reset rnd1 rnd2).Board.Grid p.1 p.2 = 4) ∧
      ((g.Reset rnd1 rnd2).Board.Grid q.1 q.2 = 2 ∨ (g.Reset rnd1 rnd2).Board.Grid q.1 q.2 = 4) ∧
      (∀ r c, (r, c) ≠ p → (r, c) ≠ q → (g.Reset rnd1 rnd2).Board.Grid r c = 0) := by
  simp only [Game.Reset]
  exact ⟨trivial, trivial, trivial, trivial, two_spawns rnd1 rnd2⟩

theorem gridOverflow_valid : validBoard (sessionOf gridOverflow).Board := by
  have h62 : isTileValue 4611686018427387904 := Or.inr ⟨62, by decide, by norm_num⟩
  intro r c
  fin_cases r <;> fin_cases c <;>
    first
    | exact isTileValue_zero
    | exact h62

set_option maxRecDepth 100000 in
/-- C14 (as stated) fails at the 64-bit boundary: every cell of the board with
two tiles `2^62` in row 0 is 0 or a power of two at least 2, and after
`Move(Left)` cell (0,0) holds `-2^63`, which is negative. -/
theorem C14_overflow_counterexample :
    validBoard (sessionOf gridOverflow).Board ∧
    ((sessionOf gridOverflow).Move Direction.Left ⟨0, false⟩).2.Board.Grid 0 0
      = -9223372036854775808 ∧
    ¬ validBoard ((sessionOf gridOverflow).Move Direction.Left ⟨0, false⟩).2.Board := by
  have hcell : ((sessionOf gridOverflow).Move Direction.Left ⟨0, false⟩).2.Board.Grid 0 0
      = -9223372036854775808 := by decide
  refine ⟨gridOverflow_valid, hcell, ?_⟩
  intro hvalid
  have hnn := isTileValue_nonneg _ (hvalid 0 0)
  rw [hcell] at hnn
  exact absurd hnn (by decide)

/-- C14, amended. Tile-value invariant: if every cell is 0 or a power of two
at least 2 and below `2^62`, every cell is 0 or a power of two at least 2 after
`Move` in any direction; the boards of `NewGame` and `Reset` satisfy the
predicate; and every board reachable from `NewGame` by `Move` and `Reset`
holds only zeros and powers of two from 2 to `2^17 = 131072`, none negative,
so the doubling never leaves the 64-bit range in play. -/
theorem C14_tile_invariant (g : Game) (dir : Direction) (rnd : Rand)
    (h : validBoard g.Board) (hlt : ∀ r c, g.Board.Grid r c < 4611686018427387904) :
    validBoard (g.Move dir rnd).2.Board ∧
    (∀ bestScore rnd1 rnd2, validBoard (NewGame bestScore rnd1 rnd2).Board) ∧
    (∀ (g2 : Game) rnd1 rnd2, validBoard (g2.Reset rnd1 rnd2).Board) ∧
    (∀ g2 : Game, Reachable g2 →
      ∀ r c, 0 ≤ g2.Board.Grid r c ∧ g2.Board.Grid r c ≤ 131072 ∧
        (g2.Board.Grid r c = 0 ∨ ∃ k : Nat, 1 ≤ k ∧ g2.Board.Grid r c = 2 ^ k)) := by
  have hfit : ∀ r c, doubleFits (g.Board.Grid r c) := by
    intro r c
    have h1 := isTileValue_nonneg _ (h r c)
    have h2 := hlt r c
    unfold doubleFits
    omega
  refine ⟨Move_valid g dir rnd h hfit, NewGame_valid, fun g2 => Reset_valid g2, ?_⟩
  intro g2 hr r c
  have hp := Reachable_playable g2 hr
  exact ⟨isTileValue_nonneg _ (hp.1 r c),
    tile_le_of_lt _ (hp.1 r c) (packed_lt _ hp.2 r c), hp.1 r c⟩

set_option maxRecDepth 100000 in
theorem C14_tile_invariant_witness :
    validBoard (sessionOf gridPair).Board ∧
    (∀ r c, (sessionOf gridPair).Board.Grid r c < 4611686018427387904) ∧
    validBoard ((sessionOf gridPair).Move Direction.Left ⟨0, false⟩).2.Board :=
  ⟨gridPair_valid, by decide,
    (C14_tile_invariant (sessionOf gridPair) Direction.Left ⟨0, false⟩ gridPair_valid
      (by decide)).1⟩

set_option maxRecDepth 100000 in
/-- C15 (as stated) fails at the 64-bit boundary: on the board with two tiles
`2^62` in row 0, `moveLeft` returns a merged record from (0,1) to (0,0) with
`Value = 2^62`, and the cell at (0,0) after the transform is `-2^63`, not
`2 * Value`. -/
theorem C15_overflow_counterexample :
    ({ From := { Row := 0, Col := 1 }, To := { Row := 0, Col := 0 },
       Value := 4611686018427387904, Merged := true } : TileMove)
      ∈ ((sessionOf gridOverflow).applyDir Direction.Left).1.Moves ∧
    ((sessionOf gridOverflow).applyDir Direction.Left).2.Board.Grid 0 0
      = -9223372036854775808 ∧
    ((sessionOf gridOverflow).applyDir Direction.Left).2.Board.Grid 0 0
      ≠ 2 * 4611686018427387904 := by
  refine ⟨by decide, by decide, by decide⟩

/-- C15, amended. Move-record provenance: every record returned by the
transform of a direction has `From` and `To` inside the grid and on the same
line of the direction, a non-zero `Value` equal to the cell at `From` before
the move, and the cell at `To` after the transform is `Value` when `Merged` is
false and the 64-bit double of `Value` when it is true, which is `2 * Value`
whenever `-2^62 ≤ Value < 2^62`. -/
theorem C15_record_provenance (g : Game) (dir : Direction) (m : TileMove)
    (hm : m ∈ (g.applyDir dir).1.Moves) :
    ∃ p q : Fin BoardSize × Fin BoardSize,
      m.From = { Row := idx p.1, Col := idx p.2 } ∧
      m.To = { Row := idx q.1, Col := idx q.2 } ∧
      sameLine dir p q ∧
      m.Value ≠ 0 ∧
      m.Value = g.Board.Grid p.1 p.2 ∧
      (g.applyDir dir).2.Board.Grid q.1 q.2
        = (if m.Merged then wrapInt (m.Value * 2) else m.Value) ∧
      (doubleFits m.Value →
        (g.applyDir dir).2.Board.Grid q.1 q.2 = (if m.Merged then 2 * m.Value else m.Value)) := by
  rw [applyDir_moves, mem_dirMoves] at hm
  obtain ⟨i, lm, hlm, rfl⟩ := hm
  obtain ⟨a, k, hne, hfrom, hval, hto, hcell⟩ := lineMoves_spec _ _ lm hlm
  have hq : (g.applyDir dir).2.Board.Grid (dirCell dir i k).1 (dirCell dir i k).2
      = (if (dirRecord dir i lm).Merged then wrapInt ((dirRecord dir i lm).Value * 2)
          else (dirRecord dir i lm).Value) := by
    rw [applyDir_grid, dirGrid_dirCell, dirRecord_Value, dirRecord_Merged]
    exact hcell
  refine ⟨dirCell dir i a, dirCell dir i k, dirRecord_From dir i a lm hfrom,
    dirRecord_To dir i k lm hto, sameLine_dirCell dir i a k, ?_, ?_, hq, ?_⟩
  · rw [dirRecord_Value, hval]
    exact hne
  · rw [dirRecord_Value, hval, dirLine_dirCell]
  · intro hfit
    rw [hq, wrapInt_double _ hfit, mul_comm]

set_option maxRecDepth 100000 in
theorem C15_record_provenance_witness :
    ({ From := { Row := 0, Col := 1 }, To := { Row := 0, Col := 0 }, Value := 2,
       Merged := true } : TileMove) ∈ ((sessionOf gridPair).applyDir Direction.Left).1.Moves ∧
    ∃ p q : Fin BoardSize × Fin BoardSize,
      ({ Row := 0, Col := 1 } : Position) = { Row := idx p.1, Col := idx p.2 } ∧
      ({ Row := 0, Col := 0 } : Position) = { Row := idx q.1, Col := idx q.2 } ∧
      sameLine Direction.Left p q ∧
      (2 : Int) ≠ 0 ∧
      (2 : Int) = (sessionOf gridPair).Board.Grid p.1 p.2 ∧
      ((sessionOf gridPair).applyDir Direction.Left).2.Board.Grid q.1 q.2
        = (if true then 2 * 2 else 2) :=
  ⟨by decide,
    match C15_record_provenance (sessionOf gridPair) Direction.Left
      { From := { Row := 0, Col := 1 }, To := { Row := 0, Col := 0 }, Value := 2,
        Merged := true } (by decide) with
    | ⟨p, q, h1, h2, h3, h4, h5, _, h7⟩ => ⟨p, q, h1, h2, h3, h4, h5, h7 (by decide)⟩⟩

/-- C16. Tile spawn: on a board without a zero cell `SpawnTile` returns nil
and leaves the board unchanged; on a board with a zero cell it returns the
position found at the drawn index of the row-major list of empty cells, a cell
that was zero, sets it to 4 when the drawn float is below 0.1 and to 2
otherwise, and leaves the other fifteen cells unchanged. -/
theorem C16_tile_spawn (b : Board) (rnd : Rand) :
    ((∀ r c, b.Grid r c ≠ 0) → b.SpawnTile rnd = (none, b)) ∧
    ((∃ r c, b.Grid r c = 0) →
      ∃ r c, b.Grid r c = 0 ∧
        b.GetEmptyCells.get? (rnd.Intn b.GetEmptyCells.length)
          = some { Row := idx r, Col := idx c } ∧
        (b.SpawnTile rnd).1 = some { Row := idx r, Col := idx c } ∧
        (b.SpawnTile rnd).2.Grid r c = (if rnd.lt10 then 4 else 2) ∧
        (∀ r2 c2, (r2, c2) ≠ (r, c) → (b.SpawnTile rnd).2.Grid r2 c2 = b.Grid r2 c2)) ∧
    b.GetEmptyCells = (rowMajor.filter (fun p => decide (b.Grid p.1 p.2 = 0))).map
      (fun p => ({ Row := idx p.1, Col := idx p.2 } : Position)) := by
  refine ⟨SpawnTile_of_full b rnd, ?_, GetEmptyCells_rowMajor b⟩
  intro h
  obtain ⟨r, c, hz, hget, hsp⟩ := SpawnTile_drawn b rnd h
  refine ⟨r, c, hz, hget, by rw [hsp], ?_, ?_⟩
  · rw [hsp]
    simp only [setCell_grid, and_self, if_true]
  · intro r2 c2 hne
    rw [hsp]
    simp only [setCell_grid]
    have : ¬ (r2 = r ∧ c2 = c) := by
      rintro ⟨h1, h2⟩
      exact hne (by rw [h1, h2])
    rw [if_neg this]

set_option maxRecDepth 100000 in
theorem C16_tile_spawn_witness :
    ((∀ r c, (⟨gridFull⟩ : Board).Grid r c ≠ 0) ∧
      (⟨gridFull⟩ : Board).SpawnTile ⟨3, true⟩ = (none, ⟨gridFull⟩)) ∧
    ((∃ r c, (⟨gridPair⟩ : Board).Grid r c = 0) ∧
      ∃ r c, (⟨gridPair⟩ : Board).Grid r c = 0 ∧
        (⟨gridPair⟩ : Board).GetEmptyCells.get?
            ((⟨3, true⟩ : Rand).Intn (⟨gridPair⟩ : Board).GetEmptyCells.length)
          = some { Row := idx r, Col := idx c } ∧
        ((⟨gridPair⟩ : Board).SpawnTile ⟨3, true⟩).1 = some { Row := idx r, Col := idx c } ∧
        ((⟨gridPair⟩ : Board).SpawnTile ⟨3, true⟩).2.Grid r c
          = (if (⟨3, true⟩ : Rand).lt10 then 4 else 2) ∧
        (∀ r2 c2, (r2, c2) ≠ (r, c) →
          ((⟨gridPair⟩ : Board).SpawnTile ⟨3, true⟩).2.Grid r2 c2
            = (⟨gridPair⟩ : Board).Grid r2 c2)) :=
  ⟨⟨by decide, (C16_tile_spawn ⟨gridFull⟩ ⟨3, true⟩).1 (by decide)⟩,
   ⟨by decide, (C16_tile_spawn ⟨gridPair⟩ ⟨3, true⟩).2.1 (by decide)⟩⟩

/-- C17. Direction symmetry: `moveRight` is `moveLeft` conjugated by the
horizontal mirror, `moveUp` is `moveLeft` conjugated by transposition and
`moveDown` is `moveUp` conjugated by the vertical mirror, for the grid written
and for the score returned; in every direction cell `k` of line `i` is read
from grid cell `dirCell dir i k` and the reduced line is written back to the
same cells. -/
theorem C17_direction_symmetry (g : Game) :
    (g.moveRight.2.Board.Grid = mirrorH (g.withGrid (mirrorH g.Board.Grid)).moveLeft.2.Board.Grid ∧
      g.moveRight.1.Score = (g.withGrid (mirrorH g.Board.Grid)).moveLeft.1.Score) ∧
    (g.moveUp.2.Board.Grid
        = transposeGrid (g.withGrid (transposeGrid g.Board.Grid)).moveLeft.2.Board.Grid ∧
      g.moveUp.1.Score = (g.withGrid (transposeGrid g.Board.Grid)).moveLeft.1.Score) ∧
    (g.moveDown.2.Board.Grid = mirrorV (g.withGrid (mirrorV g.Board.Grid)).moveUp.2.Board.Grid ∧
      g.moveDown.1.Score = (g.withGrid (mirrorV g.Board.Grid)).moveUp.1.Score) ∧
    (∀ (dir : Direction) (i k : Fin BoardSize),
      dirLine dir g.Board.Grid i k = g.Board.Grid (dirCell dir i k).1 (dirCell dir i k).2 ∧
      (g.applyDir dir).2.Board.Grid (dirCell dir i k).1 (dirCell dir i k).2
        = (compressAndMergeWithTracking (dirLine dir g.Board.Grid i) (dirPos dir)).1 k) := by
  refine ⟨⟨?_, ?_⟩, ⟨?_, ?_⟩, ⟨?_, ?_⟩, ?_⟩
  · rw [moveRight_game, moveLeft_game]
    rfl
  · rw [moveRight_result, moveLeft_result]
    rfl
  · rw [moveUp_game, moveLeft_game]
    rfl
  · rw [moveUp_result, moveLeft_result]
    rfl
  · rw [moveDown_game, moveUp_game]
    rfl
  · rw [moveDown_result, moveUp_result]
    rfl
  · intro dir i k
    rw [applyDir_grid, cam_line]
    cases dir
    · exact ⟨rfl, rfl⟩
    · refine ⟨rfl, ?_⟩
      show reduceLine (fun j => g.Board.Grid (mirror j) i) (mirror (mirror k)) = _
      rw [mirror_mirror]
      rfl
    · exact ⟨rfl, rfl⟩
    · refine ⟨rfl, ?_⟩
      show reduceLine (fun j => g.Board.Grid i (mirror j)) (mirror (mirror k)) = _
      rw [mirror_mirror]
      rfl

/-- C18 fails for `moveRight` and `moveDown`. With a single tile in the top
right corner `moveRight` changes no cell but returns one record (from the
corner to itself); with a single tile in the top left corner `moveRight` moves
the tile across the row but returns no record; `moveDown` does the same on the
transposed grids. -/
theorem C18_right_records_diverge :
    ((sessionOf gridCornerRight).moveRight.2.Board.Grid = gridCornerRight ∧
      (sessionOf gridCornerRight).moveRight.1.Moves =
        [{ From := { Row := 0, Col := 3 }, To := { Row := 0, Col := 3 }, Value := 2,
           Merged := false }]) ∧
    ((sessionOf gridCornerLeft).moveRight.2.Board.Grid = gridCornerRight ∧
      (sessionOf gridCornerLeft).moveRight.2.Board.Grid ≠ gridCornerLeft ∧
      (sessionOf gridCornerLeft).moveRight.1.Moves = []) ∧
    ((sessionOf (transposeGrid gridCornerRight)).moveDown.2.Board.Grid
        = transposeGrid gridCornerRight ∧
      (sessionOf (transposeGrid gridCornerRight)).moveDown.1.Moves =
        [{ From := { Row := 3, Col := 0 }, To := { Row := 3, Col := 0 }, Value := 2,
           Merged := false }]) ∧
    ((sessionOf gridCornerLeft).moveDown.2.Board.Grid ≠ gridCornerLeft ∧
      (sessionOf gridCornerLeft).moveDown.1.Moves = []) := by
  decide

/-- C19. A tile is always spawned after an accepted move: when the transform
of a direction changes the board, the transformed board has a zero cell and
`SpawnTile` on it returns a position; on a running session `Move` then returns
`Moved = true` with a `NewTile` position whose cell was empty after the
transform. -/
theorem C19_spawn_after_move (g : Game) (dir : Direction) (rnd : Rand)
    (hchg : (g.applyDir dir).2.Board.Grid ≠ g.Board.Grid) :
    (∃ r c, (g.applyDir dir).2.Board.Grid r c = 0) ∧
    ((g.applyDir dir).2.Board.SpawnTile rnd).1 ≠ none ∧
    (g.GameOver = false →
      ∃ res r c, (g.Move dir rnd).1 = some res ∧ res.Moved = true ∧
        res.NewTile = some { Row := idx r, Col := idx c } ∧
        (g.applyDir dir).2.Board.Grid r c = 0) := by
  have hchg2 := hchg
  rw [applyDir_grid] at hchg2
  have hempty := dirGrid_empty dir _ hchg2
  refine ⟨by rw [applyDir_grid]; exact hempty, ?_, ?_⟩
  · rw [applyDir_game]
    obtain ⟨r, c, _, hsp⟩ := SpawnTile_of_empty ⟨dirGrid dir g.Board.Grid⟩ rnd hempty
    simp only
    rw [hsp]
    exact Option.some_ne_none _
  · intro hover
    obtain ⟨r, c, hz, hmove⟩ := Move_of_changed g dir rnd hover hchg2
    exact ⟨_, r, c, by rw [hmove], rfl, rfl, by rw [applyDir_grid]; exact hz⟩

set_option maxRecDepth 100000 in
theorem C19_spawn_after_move_witness :
    ((sessionOf gridPair).applyDir Direction.Left).2.Board.Grid ≠ (sessionOf gridPair).Board.Grid ∧
    (sessionOf gridPair).GameOver = false ∧
    ∃ res r c, ((sessionOf gridPair).Move Direction.Left ⟨7, true⟩).1 = some res ∧
      res.Moved = true ∧ res.NewTile = some { Row := idx r, Col := idx c } ∧
      ((sessionOf gridPair).applyDir Direction.Left).2.Board.Grid r c = 0 :=
  ⟨by decide, rfl,
    (C19_spawn_after_move (sessionOf gridPair) Direction.Left ⟨7, true⟩ (by decide)).2.2 rfl⟩

/-- C20. On a board with a non-zero cell `canMove` is true exactly when one of
the four direction transforms changes the board; so when `Move` sets GameOver
every direction is a no-op on the board it leaves. On the all-zero board
`canMove` is true although no direction changes it. -/
theorem C20_canMove_iff (g : Game) (hnz : ∃ r c, g.Board.Grid r c ≠ 0) :
    (g.canMove = true ↔ ∃ dir, (g.applyDir dir).2.Board.Grid ≠ g.Board.Grid) ∧
    (∀ (g2 : Game) (dir : Direction) (rnd : Rand), g2.GameOver = false →
      (g2.Move dir rnd).2.GameOver = true →
      ∀ dir2, ((g2.Move dir rnd).2.applyDir dir2).2.Board.Grid
        = (g2.Move dir rnd).2.Board.Grid) ∧
    ((sessionOf gridZero).canMove = true ∧
      ∀ dir, ((sessionOf gridZero).applyDir dir).2.Board.Grid = gridZero) := by
  refine ⟨canMove_iff_changes g hnz, ?_, by decide, ?_⟩
  · intro g2 dir rnd hover hset dir2
    by_cases hchg : dirGrid dir g2.Board.Grid = g2.Board.Grid
    · rw [Move_of_same g2 dir rnd hover hchg, hover] at hset
      exact absurd hset (by decide)
    · obtain ⟨r, c, _, hmove⟩ := Move_of_changed g2 dir rnd hover hchg
      rw [hmove] at hset ⊢
      simp only [Bool.not_eq_true'] at hset
      rw [applyDir_grid]
      exact canMove_false_noop _ ((canMove_congr _ _ rfl).trans hset) dir2
  · intro dir
    rw [applyDir_grid]
    cases dir <;> decide

theorem C20_canMove_iff_witness :
    (∃ r c, (sessionOf gridPair).Board.Grid r c ≠ 0) ∧
    ((sessionOf gridPair).canMove = true ↔
      ∃ dir, ((sessionOf gridPair).applyDir dir).2.Board.Grid
        ≠ (sessionOf gridPair).Board.Grid) :=
  ⟨by decide, (C20_canMove_iff (sessionOf gridPair) (by decide)).1⟩

end Game2048
